import Mathlib

/-!
# Kuiper: configuration versioning, diff and placement

A shallow embedding of the Go sources of `kuiper` (packages `domain`, `store`,
`services`) together with theorems about the diff engine, the versioned
configuration store and the placement engine.

Conventions of the embedding:

* a Go `map[string]string` is a list of entries with pairwise distinct keys;
  the list order stands for the (unspecified) iteration order of `range`;
* the etcd key space is an association list from keys to serialized values;
* results of external collaborators (authorizer, node registry, queue, JSON
  codec, clock, uuid and random generators) are explicit arguments;
* where a property speaks about the requests sent to the node registry, the
  registry client is passed as state and every client call adds its request
  to that state (`MagnetarClient`, `PlacementService.PlaceRecorded`).
-/

namespace Kuiper

/-! ## Package `domain`: parameter sets and diffs -/

/-- A Go `map[string]string`. The entries are listed in the order in which a
`range` loop visits them; the keys are pairwise distinct. -/
structure ParamMap where
  entries : List (String × String)
  nodup : (entries.map Prod.fst).Nodup

/-- The lookup `m[key]` with its `ok` flag: `none` when the key is absent. -/
def ParamMap.get (m : ParamMap) (key : String) : Option String :=
  m.entries.lookup key

/-- The empty (or nil) map. -/
def ParamMap.empty : ParamMap := ⟨[], List.nodup_nil⟩

/-- The interface `Diff` with its three implementations `Addition`, `Replace`
and `Deletion` (diff.go). -/
inductive Diff where
  | Addition (Key Value : String)
  | Replace (Key New Old : String)
  | Deletion (Key Value : String)
  deriving DecidableEq, Repr

/-- The field `Key` of a diff entry. -/
def Diff.Key : Diff → String
  | .Addition k _ => k
  | .Replace k _ _ => k
  | .Deletion k _ => k

/-- The struct `NamedParamSet` (config.go). -/
structure NamedParamSet where
  name : String
  params : ParamMap

/-- The first loop of `NamedParamSet.Diff`: one step for an entry of the new map. -/
def diffStepNew (labelsLatest : ParamMap) (diffs : List Diff) (e : String × String) : List Diff :=
  match labelsLatest.get e.1 with
  | none => diffs ++ [Diff.Addition e.1 e.2]
  | some labelL => if e.2 ≠ labelL then diffs ++ [Diff.Replace e.1 e.2 labelL] else diffs

/-- The second loop of `NamedParamSet.Diff`: one step for an entry of the reference map. -/
def diffStepLatest (labelsNew : ParamMap) (diffs : List Diff) (e : String × String) : List Diff :=
  match labelsNew.get e.1 with
  | none => diffs ++ [Diff.Deletion e.1 e.2]
  | some _ => diffs

/-- The method `func (ps NamedParamSet) Diff(cmp NamedParamSet) []Diff` (config.go 81-122). -/
def NamedParamSet.Diff (ps cmp : NamedParamSet) : List Diff :=
  let labelsNew := ps.params
  let labelsLatest := cmp.params
  let diffs := labelsNew.entries.foldl (diffStepNew labelsLatest) []
  labelsLatest.entries.foldl (diffStepLatest labelsNew) diffs

/-- The struct `ConfigBase` (config.go). -/
structure ConfigBase where
  org : String
  namespace_ : String
  version : String
  createdAt : Int

/-- The struct `StandaloneConfig` (config.go). -/
structure StandaloneConfig where
  base : ConfigBase
  paramSet : NamedParamSet

/-- The method `StandaloneConfig.Name`. -/
def StandaloneConfig.Name (c : StandaloneConfig) : String := c.paramSet.name

/-- The method `StandaloneConfig.ParamSet`. -/
def StandaloneConfig.ParamSet (c : StandaloneConfig) : ParamMap := c.paramSet.params

/-- The method `func (c *StandaloneConfig) Diff(cmp *StandaloneConfig) []Diff` (config.go 160-162). -/
def StandaloneConfig.Diff (c cmp : StandaloneConfig) : List Diff :=
  c.paramSet.Diff cmp.paramSet

/-- The entry that the first loop of `NamedParamSet.Diff` emits for an entry of the
new map, if any. -/
def emitNew (labelsLatest : ParamMap) (e : String × String) : Option Diff :=
  match labelsLatest.get e.1 with
  | none => some (Diff.Addition e.1 e.2)
  | some labelL => if e.2 ≠ labelL then some (Diff.Replace e.1 e.2 labelL) else none

/-- The entry that the second loop of `NamedParamSet.Diff` emits for an entry of the
reference map, if any. -/
def emitLatest (labelsNew : ParamMap) (e : String × String) : Option Diff :=
  match labelsNew.get e.1 with
  | none => some (Diff.Deletion e.1 e.2)
  | some _ => none

/-- The reference set of the example: the mapping a ↦ 1, b ↦ 2. -/
def exampleReference : NamedParamSet :=
  ⟨"svc", ⟨[("a", "1"), ("b", "2")], by decide⟩⟩

/-- The new set of the example: the mapping b ↦ 3, c ↦ 4. -/
def exampleNew : NamedParamSet :=
  ⟨"svc", ⟨[("b", "3"), ("c", "4")], by decide⟩⟩

/-- The constants `ConfTypeStandalone` and `ConfTypeGroup` (config.go 9-12). -/
def ConfTypeStandalone : String := "standalone"

/-- The constant `ConfTypeGroup`. -/
def ConfTypeGroup : String := "groups"

/-- The constructor `NewParamSet`. -/
def NewParamSet (name : String) (params : ParamMap) : NamedParamSet := ⟨name, params⟩

/-- The constructor `InitStandaloneConfig`. -/
def InitStandaloneConfig (org namespace_ version : String) (createdAt : Int)
    (paramSet : NamedParamSet) : StandaloneConfig :=
  ⟨⟨org, namespace_, version, createdAt⟩, paramSet⟩

/-- The struct `ConfigGroup` (config.go). -/
structure ConfigGroup where
  base : ConfigBase
  name : String
  paramSets : List NamedParamSet

/-- The constructor `InitConfigGroup`. -/
def InitConfigGroup (org namespace_ name version : String) (createdAt : Int)
    (paramSets : List NamedParamSet) : ConfigGroup :=
  ⟨⟨org, namespace_, version, createdAt⟩, name, paramSets⟩

/-- Modelled from the spec: the error kinds of `domain.Error`, whose declaration is not in
the source tree; the constructors are the constants the sources use
(`ErrTypeDb`, `ErrTypeMarshalSS`, `ErrTypeNotFound`, `ErrTypeVersionExists`,
`ErrTypeUnauthorized`, `ErrTypeInternal`, `ErrTypeSchemaInvalid`). -/
inductive ErrorType where
  | ErrTypeDb
  | ErrTypeMarshalSS
  | ErrTypeNotFound
  | ErrTypeVersionExists
  | ErrTypeUnauthorized
  | ErrTypeInternal
  | ErrTypeSchemaInvalid
  deriving DecidableEq, Repr

/-- Modelled from the spec: the value `*domain.Error` with its accessors `ErrType()` and
`Message()`; the declaration is not in the source tree. -/
structure Error where
  errType : ErrorType
  message : String
  deriving DecidableEq, Repr

/-- Modelled from the spec: the constructor `domain.NewError(errType, message)`, not in the
source tree. -/
def NewError (errType : ErrorType) (message : String) : Error := ⟨errType, message⟩

/-- The result of a Go call that returns a value and a `*domain.Error`: `ok` stands for a
nil error, `error` for a non-nil one and `fault` for a run-time panic of the call. -/
inductive Outcome (α : Type) where
  | ok (a : α)
  | error (e : Error)
  | fault

/-- The key space of the etcd cluster: keys with their serialized values, at most the first
entry of a key being visible. -/
structure Etcd where
  kvs : List (String × String)

/-- The value stored under a key, if any. -/
def Etcd.get (kv : Etcd) (key : String) : Option String := kv.kvs.lookup key

/-- The key space after `KV.Put(key, value)`. -/
def Etcd.put (kv : Etcd) (key value : String) : Etcd :=
  ⟨(key, value) :: kv.kvs.filter (fun e => e.1 ≠ key)⟩

/-- The key space after `KV.Delete(key)`. -/
def Etcd.delete (kv : Etcd) (key : String) : Etcd :=
  ⟨kv.kvs.filter (fun e => e.1 ≠ key)⟩

/-- The response of a committed transaction: only `Succeeded` is read. -/
structure TxnResponse where
  Succeeded : Bool

/-- The client call `KV.Txn(ctx).If(CreateRevision(key)).Then(OpPut(key, value)).Commit()`.
The comparison holds when the key has create revision 0, that is, when it is absent; then
the put is applied. The call returns a response pointer (nil on failure) and an error;
`ioErr` is the I/O error of the call, if it fails, and a failed call changes nothing. -/
def Etcd.TxnCreate (ioErr : Option String) (kv : Etcd) (key value : String) :
    (Option TxnResponse × Option String) × Etcd :=
  match ioErr with
  | some e => ((none, some e), kv)
  | none =>
    match kv.get key with
    | none => ((some ⟨true⟩, none), kv.put key value)
    | some _ => ((some ⟨false⟩, none), kv)

/-- The client call `KV.Get(ctx, key)`: the list `resp.Kvs` of values found under the key,
or the I/O error. -/
def Etcd.Get (ioErr : Option String) (kv : Etcd) (key : String) : Except String (List String) :=
  match ioErr with
  | some e => .error e
  | none => .ok (kv.get key).toList

/-- The client call `KV.Delete(ctx, key, WithPrevKV())`: the list `resp.PrevKvs` of the values
removed, with the new key space, or the I/O error. -/
def Etcd.Delete (ioErr : Option String) (kv : Etcd) (key : String) :
    Except String (List String) × Etcd :=
  match ioErr with
  | some e => (.error e, kv)
  | none => (.ok (kv.get key).toList, kv.delete key)

/-- The functions `json.Marshal` and `json.Unmarshal` of `encoding/json` at a record type. -/
structure JsonCodec (α : Type) where
  Marshal : α → Except String String
  Unmarshal : String → Except String α

/-- The struct `StandaloneConfigDAO` (standalone_config_etcd.go 123-130). -/
structure StandaloneConfigDAO where
  Org : String
  Namespace : String
  Name : String
  Version : String
  CreatedAt : Int
  ParamSet : ParamMap

/-- The method `StandaloneConfigDAO.Key`. -/
def StandaloneConfigDAO.Key (dao : StandaloneConfigDAO) : String :=
  "standalone/" ++ dao.Org ++ "/" ++ dao.Namespace ++ "/" ++ dao.Name ++ "/" ++ dao.Version

/-- The record that `StandaloneConfigEtcdStore.Put` builds from a configuration. -/
def StandaloneConfigDAO.ofConfig (config : StandaloneConfig) : StandaloneConfigDAO :=
  { Org := config.base.org, Namespace := config.base.namespace_, Name := config.Name,
    Version := config.base.version, CreatedAt := config.base.createdAt,
    ParamSet := config.ParamSet }

/-- The key under which `Get` and `Delete` look a tuple up. -/
def standaloneKey (org namespace_ name version : String) : String :=
  StandaloneConfigDAO.Key
    { Org := org, Namespace := namespace_, Name := name, Version := version, CreatedAt := 0,
      ParamSet := ParamMap.empty }

/-- The configuration that `Get` and `Delete` rebuild from a stored record. -/
def StandaloneConfigDAO.toConfig (dao : StandaloneConfigDAO) : StandaloneConfig :=
  InitStandaloneConfig dao.Org dao.Namespace dao.Version dao.CreatedAt
    (NewParamSet dao.Name dao.ParamSet)

/-- The method `StandaloneConfigEtcdStore.Put` (standalone_config_etcd.go 23-47). The field
`Succeeded` of the response is read before the error is looked at, so a nil response
faults. -/
def StandaloneConfigEtcdStore.Put (json : JsonCodec StandaloneConfigDAO) (ioErr : Option String)
    (kv : Etcd) (config : StandaloneConfig) : Outcome Unit × Etcd :=
  let dao := StandaloneConfigDAO.ofConfig config
  let key := dao.Key
  match json.Marshal dao with
  | .error err => (.error (NewError .ErrTypeMarshalSS err), kv)
  | .ok value =>
    match kv.TxnCreate ioErr key value with
    | ((none, _), kv1) => (.fault, kv1)
    | ((some resp, err), kv1) =>
      if !resp.Succeeded then
        (.error (NewError .ErrTypeVersionExists
          ("standalone config (Org: " ++ config.base.org ++ ", name: " ++ config.Name
            ++ ", version: " ++ config.base.version ++ ") already exists")), kv1)
      else
        match err with
        | some e => (.error (NewError .ErrTypeDb e), kv1)
        | none => (.ok (), kv1)

/-- The method `StandaloneConfigEtcdStore.Get` (standalone_config_etcd.go 49-72). -/
def StandaloneConfigEtcdStore.Get (json : JsonCodec StandaloneConfigDAO) (ioErr : Option String)
    (kv : Etcd) (org namespace_ name version : String) : Outcome StandaloneConfig :=
  let key := standaloneKey org namespace_ name version
  match kv.Get ioErr key with
  | .error err => .error (NewError .ErrTypeDb err)
  | .ok [] =>
    .error (NewError .ErrTypeNotFound
      ("standalone config (Org: " ++ org ++ ", name: " ++ name ++ ", version: " ++ version
        ++ ") not found"))
  | .ok (value :: _) =>
    match json.Unmarshal value with
    | .error err => .error (NewError .ErrTypeMarshalSS err)
    | .ok dao => .ok dao.toConfig

/-- The method `StandaloneConfigEtcdStore.Delete` (standalone_config_etcd.go 98-121). -/
def StandaloneConfigEtcdStore.Delete (json : JsonCodec StandaloneConfigDAO)
    (ioErr : Option String) (kv : Etcd) (org namespace_ name version : String) :
    Outcome StandaloneConfig × Etcd :=
  let key := standaloneKey org namespace_ name version
  match kv.Delete ioErr key with
  | (.error err, kv1) => (.error (NewError .ErrTypeDb err), kv1)
  | (.ok [], kv1) =>
    (.error (NewError .ErrTypeNotFound
      ("standalone config (Org: " ++ org ++ ", name: " ++ name ++ ", version: " ++ version
        ++ ") not found")), kv1)
  | (.ok (value :: _), kv1) =>
    match json.Unmarshal value with
    | .error err => (.error (NewError .ErrTypeMarshalSS err), kv1)
    | .ok dao => (.ok dao.toConfig, kv1)

/-- One element of `ConfigGroupDAO.ParamsSets`: the anonymous struct with the fields `Name`
and `ParamSet`. -/
structure ParamSetDAO where
  Name : String
  ParamSet : ParamMap

/-- The struct `ConfigGroupDAO` (config_group_etcd.go 145-155). -/
structure ConfigGroupDAO where
  Org : String
  Namespace : String
  Name : String
  Version : String
  CreatedAt : Int
  ParamsSets : List ParamSetDAO

/-- The method `ConfigGroupDAO.Key`. -/
def ConfigGroupDAO.Key (dao : ConfigGroupDAO) : String :=
  "groups/" ++ dao.Org ++ "/" ++ dao.Namespace ++ "/" ++ dao.Name ++ "/" ++ dao.Version

/-- The record that `ConfigGroupEtcdStore.Put` builds from a group: the loop over
`config.ParamSets()` appends one element per sub-set. -/
def ConfigGroupDAO.ofConfig (config : ConfigGroup) : ConfigGroupDAO :=
  { Org := config.base.org, Namespace := config.base.namespace_, Name := config.name,
    Version := config.base.version, CreatedAt := config.base.createdAt,
    ParamsSets := config.paramSets.foldl (fun acc ps => acc ++ [⟨ps.name, ps.params⟩]) [] }

/-- The method `ConfigGroupEtcdStore.Put` (config_group_etcd.go 23-56). -/
def ConfigGroupEtcdStore.Put (json : JsonCodec ConfigGroupDAO) (ioErr : Option String)
    (kv : Etcd) (config : ConfigGroup) : Outcome Unit × Etcd :=
  let dao := ConfigGroupDAO.ofConfig config
  let key := dao.Key
  match json.Marshal dao with
  | .error err => (.error (NewError .ErrTypeMarshalSS err), kv)
  | .ok value =>
    match kv.TxnCreate ioErr key value with
    | ((none, _), kv1) => (.fault, kv1)
    | ((some resp, err), kv1) =>
      if !resp.Succeeded then
        (.error (NewError .ErrTypeVersionExists
          ("config group (Org: " ++ config.base.org ++ ", name: " ++ config.name
            ++ ", version: " ++ config.base.version ++ ") already exists")), kv1)
      else
        match err with
        | some e => (.error (NewError .ErrTypeDb e), kv1)
        | none => (.ok (), kv1)

/-- Modelled from the spec: the authorization collaborator `AuthZService` with the
permission and resource names the services pass to it (`PermConfigGet`, `PermConfigPut`,
`PermNsPut`, `OortResConfig`, `OortResNamespace`, `OortResOrg`, `OortConfigId`); their
declarations are not in the source tree. `Authorize` is an opaque boolean gate over
(permission, resource kind, resource id). -/
structure AuthZService where
  Authorize : String → String → String → Bool
  PermConfigGet : String
  PermConfigPut : String
  PermNsPut : String
  OortResConfig : String
  OortResNamespace : String
  OortResOrg : String
  OortConfigId : String → String → String → String → String → String

/-- The method `StandaloneConfigService.Get` (services/standalone_config.go 102-107). -/
def StandaloneConfigService.Get (authorizer : AuthZService) (json : JsonCodec StandaloneConfigDAO)
    (ioErr : Option String) (kv : Etcd) (org namespace_ name version : String) :
    Outcome StandaloneConfig :=
  if !authorizer.Authorize authorizer.PermConfigGet authorizer.OortResConfig
      (authorizer.OortConfigId ConfTypeStandalone org namespace_ name version) then
    .error (NewError .ErrTypeUnauthorized ("Permission denied: " ++ authorizer.PermConfigGet))
  else
    StandaloneConfigEtcdStore.Get json ioErr kv org namespace_ name version

/-- The method `StandaloneConfigService.Delete` (services/standalone_config.go 116-121). The
store method is declared as `Delete(ctx, org, namespace, name, version)`; the call passes
`org, name, namespace, version`. -/
def StandaloneConfigService.Delete (authorizer : AuthZService)
    (json : JsonCodec StandaloneConfigDAO) (ioErr : Option String) (kv : Etcd)
    (org namespace_ name version : String) : Outcome StandaloneConfig × Etcd :=
  if !authorizer.Authorize authorizer.PermConfigPut authorizer.OortResConfig
      (authorizer.OortConfigId ConfTypeStandalone org namespace_ name version) then
    (.error (NewError .ErrTypeUnauthorized ("Permission denied: " ++ authorizer.PermConfigPut)),
      kv)
  else
    StandaloneConfigEtcdStore.Delete json ioErr kv org name namespace_ version

/-- The method `StandaloneConfigService.Diff` (services/standalone_config.go 123-139);
`ioErr1` and `ioErr2` are the I/O errors of the two `store.Get` calls. -/
def StandaloneConfigService.Diff (authorizer : AuthZService)
    (json : JsonCodec StandaloneConfigDAO) (ioErr1 ioErr2 : Option String) (kv : Etcd)
    (referenceOrg referenceNamespace referenceName referenceVersion : String)
    (diffOrg diffNamespace diffName diffVersion : String) : Outcome (List Diff) :=
  if !authorizer.Authorize authorizer.PermConfigGet authorizer.OortResConfig
      (authorizer.OortConfigId ConfTypeStandalone referenceOrg referenceNamespace referenceName
        referenceVersion) then
    .error (NewError .ErrTypeUnauthorized ("Permission denied: " ++ authorizer.PermConfigGet))
  else if !authorizer.Authorize authorizer.PermConfigGet authorizer.OortResConfig
      (authorizer.OortConfigId ConfTypeStandalone diffOrg diffNamespace diffName diffVersion) then
    .error (NewError .ErrTypeUnauthorized ("Permission denied: " ++ authorizer.PermConfigGet))
  else
    match StandaloneConfigEtcdStore.Get json ioErr1 kv referenceOrg referenceNamespace
        referenceName referenceVersion with
    | .error err => .error err
    | .fault => .fault
    | .ok reference =>
      match StandaloneConfigEtcdStore.Get json ioErr2 kv diffOrg diffNamespace diffName
          diffVersion with
      | .error err => .error err
      | .fault => .fault
      | .ok diff => .ok (diff.Diff reference)

/-- An authorizer that grants every request, for the examples. -/
def allowAll : AuthZService :=
  { Authorize := fun _ _ _ => true,
    PermConfigGet := "config.get", PermConfigPut := "config.put",
    PermNsPut := "namespace.putconfig", OortResConfig := "config",
    OortResNamespace := "namespace", OortResOrg := "org",
    OortConfigId := fun t org ns name version =>
      t ++ "/" ++ org ++ "/" ++ ns ++ "/" ++ name ++ "/" ++ version }

/-- The stored record of version `v1` of the example configuration `acme/prod/svc`. -/
def exampleDaoV1 : StandaloneConfigDAO :=
  ⟨"acme", "prod", "svc", "v1", 0, exampleReference.params⟩

/-- The stored record of version `v2` of the example configuration `acme/prod/svc`. -/
def exampleDaoV2 : StandaloneConfigDAO :=
  ⟨"acme", "prod", "svc", "v2", 0, exampleNew.params⟩

/-- A codec for the examples: it writes a record as its version tag and reads the two tags
`v1` and `v2` back as the two example records. -/
def exampleJson : JsonCodec StandaloneConfigDAO :=
  { Marshal := fun dao => .ok dao.Version,
    Unmarshal := fun s =>
      if s = "v1" then .ok exampleDaoV1
      else if s = "v2" then .ok exampleDaoV2
      else .error "unexpected end of JSON input" }

/-- A key space that holds the two example records. -/
def exampleEtcd : Etcd :=
  ⟨[("standalone/acme/prod/svc/v1", "v1"), ("standalone/acme/prod/svc/v2", "v2")]⟩

/-- A group codec for the examples: it writes a record as its version tag and reads
nothing back. -/
def exampleGroupJson : JsonCodec ConfigGroupDAO :=
  { Marshal := fun dao => .ok dao.Version,
    Unmarshal := fun _ => .error "unexpected end of JSON input" }

/-- A group `acme/prod/bundle` at version `v1` with one sub-set, for the examples. -/
def exampleGroup : ConfigGroup :=
  InitConfigGroup "acme" "prod" "bundle" "v1" 0 [exampleReference]

/-- A Go `map[string][]Diff`: the result of `ConfigGroup.Diff`, keys pairwise distinct. -/
structure DiffMap where
  entries : List (String × List Diff)

/-- The read `diffs[name]`: the nil slice when the name has no entry. -/
def DiffMap.get (m : DiffMap) (name : String) : List Diff :=
  (m.entries.lookup name).getD []

/-- Whether the name has an entry in the map. -/
def DiffMap.contains (m : DiffMap) (name : String) : Bool :=
  (m.entries.lookup name).isSome

/-- The assignment `diffs[name] = value`. -/
def DiffMap.set (m : DiffMap) (name : String) (value : List Diff) : DiffMap :=
  ⟨(name, value) :: m.entries.filter (fun e => e.1 ≠ name)⟩

/-- The method `ConfigGroup.ParamSet` (config.go 207-214): the first sub-set of that name. -/
def ConfigGroup.ParamSet (c : ConfigGroup) (name : String) : Except Error NamedParamSet :=
  match c.paramSets.find? (fun ps => ps.name == name) with
  | some ps => .ok ps
  | none => .error (NewError .ErrTypeNotFound ("param set (name: " ++ name ++ ") not found"))

/-- The inner loop of the first half of `ConfigGroup.Diff`: one `Addition` per entry of a
sub-set that the reference lacks, appended to `diffs[name]`. -/
def appendAdditions (name : String) (params : ParamMap) (diffs : DiffMap) : DiffMap :=
  params.entries.foldl
    (fun diffs e => diffs.set name (diffs.get name ++ [Diff.Addition e.1 e.2])) diffs

/-- The inner loop of the second half of `ConfigGroup.Diff`: one `Deletion` per entry of a
sub-set that the new group lacks, appended to `diffs[name]`. -/
def appendDeletions (name : String) (params : ParamMap) (diffs : DiffMap) : DiffMap :=
  params.entries.foldl
    (fun diffs e => diffs.set name (diffs.get name ++ [Diff.Deletion e.1 e.2])) diffs

/-- The body of the first loop of `ConfigGroup.Diff`, for one sub-set of the new group. -/
def groupStepNew (groupLatest : ConfigGroup) (diffs : DiffMap) (newParamSet : NamedParamSet) :
    DiffMap :=
  match groupLatest.ParamSet newParamSet.name with
  | .error _ => appendAdditions newParamSet.name newParamSet.params diffs
  | .ok latestParamSet => diffs.set newParamSet.name (newParamSet.Diff latestParamSet)

/-- The body of the second loop of `ConfigGroup.Diff`, for one sub-set of the reference. -/
def groupStepLatest (groupNew : ConfigGroup) (diffs : DiffMap) (latestParamSet : NamedParamSet) :
    DiffMap :=
  match groupNew.ParamSet latestParamSet.name with
  | .error _ => appendDeletions latestParamSet.name latestParamSet.params diffs
  | .ok _ => diffs

/-- The method `func (c *ConfigGroup) Diff(cmp *ConfigGroup) map[string][]Diff`
(config.go 216-251). -/
def ConfigGroup.Diff (c cmp : ConfigGroup) : DiffMap :=
  let groupNew := c
  let groupLatest := cmp
  let diffs := groupNew.paramSets.foldl (groupStepNew groupLatest) ⟨[]⟩
  groupLatest.paramSets.foldl (groupStepLatest groupNew) diffs

/-- A reference group with two sub-sets of the same name `x`, both holding the key `a`. -/
def dupReference : ConfigGroup :=
  InitConfigGroup "acme" "prod" "bundle" "v1" 0
    [⟨"x", ⟨[("a", "1")], by decide⟩⟩, ⟨"x", ⟨[("a", "2")], by decide⟩⟩]

/-- The empty group. -/
def emptyGroup : ConfigGroup := InitConfigGroup "acme" "prod" "bundle" "v2" 0 []

/-! ## Package `domain`: placement tasks -/

/-- The type `PlacementTaskStatus` (an `int8`) with its three constants. -/
abbrev PlacementTaskStatus := Int

/-- The constant `PlacementTaskStatusAccepted`. -/
def PlacementTaskStatusAccepted : PlacementTaskStatus := 0

/-- The constant `PlacementTaskStatusPlaced`. -/
def PlacementTaskStatusPlaced : PlacementTaskStatus := 1

/-- The constant `PlacementTaskStatusFailed`. -/
def PlacementTaskStatusFailed : PlacementTaskStatus := 2

/-- The struct `PlacementTask` (domain/placement.go 29-35). -/
structure PlacementTask where
  id : String
  node : String
  status : PlacementTaskStatus
  acceptedAt : Int
  resolvedAt : Int
  deriving DecidableEq, Repr

/-- The constructor `NewPlacementTask` (domain/placement.go 37-45). -/
def NewPlacementTask (id node : String) (status : PlacementTaskStatus)
    (acceptedAt resolvedAt : Int) : PlacementTask :=
  { id := id, node := node, status := status, acceptedAt := acceptedAt,
    resolvedAt := resolvedAt }

/-- The interface `Config` with its two implementations. -/
inductive Config where
  | standalone (c : StandaloneConfig)
  | group (c : ConfigGroup)

/-- The method `Config.Org`. -/
def Config.Org : Config → String
  | .standalone c => c.base.org
  | .group c => c.base.org

/-- The method `Config.Namespace`. -/
def Config.Namespace : Config → String
  | .standalone c => c.base.namespace_
  | .group c => c.base.namespace_

/-- The method `Config.Name`. -/
def Config.Name : Config → String
  | .standalone c => c.Name
  | .group c => c.name

/-- The method `Config.Version`. -/
def Config.Version : Config → String
  | .standalone c => c.base.version
  | .group c => c.base.version

/-- The method `Config.Type`. -/
def Config.Type : Config → String
  | .standalone _ => ConfTypeStandalone
  | .group _ => ConfTypeGroup

/-! ## Package `store`: placement tasks -/

/-- The client call `KV.Put(ctx, key, value)`: the I/O error, if the call fails, and the new
key space; a failed call changes nothing. -/
def Etcd.Put (ioErr : Option String) (kv : Etcd) (key value : String) : Option String × Etcd :=
  match ioErr with
  | some e => (some e, kv)
  | none => (none, kv.put key value)

/-- The struct `PlacementTaskDAO` (placement_etcd.go 111-121). -/
structure PlacementTaskDAO where
  Id : String
  Org : String
  Namespace : String
  Name : String
  Version : String
  Node : String
  Status : PlacementTaskStatus
  AcceptedAt : Int
  ResolvedAt : Int

/-- The method `PlacementTaskDAO.Key` (placement_etcd.go 123-125). -/
def PlacementTaskDAO.Key (dao : PlacementTaskDAO) (configType : String) : String :=
  "placements/" ++ configType ++ "/" ++ dao.Org ++ "/" ++ dao.Namespace ++ "/" ++ dao.Name
    ++ "/" ++ dao.Version ++ "/" ++ dao.Id

/-- The record that `PlacementEtcdStore.Place` builds from a configuration and a task. -/
def PlacementTaskDAO.ofTask (config : Config) (req : PlacementTask) : PlacementTaskDAO :=
  { Id := req.id, Org := config.Org, Namespace := config.Namespace, Name := config.Name,
    Version := config.Version, Node := req.node, Status := req.status,
    AcceptedAt := req.acceptedAt, ResolvedAt := req.resolvedAt }

/-- The method `PlacementEtcdStore.Place` (placement_etcd.go 24-48): the returned error, nil
on success, and the new key space. -/
def PlacementEtcdStore.Place (json : JsonCodec PlacementTaskDAO) (ioErr : Option String)
    (kv : Etcd) (config : Config) (req : PlacementTask) : Option Error × Etcd :=
  let dao := PlacementTaskDAO.ofTask config req
  let key := dao.Key config.Type
  match json.Marshal dao with
  | .error err => (some (NewError .ErrTypeMarshalSS err), kv)
  | .ok value =>
    match kv.Put ioErr key value with
    | (some err, kv1) => (some (NewError .ErrTypeDb err), kv1)
    | (none, kv1) => (none, kv1)

/-! ## Package `services`: the placement engine -/

/-- The registry message `magnetarapi.NodeStringified`; the engine reads its field `Id`. -/
structure NodeStringified where
  Id : String
  deriving DecidableEq, Repr

/-- The registry message `magnetarapi.Selector`. -/
structure Selector where
  LabelKey : String
  ShouldBe : Int
  Value : String

/-- The request message `api.PlaceReq_Strategy`; `Query` is `none` for the nil slice. -/
structure PlaceReq_Strategy where
  Name : String
  Query : Option (List Selector)
  Percentage : Int

/-- The request message `agent_queue.DeseminateConfigRequest`. -/
structure DeseminateConfigRequest where
  NodeId : String
  Config : String
  Webhook : String
  deriving DecidableEq, Repr

/-- The number `int(math.Ceil(float64(totalNodes) * float64(percentage) / 100))` of
`selectRandmNodes`, as the exact integer ceiling of `totalNodes * percentage / 100`; the
float64 computation yields this value as long as the product is below `2 ^ 53`. -/
def numberOfNodesToSelect (totalNodes : Nat) (percentage : Int) : Int :=
  -((-((totalNodes : Int) * percentage)) / 100)

/-- The loop of `selectRandmNodes` (placement.go 140-144) with `remaining` iterations left,
`i` being the loop counter. The draw `r.Intn(len(nodes))` is `draws i % len(nodes)`; it
panics, and the result is `none`, when `len(nodes)` is 0. -/
def selectLoop {α : Type} (draws : Nat → Nat) :
    Nat → Nat → List α → List α → Option (List α)
  | 0, _, _, selectedNodes => some selectedNodes
  | remaining + 1, i, nodes, selectedNodes =>
    if nodes.length = 0 then none
    else
      let index := draws i % nodes.length
      match nodes[index]? with
      | none => none
      | some node =>
        selectLoop draws remaining (i + 1) (nodes.eraseIdx index) (selectedNodes ++ [node])

/-- The function `selectRandmNodes` (placement.go 132-147); `draws` is the sequence of
values of the random source, `none` a panic of `rand.Intn`. -/
def selectRandmNodes {α : Type} (draws : Nat → Nat) (nodes : List α) (percentage : Int) :
    Option (List α) :=
  let totalNodes := nodes.length
  let numberOfNodesToSelect := numberOfNodesToSelect totalNodes percentage
  selectLoop draws numberOfNodesToSelect.toNat 0 nodes []

/-- The collaborators of `PlacementService.Place` and what they answer during one call:
the authorizer, the two calls of the node registry, the random source, and, per loop
iteration `i`, the fresh uuid, the clock, the I/O error of the store write and the error
of the queue call. -/
structure PlaceEnv where
  authorizer : AuthZService
  QueryOrgOwnedNodes : String → List Selector → Except String (List NodeStringified)
  ListOrgOwnedNodes : String → Except String (List NodeStringified)
  draws : Nat → Nat
  uuidNew : Nat → String
  now : Nat → Int
  json : JsonCodec PlacementTaskDAO
  putErr : Nat → Option String
  DeseminateConfig : Nat → DeseminateConfigRequest → Option String
  webhookBaseUrl : String

/-- The method `PlacementService.placeByQuery` (placement.go 88-109): the nodes and the
error. -/
def PlacementService.placeByQuery (env : PlaceEnv) (config : Config)
    (nodeQuery : List Selector) : List NodeStringified × Option Error :=
  let query := nodeQuery.foldl (fun query selector =>
    query ++ [({ LabelKey := selector.LabelKey, ShouldBe := selector.ShouldBe,
                 Value := selector.Value } : Selector)]) []
  match env.QueryOrgOwnedNodes config.Org query with
  | .error err => ([], some (NewError .ErrTypeInternal err))
  | .ok nodes => (nodes, none)

/-- The method `PlacementService.placeByGossip` (placement.go 111-130): the nodes and the
error, or `none` when `selectRandmNodes` panics. -/
def PlacementService.placeByGossip (env : PlaceEnv) (config : Config) (percentage : Int) :
    Option (List NodeStringified × Option Error) :=
  match env.ListOrgOwnedNodes config.Org with
  | .error err => some ([], some (NewError .ErrTypeInternal err))
  | .ok queryRespNodes =>
    match selectRandmNodes env.draws queryRespNodes percentage with
    | none => none
    | some nodes => some (nodes, none)

/-- The strategy dispatch of `PlacementService.Place` (placement.go 48-62): the selected
nodes, a validation error, or a fault. The error of the registry call is dropped. -/
def PlacementService.selectNodes (env : PlaceEnv) (config : Config)
    (strategy : PlaceReq_Strategy) : Outcome (List NodeStringified) :=
  if strategy.Name = "default" then
    match strategy.Query with
    | none => .error (NewError .ErrTypeSchemaInvalid "Query is required for default strategy")
    | some query => .ok (PlacementService.placeByQuery env config query).1
  else if strategy.Name = "gossip" then
    if strategy.Percentage = 0 then
      .error (NewError .ErrTypeSchemaInvalid "Percentage can't be 0 for gossip strategy")
    else
      match PlacementService.placeByGossip env config strategy.Percentage with
      | none => .fault
      | some (nodes, _) => .ok nodes
  else
    .error (NewError .ErrTypeSchemaInvalid ("Unknown strategy: " ++ strategy.Name))

/-- The state that the loop of `Place` carries: the tasks collected so far, the key space
and the requests handed to the queue, each with the error the queue answered. -/
structure PlaceState where
  tasks : List PlacementTask
  kv : Etcd
  sent : List (DeseminateConfigRequest × Option String)

/-- The body of the loop of `PlacementService.Place` (placement.go 65-84) for the node at
position `x.1`. -/
def PlacementService.placeStep (env : PlaceEnv) (config : Config)
    (cmd : String → Except Error String) (webhookPath : String) (st : PlaceState)
    (x : Nat × NodeStringified) : PlaceState :=
  let taskId := env.uuidNew x.1
  let acceptedTs := env.now x.1
  let task := NewPlacementTask taskId x.2.Id PlacementTaskStatusAccepted acceptedTs acceptedTs
  match PlacementEtcdStore.Place env.json (env.putErr x.1) st.kv config task with
  | (some _, kv1) => { st with kv := kv1 }
  | (none, kv1) =>
    let tasks := st.tasks ++ [task]
    match cmd taskId with
    | .error _ => { tasks := tasks, kv := kv1, sent := st.sent }
    | .ok cmdMarshalled =>
      let req : DeseminateConfigRequest :=
        { NodeId := x.2.Id, Config := cmdMarshalled,
          Webhook := env.webhookBaseUrl ++ webhookPath }
      { tasks := tasks, kv := kv1, sent := st.sent ++ [(req, env.DeseminateConfig x.1 req)] }

/-- The method `PlacementService.Place` (placement.go 40-86): the returned tasks or error,
with the final key space and the requests handed to the queue. -/
def PlacementService.Place (env : PlaceEnv) (kv : Etcd) (config : Config)
    (strategy : PlaceReq_Strategy) (cmd : String → Except Error String)
    (webhookPath : String) :
    Outcome (List PlacementTask) × Etcd × List (DeseminateConfigRequest × Option String) :=
  if !env.authorizer.Authorize env.authorizer.PermConfigGet env.authorizer.OortResConfig
      (env.authorizer.OortConfigId config.Type config.Org config.Namespace config.Name
        config.Version) then
    (.error (NewError .ErrTypeUnauthorized
      ("Permission denied: " ++ env.authorizer.PermConfigGet)), kv, [])
  else if !env.authorizer.Authorize env.authorizer.PermNsPut env.authorizer.OortResNamespace
      (config.Org ++ "/" ++ config.Namespace) then
    (.error (NewError .ErrTypeUnauthorized
      ("Permission denied: " ++ env.authorizer.PermNsPut)), kv, [])
  else
    match PlacementService.selectNodes env config strategy with
    | .error err => (.error err, kv, [])
    | .fault => (.fault, kv, [])
    | .ok nodes =>
      let st := nodes.enum.foldl (PlacementService.placeStep env config cmd webhookPath)
        { tasks := [], kv := kv, sent := [] }
      (.ok st.tasks, st.kv, st.sent)

/-- A request that the node registry has received: the method of the client
`magnetarapi.MagnetarClient` that was called, with the fields of its request message. -/
inductive RegistryCall where
  | QueryOrgOwnedNodes (org : String) (query : List Selector)
  | ListOrgOwnedNodes (org : String)

/-- The registry client `s.magnetar` as a state: the requests it has sent to the registry so
far, oldest first. -/
structure MagnetarClient where
  calls : List RegistryCall

/-- The client call `s.magnetar.QueryOrgOwnedNodes(ctx, queryReq)`: the answer of the
registry, and the client with the request recorded. -/
def MagnetarClient.QueryOrgOwnedNodes (env : PlaceEnv) (magnetar : MagnetarClient)
    (org : String) (query : List Selector) :
    Except String (List NodeStringified) × MagnetarClient :=
  (env.QueryOrgOwnedNodes org query, ⟨magnetar.calls ++ [.QueryOrgOwnedNodes org query]⟩)

/-- The client call `s.magnetar.ListOrgOwnedNodes(ctx, queryReq)`: the answer of the
registry, and the client with the request recorded. -/
def MagnetarClient.ListOrgOwnedNodes (env : PlaceEnv) (magnetar : MagnetarClient)
    (org : String) : Except String (List NodeStringified) × MagnetarClient :=
  (env.ListOrgOwnedNodes org, ⟨magnetar.calls ++ [.ListOrgOwnedNodes org]⟩)

/-- The method `PlacementService.placeByQuery` (placement.go 88-109) with the registry
client passed as state: the nodes and the error, and the client after the call. -/
def PlacementService.placeByQueryRecorded (env : PlaceEnv) (magnetar : MagnetarClient)
    (config : Config) (nodeQuery : List Selector) :
    (List NodeStringified × Option Error) × MagnetarClient :=
  let query := nodeQuery.foldl (fun query selector =>
    query ++ [({ LabelKey := selector.LabelKey, ShouldBe := selector.ShouldBe,
                 Value := selector.Value } : Selector)]) []
  match MagnetarClient.QueryOrgOwnedNodes env magnetar config.Org query with
  | (.error err, magnetar1) => (([], some (NewError .ErrTypeInternal err)), magnetar1)
  | (.ok nodes, magnetar1) => ((nodes, none), magnetar1)

/-- The method `PlacementService.placeByGossip` (placement.go 111-130) with the registry
client passed as state: the nodes and the error, or `none` when `selectRandmNodes` panics,
and the client after the call. -/
def PlacementService.placeByGossipRecorded (env : PlaceEnv) (magnetar : MagnetarClient)
    (config : Config) (percentage : Int) :
    Option (List NodeStringified × Option Error) × MagnetarClient :=
  match MagnetarClient.ListOrgOwnedNodes env magnetar config.Org with
  | (.error err, magnetar1) => (some ([], some (NewError .ErrTypeInternal err)), magnetar1)
  | (.ok queryRespNodes, magnetar1) =>
    match selectRandmNodes env.draws queryRespNodes percentage with
    | none => (none, magnetar1)
    | some nodes => (some (nodes, none), magnetar1)

/-- The strategy dispatch of `PlacementService.Place` (placement.go 48-62) with the registry
client passed as state: the selected nodes, a validation error, or a fault, and the client
as the dispatch leaves it. The two validation checks return before `placeByQuery` and
`placeByGossip` are called. -/
def PlacementService.selectNodesRecorded (env : PlaceEnv) (magnetar : MagnetarClient)
    (config : Config) (strategy : PlaceReq_Strategy) :
    Outcome (List NodeStringified) × MagnetarClient :=
  if strategy.Name = "default" then
    match strategy.Query with
    | none =>
      (.error (NewError .ErrTypeSchemaInvalid "Query is required for default strategy"),
        magnetar)
    | some query =>
      match PlacementService.placeByQueryRecorded env magnetar config query with
      | ((nodes, _), magnetar1) => (.ok nodes, magnetar1)
  else if strategy.Name = "gossip" then
    if strategy.Percentage = 0 then
      (.error (NewError .ErrTypeSchemaInvalid "Percentage can't be 0 for gossip strategy"),
        magnetar)
    else
      match PlacementService.placeByGossipRecorded env magnetar config
          strategy.Percentage with
      | (none, magnetar1) => (.fault, magnetar1)
      | (some (nodes, _), magnetar1) => (.ok nodes, magnetar1)
  else
    (.error (NewError .ErrTypeSchemaInvalid ("Unknown strategy: " ++ strategy.Name)),
      magnetar)

/-- The method `PlacementService.Place` (placement.go 40-86) with the registry client passed
as state: the returned tasks or error, the final key space and the requests handed to the
queue, and the registry client as the call leaves it. -/
def PlacementService.PlaceRecorded (env : PlaceEnv) (magnetar : MagnetarClient) (kv : Etcd)
    (config : Config) (strategy : PlaceReq_Strategy) (cmd : String → Except Error String)
    (webhookPath : String) :
    (Outcome (List PlacementTask) × Etcd × List (DeseminateConfigRequest × Option String))
      × MagnetarClient :=
  if !env.authorizer.Authorize env.authorizer.PermConfigGet env.authorizer.OortResConfig
      (env.authorizer.OortConfigId config.Type config.Org config.Namespace config.Name
        config.Version) then
    ((.error (NewError .ErrTypeUnauthorized
      ("Permission denied: " ++ env.authorizer.PermConfigGet)), kv, []), magnetar)
  else if !env.authorizer.Authorize env.authorizer.PermNsPut env.authorizer.OortResNamespace
      (config.Org ++ "/" ++ config.Namespace) then
    ((.error (NewError .ErrTypeUnauthorized
      ("Permission denied: " ++ env.authorizer.PermNsPut)), kv, []), magnetar)
  else
    match PlacementService.selectNodesRecorded env magnetar config strategy with
    | (.error err, magnetar1) => ((.error err, kv, []), magnetar1)
    | (.fault, magnetar1) => ((.fault, kv, []), magnetar1)
    | (.ok nodes, magnetar1) =>
      let st := nodes.enum.foldl (PlacementService.placeStep env config cmd webhookPath)
        { tasks := [], kv := kv, sent := [] }
      ((.ok st.tasks, st.kv, st.sent), magnetar1)

/-- The task that the loop of `Place` creates for the node at position `x.1`. -/
def PlaceEnv.taskFor (env : PlaceEnv) (x : Nat × NodeStringified) : PlacementTask :=
  NewPlacementTask (env.uuidNew x.1) x.2.Id PlacementTaskStatusAccepted (env.now x.1)
    (env.now x.1)

/-- Whether the store write for the node at position `x.1` succeeds: the task record is
serialized and the etcd call of that iteration returns no error. -/
def PlaceEnv.writeOk (env : PlaceEnv) (config : Config) (x : Nat × NodeStringified) : Bool :=
  match env.json.Marshal (PlacementTaskDAO.ofTask config (env.taskFor x)) with
  | .error _ => false
  | .ok _ => (env.putErr x.1).isNone

/-- An environment for the examples: every permission granted, a registry with the three
nodes `n1`, `n2`, `n3`, and a store whose write fails in the second iteration only. -/
def exampleEnv : PlaceEnv :=
  { authorizer := allowAll,
    QueryOrgOwnedNodes := fun _ _ => .ok [⟨"n1"⟩, ⟨"n2"⟩, ⟨"n3"⟩],
    ListOrgOwnedNodes := fun _ => .ok [⟨"n1"⟩, ⟨"n2"⟩, ⟨"n3"⟩],
    draws := fun i => i,
    uuidNew := fun i => match i with
      | 0 => "t1"
      | 1 => "t2"
      | _ => "t3",
    now := fun i => 1700000000 + i,
    json := { Marshal := fun dao => .ok dao.Id,
              Unmarshal := fun _ => .error "unexpected end of JSON input" },
    putErr := fun i => if i = 1 then some "etcdserver: request timed out" else none,
    DeseminateConfig := fun _ _ => none,
    webhookBaseUrl := "http://kuiper:8080" }

/-- The query strategy with one selector, for the examples. -/
def exampleStrategy : PlaceReq_Strategy :=
  { Name := "default", Query := some [⟨"zone", 0, "eu"⟩], Percentage := 0 }

/-! ## Package `store`: reading configuration groups back -/

/-- The key under which `ConfigGroupEtcdStore.Get` and `Delete` look a tuple up. -/
def groupKey (org namespace_ name version : String) : String :=
  ConfigGroupDAO.Key
    { Org := org, Namespace := namespace_, Name := name, Version := version, CreatedAt := 0,
      ParamsSets := [] }

/-- The group that `ConfigGroupEtcdStore.Get` rebuilds from a stored record: the loop over
`dao.ParamsSets` appends one sub-set per element. -/
def ConfigGroupDAO.toConfig (dao : ConfigGroupDAO) : ConfigGroup :=
  InitConfigGroup dao.Org dao.Namespace dao.Name dao.Version dao.CreatedAt
    (dao.ParamsSets.foldl (fun paramSets psDao =>
      paramSets ++ [NewParamSet psDao.Name psDao.ParamSet]) [])

/-- The method `ConfigGroupEtcdStore.Get` (config_group_etcd.go 58-85). -/
def ConfigGroupEtcdStore.Get (json : JsonCodec ConfigGroupDAO) (ioErr : Option String)
    (kv : Etcd) (org namespace_ name version : String) : Outcome ConfigGroup :=
  let key := groupKey org namespace_ name version
  match kv.Get ioErr key with
  | .error err => .error (NewError .ErrTypeDb err)
  | .ok [] =>
    .error (NewError .ErrTypeNotFound
      ("config group (Org: " ++ org ++ ", name: " ++ name ++ ", version: " ++ version
        ++ ") not found"))
  | .ok (value :: _) =>
    match json.Unmarshal value with
    | .error err => .error (NewError .ErrTypeMarshalSS err)
    | .ok dao => .ok dao.toConfig

/-- A group codec for the examples that reads every value back as the record of the example
group. -/
def exampleGroupJsonBack : JsonCodec ConfigGroupDAO :=
  { Marshal := fun dao => .ok dao.Version,
    Unmarshal := fun _ => .ok (ConfigGroupDAO.ofConfig exampleGroup) }

/-! ## Package `store`: status updates and listing of placement tasks -/

/-- The entries that are visible in the key space: the first entry of every key. -/
def Etcd.visible (kv : Etcd) : List (String × String) :=
  kv.kvs.foldr (fun e acc => e :: acc.filter (fun x => x.1 ≠ e.1)) []

/-- The client call `KV.Get(ctx, key, WithPrefix())`: the list `resp.Kvs` of the visible
entries whose key starts with `pfx`, in key order, or the I/O error. -/
def Etcd.GetPrefix (ioErr : Option String) (kv : Etcd) (pfx : String) :
    Except String (List (String × String)) :=
  match ioErr with
  | some e => .error e
  | none =>
    .ok ((kv.visible.filter (fun e => pfx.data.isPrefixOf e.1.data)).insertionSort
      (fun a b => a.1.data ≤ b.1.data))

/-- The key under which `PlacementEtcdStore.UpdateStatus` looks a task up
(placement_etcd.go 76-82). -/
def placementKey (configType org namespace_ name version taskId : String) : String :=
  PlacementTaskDAO.Key
    { Id := taskId, Org := org, Namespace := namespace_, Name := name, Version := version,
      Node := "", Status := 0, AcceptedAt := 0, ResolvedAt := 0 } configType

/-- The method `PlacementTaskDAO.KeyPrefixByConfig` (placement_etcd.go 127-129). -/
def PlacementTaskDAO.KeyPrefixByConfig (dao : PlacementTaskDAO) (configType : String) : String :=
  "placements/" ++ configType ++ "/" ++ dao.Org ++ "/" ++ dao.Namespace ++ "/" ++ dao.Name
    ++ "/" ++ dao.Version ++ "/"

/-- The two assignments `dao.Status = status` and `dao.ResolvedAt = time.Now().Unix()` of
`UpdateStatus` (placement_etcd.go 96-97). -/
def PlacementTaskDAO.resolve (dao : PlacementTaskDAO) (status : PlacementTaskStatus)
    (now : Int) : PlacementTaskDAO :=
  { dao with Status := status, ResolvedAt := now }

/-- The method `PlacementEtcdStore.UpdateStatus` (placement_etcd.go 75-109): the returned
error, nil on success, and the new key space. `ioErrGet` and `ioErrPut` are the I/O errors
of the two client calls, `now` is the value of `time.Now().Unix()`. -/
def PlacementEtcdStore.UpdateStatus (json : JsonCodec PlacementTaskDAO)
    (ioErrGet ioErrPut : Option String) (now : Int) (kv : Etcd)
    (org namespace_ name version configType taskId : String) (status : PlacementTaskStatus) :
    Option Error × Etcd :=
  let key := placementKey configType org namespace_ name version taskId
  match kv.Get ioErrGet key with
  | .error err => (some (NewError .ErrTypeDb err), kv)
  | .ok [] => (some (NewError .ErrTypeNotFound ("task (id=" ++ taskId ++ ") not found")), kv)
  | .ok (stored :: _) =>
    match json.Unmarshal stored with
    | .error err => (some (NewError .ErrTypeMarshalSS err), kv)
    | .ok dao =>
      match json.Marshal (dao.resolve status now) with
      | .error err => (some (NewError .ErrTypeMarshalSS err), kv)
      | .ok value =>
        match kv.Put ioErrPut key value with
        | (some err, kv1) => (some (NewError .ErrTypeDb err), kv1)
        | (none, kv1) => (none, kv1)

/-- The method `PlacementEtcdStore.ListByConfig` (placement_etcd.go 50-73); a value that does
not decode is skipped. -/
def PlacementEtcdStore.ListByConfig (json : JsonCodec PlacementTaskDAO) (ioErr : Option String)
    (kv : Etcd) (org namespace_ name version configType : String) :
    Outcome (List PlacementTask) :=
  let key := PlacementTaskDAO.KeyPrefixByConfig
    { Id := "", Org := org, Namespace := namespace_, Name := name, Version := version,
      Node := "", Status := 0, AcceptedAt := 0, ResolvedAt := 0 } configType
  match kv.GetPrefix ioErr key with
  | .error err => .error (NewError .ErrTypeDb err)
  | .ok kvs =>
    .ok (kvs.foldl (fun reqs e =>
      match json.Unmarshal e.2 with
      | .error _ => reqs
      | .ok dao =>
        reqs ++ [NewPlacementTask dao.Id dao.Node dao.Status dao.AcceptedAt dao.ResolvedAt]) [])

/-- The method `PlacementService.List` (services/placement.go 149-151). -/
def PlacementService.List (json : JsonCodec PlacementTaskDAO) (ioErr : Option String)
    (kv : Etcd) (org namespace_ name version configType : String) :
    Outcome (List PlacementTask) :=
  PlacementEtcdStore.ListByConfig json ioErr kv org namespace_ name version configType

/-- The method `PlacementService.UpdateStatus` (services/placement.go 153-155). -/
def PlacementService.UpdateStatus (json : JsonCodec PlacementTaskDAO)
    (ioErrGet ioErrPut : Option String) (now : Int) (kv : Etcd)
    (org namespace_ name version configType taskId : String) (status : PlacementTaskStatus) :
    Option Error × Etcd :=
  PlacementEtcdStore.UpdateStatus json ioErrGet ioErrPut now kv org namespace_ name version
    configType taskId status

/-- A task record of the example configuration `acme/prod/svc` at `v1`. -/
def exampleTaskDao (id node : String) (status : PlacementTaskStatus)
    (acceptedAt resolvedAt : Int) : PlacementTaskDAO :=
  { Id := id, Org := "acme", Namespace := "prod", Name := "svc", Version := "v1", Node := node,
    Status := status, AcceptedAt := acceptedAt, ResolvedAt := resolvedAt }

/-- A task codec for the examples: it writes a record as `id:status:resolvedAt` and reads the
five records of the examples back. -/
def exampleTaskJson : JsonCodec PlacementTaskDAO :=
  { Marshal := fun dao =>
      .ok (dao.Id ++ ":"
        ++ (if dao.Status = 0 then "A" else if dao.Status = 1 then "P" else "F") ++ ":"
        ++ (if dao.ResolvedAt = 100 then "100" else if dao.ResolvedAt = 160 then "160"
            else "200")),
    Unmarshal := fun s =>
      if s = "t1:A:100" then .ok (exampleTaskDao "t1" "n1" 0 100 100)
      else if s = "t2:A:100" then .ok (exampleTaskDao "t2" "n2" 0 100 100)
      else if s = "t1:P:100" then .ok (exampleTaskDao "t1" "n1" 1 100 100)
      else if s = "t1:P:160" then .ok (exampleTaskDao "t1" "n1" 1 100 160)
      else if s = "t1:F:200" then .ok (exampleTaskDao "t1" "n1" 2 100 200)
      else .error "unexpected end of JSON input" }

/-- A key space with the two tasks `t1` and `t2` of the example configuration, both accepted
at time 100. -/
def exampleTaskEtcd : Etcd :=
  ⟨[("placements/standalone/acme/prod/svc/v1/t1", "t1:A:100"),
    ("placements/standalone/acme/prod/svc/v1/t2", "t2:A:100")]⟩

/-- A key space with the task `t1` of the example configuration, placed at time 160. -/
def examplePlacedEtcd : Etcd :=
  ⟨[("placements/standalone/acme/prod/svc/v1/t1", "t1:P:160")]⟩

/-- The key under which the loop of `Place` stores the task of the node at position
`x.1`. -/
def PlaceEnv.keyFor (env : PlaceEnv) (config : Config) (x : Nat × NodeStringified) : String :=
  (PlacementTaskDAO.ofTask config (env.taskFor x)).Key config.Type

/-- The gossip strategy with the given percentage, for the examples. -/
def exampleGossip (percentage : Int) : PlaceReq_Strategy :=
  { Name := "gossip", Query := none, Percentage := percentage }

/-- The query strategy with a selector list that is present and has no element. -/
def exampleEmptyQuery : PlaceReq_Strategy :=
  { Name := "default", Query := some [], Percentage := 0 }

/-! ## Package `api` and the reply path -/

/-- Modelled from the spec: the protobuf message `api.Param`, whose generated declaration is
not in the source tree; the fields are those the sources set. -/
structure ApiParam where
  Key : String
  Value : String

/-- Modelled from the spec: the protobuf message `api.StandaloneConfig`, whose generated
declaration is not in the source tree; the fields are those the sources set and read. -/
structure ApiStandaloneConfig where
  Organization : String
  Namespace : String
  Name : String
  Version : String
  CreatedAt : String
  ParamSet : List ApiParam

/-- Modelled from the spec: the protobuf message `api.NamedParamSet`, whose generated
declaration is not in the source tree. -/
structure ApiNamedParamSet where
  Name : String
  ParamSet : List ApiParam

/-- Modelled from the spec: the protobuf message `api.ConfigGroup`, whose generated
declaration is not in the source tree; the fields are those the sources set and read. -/
structure ApiConfigGroup where
  Organization : String
  Namespace : String
  Name : String
  Version : String
  CreatedAt : String
  ParamSets : List ApiNamedParamSet

/-- Modelled from the spec: the protobuf message `api.ApplyConfigCommand`
(`taskId, namespace, configPayload, artifactKind, strategyName`), whose generated
declaration is not in the source tree. -/
structure ApplyConfigCommand where
  TaskId : String
  Namespace : String
  Config : String
  Type_ : String
  Strategy : String

/-- Modelled from the spec: the protobuf message `api.ApplyConfigReply` (`cmd, status`),
whose generated declaration is not in the source tree; `Cmd` is a pointer, `none` when
nil. -/
structure ApplyConfigReply where
  Cmd : Option ApplyConfigCommand
  Status : Int

/-- Modelled from the spec: the constants `TaskStatus_Placed` and `TaskStatus_Failed` of the
protobuf enum `api.TaskStatus`, whose generated declaration is not in the source tree; their
numbers are parameters, distinct as the cases of one `switch` are. -/
structure ApiTaskStatus where
  TaskStatus_Placed : Int
  TaskStatus_Failed : Int
  distinct : TaskStatus_Placed ≠ TaskStatus_Failed

/-- The functions `proto.Marshal` and `proto.Unmarshal` at a message type. -/
structure ProtoCodec (α : Type) where
  Marshal : α → Except String String
  Unmarshal : String → Except String α

/-- The protobuf runtime as the services and the reply handlers use it: the codecs of the
four messages, the numbers of the status enum and the rendering `time.Time.String()` of a
Unix time. -/
structure ProtoEnv where
  standalone : ProtoCodec ApiStandaloneConfig
  group : ProtoCodec ApiConfigGroup
  command : ProtoCodec ApplyConfigCommand
  reply : ProtoCodec ApplyConfigReply
  taskStatus : ApiTaskStatus
  timeString : Int → String

/-- The function `mapParamSet` (services/standalone_config.go 181-187). -/
def mapParamSet (params : ParamMap) : List ApiParam :=
  params.entries.foldl (fun paramSet e => paramSet ++ [⟨e.1, e.2⟩]) []

/-- The function `mapParamSets` (services/config_group.go). -/
def mapParamSets (paramSets : List NamedParamSet) : List ApiNamedParamSet :=
  paramSets.foldl (fun protoParamSets paramSet =>
    protoParamSets ++ [⟨paramSet.name, mapParamSet paramSet.params⟩]) []

/-- The message `api.StandaloneConfig` that the command closure of
`StandaloneConfigService.Place` builds (services/standalone_config.go 147-154); its
namespace is the argument `namespace` of `Place`. -/
def StandaloneConfigService.apiConfig (proto : ProtoEnv) (config : StandaloneConfig)
    (namespace_ : String) : ApiStandaloneConfig :=
  { Organization := config.base.org, Namespace := namespace_, Name := config.Name,
    Version := config.base.version, CreatedAt := proto.timeString config.base.createdAt,
    ParamSet := mapParamSet config.ParamSet }

/-- The command closure of `StandaloneConfigService.Place`
(services/standalone_config.go 146-171). -/
def StandaloneConfigService.placeCmd (proto : ProtoEnv) (config : StandaloneConfig)
    (namespace_ : String) (strategy : PlaceReq_Strategy) (taskId : String) :
    Except Error String :=
  match proto.standalone.Marshal (StandaloneConfigService.apiConfig proto config namespace_) with
  | .error err => .error (NewError .ErrTypeMarshalSS err)
  | .ok configMarshalled =>
    match proto.command.Marshal
        { TaskId := taskId, Namespace := namespace_, Config := configMarshalled,
          Type_ := "standalone", Strategy := strategy.Name } with
    | .error err => .error (NewError .ErrTypeMarshalSS err)
    | .ok cmdMarshalled => .ok cmdMarshalled

/-- The method `StandaloneConfigService.Place` (services/standalone_config.go 141-172). -/
def StandaloneConfigService.Place (env : PlaceEnv) (proto : ProtoEnv)
    (json : JsonCodec StandaloneConfigDAO) (ioErrGet : Option String) (kv : Etcd)
    (org namespace_ name version : String) (strategy : PlaceReq_Strategy) :
    Outcome (List PlacementTask) × Etcd × List (DeseminateConfigRequest × Option String) :=
  match StandaloneConfigEtcdStore.Get json ioErrGet kv org namespace_ name version with
  | .error err => (.error err, kv, [])
  | .fault => (.fault, kv, [])
  | .ok config =>
    PlacementService.Place env kv (.standalone config) strategy
      (StandaloneConfigService.placeCmd proto config namespace_ strategy) "/standalone"

/-- The message `api.ConfigGroup` that the command closure of `ConfigGroupService.Place`
builds (services/config_group.go); its namespace is the one of the stored group. -/
def ConfigGroupService.apiConfig (proto : ProtoEnv) (config : ConfigGroup) : ApiConfigGroup :=
  { Organization := config.base.org, Namespace := config.base.namespace_, Name := config.name,
    Version := config.base.version, CreatedAt := proto.timeString config.base.createdAt,
    ParamSets := mapParamSets config.paramSets }

/-- The command closure of `ConfigGroupService.Place` (services/config_group.go). -/
def ConfigGroupService.placeCmd (proto : ProtoEnv) (config : ConfigGroup)
    (namespace_ : String) (strategy : PlaceReq_Strategy) (taskId : String) :
    Except Error String :=
  match proto.group.Marshal (ConfigGroupService.apiConfig proto config) with
  | .error err => .error (NewError .ErrTypeMarshalSS err)
  | .ok configMarshalled =>
    match proto.command.Marshal
        { TaskId := taskId, Namespace := namespace_, Config := configMarshalled,
          Type_ := "group", Strategy := strategy.Name } with
    | .error err => .error (NewError .ErrTypeMarshalSS err)
    | .ok cmdMarshalled => .ok cmdMarshalled

/-- The method `ConfigGroupService.Place` (services/config_group.go). -/
def ConfigGroupService.Place (env : PlaceEnv) (proto : ProtoEnv)
    (json : JsonCodec ConfigGroupDAO) (ioErrGet : Option String) (kv : Etcd)
    (org namespace_ name version : String) (strategy : PlaceReq_Strategy) :
    Outcome (List PlacementTask) × Etcd × List (DeseminateConfigRequest × Option String) :=
  match ConfigGroupEtcdStore.Get json ioErrGet kv org namespace_ name version with
  | .error err => (.error err, kv, [])
  | .fault => (.fault, kv, [])
  | .ok config =>
    PlacementService.Place env kv (.group config) strategy
      (ConfigGroupService.placeCmd proto config namespace_ strategy) "/groups"

/-- The function `mapStatus` (servers/task_webhook.go 89-98). -/
def mapStatus (ts : ApiTaskStatus) (protoStatus : Int) : PlacementTaskStatus × Bool :=
  if protoStatus = ts.TaskStatus_Placed then (PlacementTaskStatusPlaced, true)
  else if protoStatus = ts.TaskStatus_Failed then (PlacementTaskStatusFailed, true)
  else (PlacementTaskStatusFailed, false)

/-- What a reply handler did with a request: it answered 400 because the body could not be
read, it dropped the reply before calling `UpdateStatus`, it called `UpdateStatus` (with
the error that call returned), or it faulted. -/
inductive ReplyResult where
  | badRequest
  | dropped
  | updated (err : Option Error)
  | fault

/-- The handler `TaskWebhooks.UpdateStandaloneConfigTaskStatus`
(servers/task_webhook.go 25-55); `body` is the result of `io.ReadAll(r.Body)`. Reading
`reply.Cmd.Config` faults when `reply.Cmd` is nil. -/
def TaskWebhooks.UpdateStandaloneConfigTaskStatus (proto : ProtoEnv)
    (json : JsonCodec PlacementTaskDAO) (ioErrGet ioErrPut : Option String) (now : Int)
    (kv : Etcd) (body : Except String String) : ReplyResult × Etcd :=
  match body with
  | .error _ => (.badRequest, kv)
  | .ok body =>
    match proto.reply.Unmarshal body with
    | .error _ => (.dropped, kv)
    | .ok reply =>
      match reply.Cmd with
      | none => (.fault, kv)
      | some cmd =>
        match proto.standalone.Unmarshal cmd.Config with
        | .error _ => (.dropped, kv)
        | .ok config =>
          if !(mapStatus proto.taskStatus reply.Status).2 then (.dropped, kv)
          else
            match PlacementService.UpdateStatus json ioErrGet ioErrPut now kv
                config.Organization config.Namespace config.Name config.Version
                ConfTypeStandalone cmd.TaskId (mapStatus proto.taskStatus reply.Status).1 with
            | (updateErr, kv1) => (.updated updateErr, kv1)

/-- The handler `TaskWebhooks.UpdateConfigGroupTaskStatus` (servers/task_webhook.go 57-87). -/
def TaskWebhooks.UpdateConfigGroupTaskStatus (proto : ProtoEnv)
    (json : JsonCodec PlacementTaskDAO) (ioErrGet ioErrPut : Option String) (now : Int)
    (kv : Etcd) (body : Except String String) : ReplyResult × Etcd :=
  match body with
  | .error _ => (.badRequest, kv)
  | .ok body =>
    match proto.reply.Unmarshal body with
    | .error _ => (.dropped, kv)
    | .ok reply =>
      match reply.Cmd with
      | none => (.fault, kv)
      | some cmd =>
        match proto.group.Unmarshal cmd.Config with
        | .error _ => (.dropped, kv)
        | .ok config =>
          if !(mapStatus proto.taskStatus reply.Status).2 then (.dropped, kv)
          else
            match PlacementService.UpdateStatus json ioErrGet ioErrPut now kv
                config.Organization config.Namespace config.Name config.Version
                ConfTypeGroup cmd.TaskId (mapStatus proto.taskStatus reply.Status).1 with
            | (updateErr, kv1) => (.updated updateErr, kv1)

/-- The message of the example configuration `acme/prod/svc` at `v1`. -/
def exampleApiConfig : ApiStandaloneConfig :=
  { Organization := "acme", Namespace := "prod", Name := "svc", Version := "v1",
    CreatedAt := "1970-01-01 00:00:00 +0000 UTC", ParamSet := [⟨"a", "1"⟩, ⟨"b", "2"⟩] }

/-- The message of the example group `acme/prod/bundle` at `v1`. -/
def exampleApiGroup : ApiConfigGroup :=
  { Organization := "acme", Namespace := "prod", Name := "bundle", Version := "v1",
    CreatedAt := "1970-01-01 00:00:00 +0000 UTC",
    ParamSets := [⟨"svc", [⟨"a", "1"⟩, ⟨"b", "2"⟩]⟩] }

/-- A protobuf runtime for the examples: a configuration is written as its name and read
back as the example message of its kind, a command as its task id; the two bodies
`reply-standalone` and `reply-group` decode to a Placed reply for the task `t1`. -/
def exampleProto : ProtoEnv :=
  { standalone := { Marshal := fun x => .ok x.Name, Unmarshal := fun _ => .ok exampleApiConfig },
    group := { Marshal := fun x => .ok x.Name, Unmarshal := fun _ => .ok exampleApiGroup },
    command := { Marshal := fun x => .ok x.TaskId,
                 Unmarshal := fun _ => .error "proto: cannot parse invalid wire-format data" },
    reply := { Marshal := fun _ => .ok "reply",
               Unmarshal := fun body =>
                 if body = "reply-standalone" then
                   .ok ⟨some ⟨"t1", "prod", "svc", "standalone", "default"⟩, 1⟩
                 else if body = "reply-group" then
                   .ok ⟨some ⟨"t1", "prod", "bundle", "group", "default"⟩, 1⟩
                 else .error "proto: cannot parse invalid wire-format data" },
    taskStatus := ⟨1, 2, by decide⟩,
    timeString := fun _ => "1970-01-01 00:00:00 +0000 UTC" }

/-- The example environment with a registry that fails every call. -/
def exampleEnvDown : PlaceEnv :=
  { exampleEnv with
    QueryOrgOwnedNodes := fun _ _ => .error "rpc error: code = Unavailable",
    ListOrgOwnedNodes := fun _ => .error "rpc error: code = Unavailable" }

/-! ## Package `servers`: error mapping -/

/-- The gRPC status codes `codes.*` that `mapError` returns. -/
inductive Code where
  | NotFound
  | AlreadyExists
  | PermissionDenied
  | InvalidArgument
  | Internal
  | Unknown
  deriving DecidableEq, Repr

/-- The error `status.Error(code, message)` of the gRPC runtime. -/
structure GrpcStatus where
  code : Code
  message : String
  deriving DecidableEq, Repr

/-- The `switch err.ErrType()` of `mapError` (servers/kuiper_grpc.go 285-302); the kind is
`none` when it is none of the seven constants, which is the `default` case. -/
def mapErrorKind (kind : Option ErrorType) (message : String) : GrpcStatus :=
  match kind with
  | some .ErrTypeDb => ⟨.Internal, message⟩
  | some .ErrTypeMarshalSS => ⟨.Internal, message⟩
  | some .ErrTypeNotFound => ⟨.NotFound, message⟩
  | some .ErrTypeVersionExists => ⟨.AlreadyExists, message⟩
  | some .ErrTypeUnauthorized => ⟨.PermissionDenied, message⟩
  | some .ErrTypeInternal => ⟨.Internal, message⟩
  | some .ErrTypeSchemaInvalid => ⟨.InvalidArgument, message⟩
  | none => ⟨.Unknown, message⟩

/-- The function `mapError` (servers/kuiper_grpc.go 281-303): nil for a nil error. -/
def mapError (err : Option Error) : Option GrpcStatus :=
  match err with
  | none => none
  | some e => some (mapErrorKind (some e.errType) e.message)

/-- The method `ConfigGroupEtcdStore.Delete` (config_group_etcd.go 116-143). -/
def ConfigGroupEtcdStore.Delete (json : JsonCodec ConfigGroupDAO)
    (ioErr : Option String) (kv : Etcd) (org namespace_ name version : String) :
    Outcome ConfigGroup × Etcd :=
  let key := groupKey org namespace_ name version
  match kv.Delete ioErr key with
  | (.error err, kv1) => (.error (NewError .ErrTypeDb err), kv1)
  | (.ok [], kv1) =>
    (.error (NewError .ErrTypeNotFound
      ("config group (Org: " ++ org ++ ", name: " ++ name ++ ", version: " ++ version
        ++ ") not found")), kv1)
  | (.ok (value :: _), kv1) =>
    match json.Unmarshal value with
    | .error err => (.error (NewError .ErrTypeMarshalSS err), kv1)
    | .ok dao => (.ok dao.toConfig, kv1)

/-! ## Applying a diff -/

/-- The value that a diff entry leaves under its key when it is applied: the value of an
`Addition`, the new value of a `Replace`, nothing for a `Deletion`. -/
def Diff.result : Diff → Option String
  | .Addition _ v => some v
  | .Replace _ n _ => some n
  | .Deletion _ _ => none

/-- Applying one diff entry to a mapping, given as its lookup function: an `Addition`
inserts its key with its value, a `Replace` sets its key to its new value, a `Deletion`
removes its key. -/
def applyDiff (m : String → Option String) (d : Diff) : String → Option String :=
  fun key => if key = d.Key then d.result else m key

/-- Applying the entries of a diff, in order. -/
def applyDiffs (diffs : List Diff) (m : String → Option String) : String → Option String :=
  diffs.foldl applyDiff m

/-! ## Key layout -/

/-- An identifier that contains no `/` character. -/
abbrev SlashFree (s : String) : Prop := '/' ∉ s.data

/-- That the string `s` starts with the string `pfx`, as the prefix scan compares them. -/
abbrev StartsWith (s pfx : String) : Prop := pfx.data <+: s.data

/-- The method `StandaloneConfigDAO.KeyPrefixAll` (standalone_config_etcd.go 136-138). -/
def StandaloneConfigDAO.KeyPrefixAll (dao : StandaloneConfigDAO) : String :=
  "standalone/" ++ dao.Org ++ "/" ++ dao.Namespace ++ "/"

/-- The method `ConfigGroupDAO.KeyPrefixAll` (config_group_etcd.go 161-163). -/
def ConfigGroupDAO.KeyPrefixAll (dao : ConfigGroupDAO) : String :=
  "groups/" ++ dao.Org ++ "/" ++ dao.Namespace ++ "/"

/-! ## Package `store`: listing configurations -/

/-- The loop of the `List` methods over `resp.Kvs`: every value is decoded and the artifact
rebuilt from it is appended; a value that does not decode is logged and skipped. -/
def scanDecode {α β : Type} (un : String → Except String α) (f : α → β)
    (kvs : List (String × String)) : List β :=
  kvs.foldl (fun configs e =>
    match un e.2 with
    | .error _ => configs
    | .ok dao => configs ++ [f dao]) []

/-- The method `StandaloneConfigEtcdStore.List` (standalone_config_etcd.go 74-96); a value
that does not decode is skipped. -/
def StandaloneConfigEtcdStore.List (json : JsonCodec StandaloneConfigDAO)
    (ioErr : Option String) (kv : Etcd) (org namespace_ : String) :
    Outcome (List StandaloneConfig) :=
  let key := StandaloneConfigDAO.KeyPrefixAll
    { Org := org, Namespace := namespace_, Name := "", Version := "", CreatedAt := 0,
      ParamSet := ParamMap.empty }
  match kv.GetPrefix ioErr key with
  | .error err => .error (NewError .ErrTypeDb err)
  | .ok kvs => .ok (scanDecode json.Unmarshal StandaloneConfigDAO.toConfig kvs)

/-- The method `ConfigGroupEtcdStore.List` (config_group_etcd.go 87-114); a value that does
not decode is skipped. -/
def ConfigGroupEtcdStore.List (json : JsonCodec ConfigGroupDAO)
    (ioErr : Option String) (kv : Etcd) (org namespace_ : String) :
    Outcome (List ConfigGroup) :=
  let key := ConfigGroupDAO.KeyPrefixAll
    { Org := org, Namespace := namespace_, Name := "", Version := "", CreatedAt := 0,
      ParamsSets := [] }
  match kv.GetPrefix ioErr key with
  | .error err => .error (NewError .ErrTypeDb err)
  | .ok kvs => .ok (scanDecode json.Unmarshal ConfigGroupDAO.toConfig kvs)

/-- The record of a standalone configuration whose namespace contains a `/`. -/
def exampleDaoSlash : StandaloneConfigDAO :=
  ⟨"acme", "prod/eu", "svc", "v1", 0, exampleReference.params⟩

/-- A codec for the examples that reads every value back as the record whose namespace
contains a `/`. -/
def exampleJsonSlash : JsonCodec StandaloneConfigDAO :=
  { Marshal := fun dao => .ok dao.Version,
    Unmarshal := fun _ => .ok exampleDaoSlash }

/-- A key space that holds the standalone configuration whose namespace contains a `/`,
under its own key. -/
def exampleSlashEtcd : Etcd :=
  ⟨[("standalone/acme/prod/eu/svc/v1", "v1")]⟩

/-! # Theorems -/

/-! ## The diff of two parameter sets -/

theorem foldl_diffStepNew (L : ParamMap) (es : List (String × String)) (init : List Diff) :
    es.foldl (diffStepNew L) init = init ++ es.filterMap (emitNew L) := by
  induction es generalizing init with
  | nil => simp
  | cons e es ih =>
    rw [List.foldl_cons, ih, List.filterMap_cons]
    unfold diffStepNew emitNew
    cases hL : L.get e.1 with
    | none => simp
    | some l => by_cases h : e.2 = l <;> simp [h]

theorem foldl_diffStepLatest (N : ParamMap) (es : List (String × String)) (init : List Diff) :
    es.foldl (diffStepLatest N) init = init ++ es.filterMap (emitLatest N) := by
  induction es generalizing init with
  | nil => simp
  | cons e es ih =>
    rw [List.foldl_cons, ih, List.filterMap_cons]
    unfold diffStepLatest emitLatest
    cases hN : N.get e.1 with
    | none => simp
    | some l => simp

theorem NamedParamSet.Diff_eq (ps cmp : NamedParamSet) :
    ps.Diff cmp = ps.params.entries.filterMap (emitNew cmp.params)
      ++ cmp.params.entries.filterMap (emitLatest ps.params) := by
  simp [NamedParamSet.Diff, foldl_diffStepNew, foldl_diffStepLatest]

theorem lookup_eq_none_iff_keys (l : List (String × String)) (k : String) :
    l.lookup k = none ↔ k ∉ l.map Prod.fst := by
  induction l with
  | nil => simp
  | cons e es ih =>
    obtain ⟨a, b⟩ := e
    by_cases h : k = a
    · subst h; simp [List.lookup]
    · have h2 : (k == a) = false := by simpa using h
      simp [List.lookup, h2, ih, h]

theorem lookup_eq_some_iff_mem (l : List (String × String)) (hl : (l.map Prod.fst).Nodup)
    (k v : String) : l.lookup k = some v ↔ (k, v) ∈ l := by
  induction l with
  | nil => simp
  | cons e es ih =>
    obtain ⟨a, b⟩ := e
    rw [List.map_cons, List.nodup_cons] at hl
    by_cases h : k = a
    · subst h
      have hk : ∀ w, (k, w) ∉ es := fun w hw => hl.1 (List.mem_map.mpr ⟨(k, w), hw, rfl⟩)
      simp [List.lookup, hk]
      exact eq_comm
    · have h2 : (k == a) = false := by simpa using h
      simp [List.lookup, h2, ih hl.2, h]

theorem ParamMap.get_eq_some_iff (m : ParamMap) (k v : String) :
    m.get k = some v ↔ (k, v) ∈ m.entries :=
  lookup_eq_some_iff_mem m.entries m.nodup k v

theorem ParamMap.get_eq_none_iff (m : ParamMap) (k : String) :
    m.get k = none ↔ k ∉ m.entries.map Prod.fst :=
  lookup_eq_none_iff_keys m.entries k

theorem emitNew_key {L : ParamMap} {e : String × String} {d : Diff}
    (h : emitNew L e = some d) : d.Key = e.1 := by
  unfold emitNew at h
  split at h
  · cases h; rfl
  · split at h
    · cases h; rfl
    · cases h

theorem emitLatest_key {N : ParamMap} {e : String × String} {d : Diff}
    (h : emitLatest N e = some d) : d.Key = e.1 := by
  unfold emitLatest at h
  split at h
  · cases h; rfl
  · cases h

theorem filterMap_map_sublist {α β γ : Type} (f : α → Option β) (g : β → γ) (h : α → γ)
    (hf : ∀ a b, f a = some b → g b = h a) (l : List α) :
    List.Sublist ((l.filterMap f).map g) (l.map h) := by
  induction l with
  | nil => simp
  | cons a l ih =>
    rw [List.filterMap_cons]
    cases hfa : f a with
    | none => simpa using ih.trans (List.sublist_cons_self _ _)
    | some b =>
      simp only [List.map_cons]
      rw [hf a b hfa]
      exact ih.cons₂ _

theorem mem_Diff_iff (ps cmp : NamedParamSet) (d : Diff) :
    d ∈ ps.Diff cmp ↔
      (∃ k v, d = Diff.Addition k v ∧ ps.params.get k = some v ∧ cmp.params.get k = none) ∨
      (∃ k o n, d = Diff.Replace k n o ∧ ps.params.get k = some n ∧ cmp.params.get k = some o
          ∧ n ≠ o) ∨
      (∃ k v, d = Diff.Deletion k v ∧ cmp.params.get k = some v ∧ ps.params.get k = none) := by
  rw [NamedParamSet.Diff_eq, List.mem_append, List.mem_filterMap, List.mem_filterMap]
  constructor
  · rintro (⟨⟨k, v⟩, hmem, hemit⟩ | ⟨⟨k, v⟩, hmem, hemit⟩)
    · have hget := (ps.params.get_eq_some_iff k v).mpr hmem
      unfold emitNew at hemit
      cases hL : cmp.params.get k with
      | none =>
        simp only [hL] at hemit
        cases hemit
        exact Or.inl ⟨k, v, rfl, hget, hL⟩
      | some l =>
        simp only [hL] at hemit
        by_cases hvl : v = l
        · simp [hvl] at hemit
        · simp only [ne_eq, hvl, not_false_eq_true, ↓reduceIte, Option.some.injEq] at hemit
          cases hemit
          exact Or.inr (Or.inl ⟨k, l, v, rfl, hget, hL, hvl⟩)
    · have hget := (cmp.params.get_eq_some_iff k v).mpr hmem
      unfold emitLatest at hemit
      cases hN : ps.params.get k with
      | none =>
        simp only [hN] at hemit
        cases hemit
        exact Or.inr (Or.inr ⟨k, v, rfl, hget, hN⟩)
      | some l => simp [hN] at hemit
  · rintro (⟨k, v, rfl, hN, hL⟩ | ⟨k, o, n, rfl, hN, hL, hne⟩ | ⟨k, v, rfl, hL, hN⟩)
    · exact Or.inl ⟨(k, v), (ps.params.get_eq_some_iff k v).mp hN, by simp [emitNew, hL]⟩
    · exact Or.inl ⟨(k, n), (ps.params.get_eq_some_iff k n).mp hN, by simp [emitNew, hL, hne]⟩
    · exact Or.inr ⟨(k, v), (cmp.params.get_eq_some_iff k v).mp hL, by simp [emitLatest, hN]⟩

theorem Diff_keys_nodup (ps cmp : NamedParamSet) : ((ps.Diff cmp).map Diff.Key).Nodup := by
  rw [NamedParamSet.Diff_eq, List.map_append, List.nodup_append]
  refine ⟨?_, ?_, ?_⟩
  · exact (filterMap_map_sublist _ _ Prod.fst (fun _ _ h => emitNew_key h) _).nodup ps.params.nodup
  · exact (filterMap_map_sublist _ _ Prod.fst (fun _ _ h => emitLatest_key h) _).nodup
      cmp.params.nodup
  · intro key h1 h2
    have h1k : key ∈ ps.params.entries.map Prod.fst :=
      (filterMap_map_sublist _ _ Prod.fst (fun _ _ h => emitNew_key h) _).subset h1
    obtain ⟨d, hd, rfl⟩ := List.mem_map.mp h2
    obtain ⟨e, _, hemit⟩ := List.mem_filterMap.mp hd
    have hk := emitLatest_key hemit
    unfold emitLatest at hemit
    cases hN : ps.params.get e.1 with
    | none =>
      rw [hk] at h1k
      exact (ps.params.get_eq_none_iff e.1).mp hN h1k
    | some l => simp [hN] at hemit

/-- C1: `new.Diff(reference)` holds, each once and in some order, exactly one
`Addition(k, new[k])` per key only in `new`, one `Replace(k, Old = reference[k], New = new[k])`
per key in both maps with different values and one `Deletion(k, reference[k])` per key only
in `reference`; a key with equal values yields no entry, no key occurs in two entries, and
the example `reference = {a:1, b:2}`, `new = {b:3, c:4}` yields `Deletion(a,1)`,
`Replace(b,2,3)`, `Addition(c,4)`. -/
theorem C1_diff_exact (new reference : NamedParamSet) :
    (∀ d, d ∈ new.Diff reference ↔
      (∃ k v, d = Diff.Addition k v ∧ new.params.get k = some v
          ∧ reference.params.get k = none) ∨
      (∃ k o n, d = Diff.Replace k n o ∧ new.params.get k = some n
          ∧ reference.params.get k = some o ∧ n ≠ o) ∨
      (∃ k v, d = Diff.Deletion k v ∧ reference.params.get k = some v
          ∧ new.params.get k = none)) ∧
    (new.Diff reference).Nodup ∧
    ((new.Diff reference).map Diff.Key).Nodup ∧
    (∀ k v, new.params.get k = some v → reference.params.get k = some v →
      ∀ d ∈ new.Diff reference, d.Key ≠ k) ∧
    (exampleNew.Diff exampleReference).Perm
      [Diff.Deletion "a" "1", Diff.Replace "b" "3" "2", Diff.Addition "c" "4"] := by
  refine ⟨mem_Diff_iff new reference, (Diff_keys_nodup new reference).of_map _,
    Diff_keys_nodup new reference, ?_, by decide⟩
  intro k v hN hL d hd hk
  rcases (mem_Diff_iff new reference d).mp hd with
    ⟨k', v', rfl, _, hL'⟩ | ⟨k', o, n, rfl, hN', hL', hne⟩ | ⟨k', v', rfl, _, hN'⟩
  · simp only [Diff.Key] at hk
    subst hk
    rw [hL] at hL'
    cases hL'
  · simp only [Diff.Key] at hk
    subst hk
    rw [hN] at hN'
    rw [hL] at hL'
    cases hN'
    cases hL'
    exact hne rfl
  · simp only [Diff.Key] at hk
    subst hk
    rw [hN] at hN'
    cases hN'

/-- C2: for every standalone configuration `x`, with any parameter mapping (the empty one
included), `x.Diff(x)` is the empty sequence. -/
theorem C2_diff_self_empty (x : StandaloneConfig) : x.Diff x = [] := by
  apply List.eq_nil_iff_forall_not_mem.mpr
  intro d hd
  rcases (mem_Diff_iff x.paramSet x.paramSet d).mp hd with
    ⟨k, v, _, h1, h2⟩ | ⟨k, o, n, _, h1, h2, hne⟩ | ⟨k, v, _, h1, h2⟩
  · rw [h1] at h2; cases h2
  · rw [h1] at h2; cases h2; exact hne rfl
  · rw [h1] at h2; cases h2

/-- C3: the two directions of the diff mirror each other: `Addition(k, v)` is in `a.Diff(b)`
exactly when `Deletion(k, v)` is in `b.Diff(a)`, and `Replace(k, Old = o, New = n)` is in
`a.Diff(b)` exactly when `Replace(k, Old = n, New = o)` is in `b.Diff(a)`; and the service
call `Diff(reference, diff)`, when both permissions are granted and both configurations are
found, returns `diff.Diff(reference)`: the diff configuration is the new one. -/
theorem C3_diff_mirror (a b : NamedParamSet) :
    (∀ k v, Diff.Addition k v ∈ a.Diff b ↔ Diff.Deletion k v ∈ b.Diff a) ∧
    (∀ k o n, Diff.Replace k n o ∈ a.Diff b ↔ Diff.Replace k o n ∈ b.Diff a) ∧
    (∀ (authorizer : AuthZService) (json : JsonCodec StandaloneConfigDAO)
      (ioErr1 ioErr2 : Option String) (kv : Etcd)
      (rOrg rNs rName rVersion dOrg dNs dName dVersion : String)
      (reference diff : StandaloneConfig),
      authorizer.Authorize authorizer.PermConfigGet authorizer.OortResConfig
        (authorizer.OortConfigId ConfTypeStandalone rOrg rNs rName rVersion) = true →
      authorizer.Authorize authorizer.PermConfigGet authorizer.OortResConfig
        (authorizer.OortConfigId ConfTypeStandalone dOrg dNs dName dVersion) = true →
      StandaloneConfigEtcdStore.Get json ioErr1 kv rOrg rNs rName rVersion = .ok reference →
      StandaloneConfigEtcdStore.Get json ioErr2 kv dOrg dNs dName dVersion = .ok diff →
      StandaloneConfigService.Diff authorizer json ioErr1 ioErr2 kv rOrg rNs rName rVersion
        dOrg dNs dName dVersion = .ok (diff.paramSet.Diff reference.paramSet)) := by
  refine ⟨?_, ?_, ?_⟩
  · intro k v
    rw [mem_Diff_iff, mem_Diff_iff]
    constructor
    · rintro (⟨k', v', h, h1, h2⟩ | ⟨k', o, n, h, _⟩ | ⟨k', v', h, _⟩)
      · cases h
        exact Or.inr (Or.inr ⟨k, v, rfl, h1, h2⟩)
      · cases h
      · cases h
    · rintro (⟨k', v', h, _⟩ | ⟨k', o, n, h, _⟩ | ⟨k', v', h, h1, h2⟩)
      · cases h
      · cases h
      · cases h
        exact Or.inl ⟨k, v, rfl, h1, h2⟩
  · intro k o n
    rw [mem_Diff_iff, mem_Diff_iff]
    constructor
    · rintro (⟨k', v', h, _⟩ | ⟨k', o', n', h, h1, h2, hne⟩ | ⟨k', v', h, _⟩)
      · cases h
      · cases h
        exact Or.inr (Or.inl ⟨k, n, o, rfl, h2, h1, fun e => hne e.symm⟩)
      · cases h
    · rintro (⟨k', v', h, _⟩ | ⟨k', o', n', h, h1, h2, hne⟩ | ⟨k', v', h, _⟩)
      · cases h
      · cases h
        exact Or.inr (Or.inl ⟨k, o, n, rfl, h2, h1, fun e => hne e.symm⟩)
      · cases h
  · intro authorizer json ioErr1 ioErr2 kv rOrg rNs rName rVersion dOrg dNs dName dVersion
      reference diff hA1 hA2 hG1 hG2
    simp [StandaloneConfigService.Diff, hA1, hA2, hG1, hG2, StandaloneConfig.Diff]

/-- C3 at the example store: with the two versions of `acme/prod/svc` stored, the service
call with `v1` as reference and `v2` as diff returns the diff of `v2` against `v1`. -/
theorem C3_diff_mirror_witness :
    StandaloneConfigService.Diff allowAll exampleJson none none exampleEtcd
        "acme" "prod" "svc" "v1" "acme" "prod" "svc" "v2"
      = .ok (exampleDaoV2.toConfig.paramSet.Diff exampleDaoV1.toConfig.paramSet) :=
  (C3_diff_mirror exampleNew exampleReference).2.2 allowAll exampleJson none none exampleEtcd
    "acme" "prod" "svc" "v1" "acme" "prod" "svc" "v2" exampleDaoV1.toConfig
    exampleDaoV2.toConfig rfl rfl rfl rfl

theorem Etcd.get_put_self (kv : Etcd) (key value : String) :
    (kv.put key value).get key = some value := by
  simp [Etcd.put, Etcd.get, List.lookup]

theorem lookup_filter_ne {β : Type} (l : List (String × β)) (key k : String) (h : k ≠ key) :
    (l.filter (fun e => decide (e.1 ≠ key))).lookup k = l.lookup k := by
  induction l with
  | nil => rfl
  | cons e es ih =>
    obtain ⟨a, b⟩ := e
    by_cases ha : a = key
    · subst ha
      have hk : (k == a) = false := by simpa using h
      simpa [List.filter, List.lookup, hk] using ih
    · by_cases hka : k = a
      · subst hka
        simp [List.filter, List.lookup, ha]
      · have hk : (k == a) = false := by simpa using hka
        simpa [List.filter, List.lookup, ha, hk] using ih

theorem Etcd.get_put_other (kv : Etcd) (key value k : String) (h : k ≠ key) :
    (kv.put key value).get k = kv.get k := by
  have hk : (k == key) = false := by simpa using h
  simp only [Etcd.put, Etcd.get, List.lookup, hk]
  exact lookup_filter_ne kv.kvs key k h

theorem Etcd.get_delete_self (kv : Etcd) (key : String) : (kv.delete key).get key = none := by
  simp only [Etcd.delete, Etcd.get]
  rw [lookup_eq_none_iff_keys]
  intro hmem
  obtain ⟨e, he, hk⟩ := List.mem_map.mp hmem
  have := List.mem_filter.mp he
  simp [hk] at this

theorem Etcd.get_delete_other (kv : Etcd) (key k : String) (h : k ≠ key) :
    (kv.delete key).get k = kv.get k :=
  lookup_filter_ne kv.kvs key k h

/-- C6: create-once, for both artifact kinds. With the record serialized to `value` and the
backing store answering: if a record exists under the key of the artifact's
(org, namespace, name, version), `Put` returns a `VersionExists` error and the store is
exactly as before; if none exists, `Put` succeeds, the record is then stored under that key
and every other key keeps its content. -/
theorem C6_put_create_once (kv : Etcd)
    (jsonS : JsonCodec StandaloneConfigDAO) (config : StandaloneConfig) (valueS : String)
    (hS : jsonS.Marshal (StandaloneConfigDAO.ofConfig config) = .ok valueS)
    (jsonG : JsonCodec ConfigGroupDAO) (group : ConfigGroup) (valueG : String)
    (hG : jsonG.Marshal (ConfigGroupDAO.ofConfig group) = .ok valueG) :
    (kv.get (standaloneKey config.base.org config.base.namespace_ config.Name
        config.base.version) ≠ none →
      ∃ msg, StandaloneConfigEtcdStore.Put jsonS none kv config
        = (.error (NewError .ErrTypeVersionExists msg), kv)) ∧
    (kv.get (standaloneKey config.base.org config.base.namespace_ config.Name
        config.base.version) = none →
      ∃ kv1, StandaloneConfigEtcdStore.Put jsonS none kv config = (.ok (), kv1) ∧
        kv1.get (standaloneKey config.base.org config.base.namespace_ config.Name
          config.base.version) = some valueS ∧
        ∀ k, k ≠ standaloneKey config.base.org config.base.namespace_ config.Name
          config.base.version → kv1.get k = kv.get k) ∧
    (kv.get (ConfigGroupDAO.Key ⟨group.base.org, group.base.namespace_, group.name,
        group.base.version, 0, []⟩) ≠ none →
      ∃ msg, ConfigGroupEtcdStore.Put jsonG none kv group
        = (.error (NewError .ErrTypeVersionExists msg), kv)) ∧
    (kv.get (ConfigGroupDAO.Key ⟨group.base.org, group.base.namespace_, group.name,
        group.base.version, 0, []⟩) = none →
      ∃ kv1, ConfigGroupEtcdStore.Put jsonG none kv group = (.ok (), kv1) ∧
        kv1.get (ConfigGroupDAO.Key ⟨group.base.org, group.base.namespace_, group.name,
          group.base.version, 0, []⟩) = some valueG ∧
        ∀ k, k ≠ ConfigGroupDAO.Key ⟨group.base.org, group.base.namespace_, group.name,
          group.base.version, 0, []⟩ → kv1.get k = kv.get k) := by
  refine ⟨?_, ?_, ?_, ?_⟩
  · intro hex
    obtain ⟨old, hold⟩ := Option.ne_none_iff_exists'.mp hex
    have hold2 : kv.get (StandaloneConfigDAO.ofConfig config).Key = some old := hold
    refine ⟨"standalone config (Org: " ++ config.base.org ++ ", name: " ++ config.Name
      ++ ", version: " ++ config.base.version ++ ") already exists", ?_⟩
    simp [StandaloneConfigEtcdStore.Put, hS, Etcd.TxnCreate, hold2]
  · intro hnone
    have hnone2 : kv.get (StandaloneConfigDAO.ofConfig config).Key = none := hnone
    refine ⟨kv.put (StandaloneConfigDAO.ofConfig config).Key valueS, ?_, ?_, ?_⟩
    · simp only [StandaloneConfigEtcdStore.Put, hS, Etcd.TxnCreate, hnone2]
      rfl
    · exact Etcd.get_put_self kv _ valueS
    · intro k hk
      exact Etcd.get_put_other kv _ valueS k hk
  · intro hex
    obtain ⟨old, hold⟩ := Option.ne_none_iff_exists'.mp hex
    have hold2 : kv.get (ConfigGroupDAO.ofConfig group).Key = some old := hold
    refine ⟨"config group (Org: " ++ group.base.org ++ ", name: " ++ group.name
      ++ ", version: " ++ group.base.version ++ ") already exists", ?_⟩
    simp [ConfigGroupEtcdStore.Put, hG, Etcd.TxnCreate, hold2]
  · intro hnone
    have hnone2 : kv.get (ConfigGroupDAO.ofConfig group).Key = none := hnone
    refine ⟨kv.put (ConfigGroupDAO.ofConfig group).Key valueG, ?_, ?_, ?_⟩
    · simp only [ConfigGroupEtcdStore.Put, hG, Etcd.TxnCreate, hnone2]
      rfl
    · exact Etcd.get_put_self kv _ valueG
    · intro k hk
      exact Etcd.get_put_other kv _ valueG k hk

/-- C6 at the example store, which holds `standalone/acme/prod/svc/v1` and no group: putting
that standalone version again is refused with `VersionExists` and changes nothing, putting
the group `acme/prod/bundle` at `v1` succeeds and stores its record. -/
theorem C6_put_create_once_witness :
    (∃ msg, StandaloneConfigEtcdStore.Put exampleJson none exampleEtcd exampleDaoV1.toConfig
      = (.error (NewError .ErrTypeVersionExists msg), exampleEtcd)) ∧
    (∃ kv1, ConfigGroupEtcdStore.Put exampleGroupJson none exampleEtcd exampleGroup
        = (.ok (), kv1) ∧
      kv1.get "groups/acme/prod/bundle/v1" = some "v1" ∧
      ∀ k, k ≠ "groups/acme/prod/bundle/v1" → kv1.get k = exampleEtcd.get k) :=
  ⟨(C6_put_create_once exampleEtcd exampleJson exampleDaoV1.toConfig "v1" rfl
      exampleGroupJson exampleGroup "v1" rfl).1 (by decide),
   (C6_put_create_once exampleEtcd exampleJson exampleDaoV1.toConfig "v1" rfl
      exampleGroupJson exampleGroup "v1" rfl).2.2.2 (by decide)⟩

/-- C10: with the configuration (org `acme`, namespace `prod`, name `svc`, version `v1`)
stored and every permission granted, the service call `Delete(acme, prod, svc, v1)` looks
the key of (org `acme`, namespace `svc`, name `prod`, version `v1`) up: it returns
`NotFound`, leaves the store as it was, and a following `Get` of the tuple still returns
the configuration; the store method called with the tuple in its declared order removes
the record and returns it. -/
theorem C10_delete_swaps_namespace_and_name :
    StandaloneConfigService.Delete allowAll exampleJson none exampleEtcd
        "acme" "prod" "svc" "v1"
      = (.error (NewError .ErrTypeNotFound
          "standalone config (Org: acme, name: prod, version: v1) not found"), exampleEtcd) ∧
    StandaloneConfigService.Get allowAll exampleJson none exampleEtcd "acme" "prod" "svc" "v1"
      = .ok exampleDaoV1.toConfig ∧
    StandaloneConfigEtcdStore.Delete exampleJson none exampleEtcd "acme" "prod" "svc" "v1"
      = (.ok exampleDaoV1.toConfig, ⟨[("standalone/acme/prod/svc/v2", "v2")]⟩) := by
  refine ⟨?_, ?_, ?_⟩
  · rfl
  · rfl
  · rfl

/-! ## The diff of two configuration groups -/

theorem DiffMap.get_set_self (m : DiffMap) (name : String) (value : List Diff) :
    (m.set name value).get name = value := by
  simp [DiffMap.set, DiffMap.get, List.lookup]

theorem DiffMap.get_set_other (m : DiffMap) (name k : String) (value : List Diff)
    (h : k ≠ name) : (m.set name value).get k = m.get k := by
  have hk : (k == name) = false := by simpa using h
  simp only [DiffMap.set, DiffMap.get, List.lookup, hk]
  rw [lookup_filter_ne m.entries name k h]

theorem appendAdditions_get_self (name : String) (params : ParamMap) (m : DiffMap) :
    (appendAdditions name params m).get name
      = m.get name ++ params.entries.map (fun e => Diff.Addition e.1 e.2) := by
  unfold appendAdditions
  generalize params.entries = es
  induction es generalizing m with
  | nil => simp
  | cons e es ih =>
    rw [List.foldl_cons, ih, DiffMap.get_set_self]
    simp

theorem appendAdditions_get_other (name k : String) (params : ParamMap) (m : DiffMap)
    (h : k ≠ name) : (appendAdditions name params m).get k = m.get k := by
  unfold appendAdditions
  generalize params.entries = es
  induction es generalizing m with
  | nil => rfl
  | cons e es ih => rw [List.foldl_cons, ih, DiffMap.get_set_other _ _ _ _ h]

theorem appendDeletions_get_self (name : String) (params : ParamMap) (m : DiffMap) :
    (appendDeletions name params m).get name
      = m.get name ++ params.entries.map (fun e => Diff.Deletion e.1 e.2) := by
  unfold appendDeletions
  generalize params.entries = es
  induction es generalizing m with
  | nil => simp
  | cons e es ih =>
    rw [List.foldl_cons, ih, DiffMap.get_set_self]
    simp

theorem appendDeletions_get_other (name k : String) (params : ParamMap) (m : DiffMap)
    (h : k ≠ name) : (appendDeletions name params m).get k = m.get k := by
  unfold appendDeletions
  generalize params.entries = es
  induction es generalizing m with
  | nil => rfl
  | cons e es ih => rw [List.foldl_cons, ih, DiffMap.get_set_other _ _ _ _ h]

theorem ConfigGroup.ParamSet_error_iff (c : ConfigGroup) (name : String) :
    (∃ e, c.ParamSet name = .error e) ↔ ∀ q ∈ c.paramSets, q.name ≠ name := by
  unfold ConfigGroup.ParamSet
  cases hf : c.paramSets.find? (fun ps => ps.name == name) with
  | none =>
    simp only [List.find?_eq_none, beq_iff_eq] at hf
    simp only [Except.error.injEq, exists_eq', true_iff]
    exact hf
  | some ps =>
    have h1 := List.find?_some hf
    have h2 := List.mem_of_find?_eq_some hf
    simp only [beq_iff_eq] at h1
    constructor
    · rintro ⟨e, he⟩
      cases he
    · intro hall
      exact absurd h1 (hall ps h2)

theorem groupStepNew_get_other (L : ConfigGroup) (m : DiffMap) (q : NamedParamSet)
    (k : String) (h : k ≠ q.name) : (groupStepNew L m q).get k = m.get k := by
  unfold groupStepNew
  split
  · exact appendAdditions_get_other _ _ _ _ h
  · exact DiffMap.get_set_other _ _ _ _ h

theorem groupStepLatest_get_other (N : ConfigGroup) (m : DiffMap) (q : NamedParamSet)
    (k : String) (h : k ≠ q.name) : (groupStepLatest N m q).get k = m.get k := by
  unfold groupStepLatest
  split
  · exact appendDeletions_get_other _ _ _ _ h
  · rfl

theorem foldl_groupStepNew_get_absent (L : ConfigGroup) (l : List NamedParamSet) (m : DiffMap)
    (k : String) (h : ∀ q ∈ l, q.name ≠ k) :
    (l.foldl (groupStepNew L) m).get k = m.get k := by
  induction l generalizing m with
  | nil => rfl
  | cons q l ih =>
    rw [List.foldl_cons, ih _ (fun x hx => h x (List.mem_cons_of_mem _ hx))]
    exact groupStepNew_get_other L m q k (fun e => h q (List.mem_cons_self _ _) e.symm)

theorem foldl_groupStepLatest_get_absent (N : ConfigGroup) (l : List NamedParamSet)
    (m : DiffMap) (k : String) (h : ∀ q ∈ l, q.name ≠ k) :
    (l.foldl (groupStepLatest N) m).get k = m.get k := by
  induction l generalizing m with
  | nil => rfl
  | cons q l ih =>
    rw [List.foldl_cons, ih _ (fun x hx => h x (List.mem_cons_of_mem _ hx))]
    exact groupStepLatest_get_other N m q k (fun e => h q (List.mem_cons_self _ _) e.symm)

theorem foldl_groupStepLatest_get_present (N : ConfigGroup) (l : List NamedParamSet)
    (m : DiffMap) (k : String) (psN : NamedParamSet) (h : N.ParamSet k = .ok psN) :
    (l.foldl (groupStepLatest N) m).get k = m.get k := by
  induction l generalizing m with
  | nil => rfl
  | cons q l ih =>
    rw [List.foldl_cons, ih]
    by_cases hq : k = q.name
    · subst hq
      simp [groupStepLatest, h]
    · exact groupStepLatest_get_other N m q k hq

theorem count_names_cons (q : NamedParamSet) (l : List NamedParamSet) (k : String) :
    ((q :: l).map (fun x => x.name)).count k
      = (l.map (fun x => x.name)).count k + if q.name = k then 1 else 0 := by
  rw [List.map_cons, List.count_cons]
  simp

theorem names_ne_of_count_zero (l : List NamedParamSet) (k : String)
    (h : (l.map (fun x => x.name)).count k = 0) : ∀ q ∈ l, q.name ≠ k := by
  intro q hq e
  exact (List.count_eq_zero.mp h) (List.mem_map.mpr ⟨q, hq, e⟩)

theorem foldl_groupStepLatest_once (N : ConfigGroup) (l : List NamedParamSet) (m : DiffMap)
    (ps : NamedParamSet) (hN : ∀ q ∈ N.paramSets, q.name ≠ ps.name) (hmem : ps ∈ l)
    (hcount : (l.map (fun x => x.name)).count ps.name = 1) :
    (l.foldl (groupStepLatest N) m).get ps.name
      = m.get ps.name ++ ps.params.entries.map (fun e => Diff.Deletion e.1 e.2) := by
  induction l generalizing m with
  | nil => cases hmem
  | cons q l ih =>
    rw [count_names_cons] at hcount
    rw [List.foldl_cons]
    by_cases hq : q.name = ps.name
    · simp only [hq, if_true] at hcount
      have hrest := names_ne_of_count_zero l ps.name (by omega)
      have hps : ps = q := by
        rcases List.mem_cons.mp hmem with h | h
        · exact h
        · exact absurd rfl (hrest ps h)
      subst hps
      rw [foldl_groupStepLatest_get_absent N l _ _ hrest]
      obtain ⟨e, he⟩ := (ConfigGroup.ParamSet_error_iff N ps.name).mpr hN
      simp only [groupStepLatest, he]
      exact appendDeletions_get_self _ _ _
    · simp only [hq, if_false, add_zero] at hcount
      have hps : ps ∈ l := by
        rcases List.mem_cons.mp hmem with h | h
        · exact absurd (congrArg NamedParamSet.name h).symm hq
        · exact h
      rw [ih _ hps hcount]
      rw [groupStepLatest_get_other N m q ps.name (fun e => hq e.symm)]

theorem foldl_groupStepNew_once_absent (L : ConfigGroup) (l : List NamedParamSet) (m : DiffMap)
    (ps : NamedParamSet) (hL : ∀ q ∈ L.paramSets, q.name ≠ ps.name) (hmem : ps ∈ l)
    (hcount : (l.map (fun x => x.name)).count ps.name = 1) :
    (l.foldl (groupStepNew L) m).get ps.name
      = m.get ps.name ++ ps.params.entries.map (fun e => Diff.Addition e.1 e.2) := by
  induction l generalizing m with
  | nil => cases hmem
  | cons q l ih =>
    rw [count_names_cons] at hcount
    rw [List.foldl_cons]
    by_cases hq : q.name = ps.name
    · simp only [hq, if_true] at hcount
      have hrest := names_ne_of_count_zero l ps.name (by omega)
      have hps : ps = q := by
        rcases List.mem_cons.mp hmem with h | h
        · exact h
        · exact absurd rfl (hrest ps h)
      subst hps
      rw [foldl_groupStepNew_get_absent L l _ _ hrest]
      obtain ⟨e, he⟩ := (ConfigGroup.ParamSet_error_iff L ps.name).mpr hL
      simp only [groupStepNew, he]
      exact appendAdditions_get_self _ _ _
    · simp only [hq, if_false, add_zero] at hcount
      have hps : ps ∈ l := by
        rcases List.mem_cons.mp hmem with h | h
        · exact absurd (congrArg NamedParamSet.name h).symm hq
        · exact h
      rw [ih _ hps hcount]
      rw [groupStepNew_get_other L m q ps.name (fun e => hq e.symm)]

theorem foldl_groupStepNew_once_present (L : ConfigGroup) (l : List NamedParamSet) (m : DiffMap)
    (ps psL : NamedParamSet) (hL : L.ParamSet ps.name = .ok psL) (hmem : ps ∈ l)
    (hcount : (l.map (fun x => x.name)).count ps.name = 1) :
    (l.foldl (groupStepNew L) m).get ps.name = ps.Diff psL := by
  induction l generalizing m with
  | nil => cases hmem
  | cons q l ih =>
    rw [count_names_cons] at hcount
    rw [List.foldl_cons]
    by_cases hq : q.name = ps.name
    · simp only [hq, if_true] at hcount
      have hrest := names_ne_of_count_zero l ps.name (by omega)
      have hps : ps = q := by
        rcases List.mem_cons.mp hmem with h | h
        · exact h
        · exact absurd rfl (hrest ps h)
      subst hps
      rw [foldl_groupStepNew_get_absent L l _ _ hrest]
      simp only [groupStepNew, hL]
      exact DiffMap.get_set_self _ _ _
    · simp only [hq, if_false, add_zero] at hcount
      have hps : ps ∈ l := by
        rcases List.mem_cons.mp hmem with h | h
        · exact absurd (congrArg NamedParamSet.name h).symm hq
        · exact h
      exact ih _ hps hcount

/-- C4 as stated fails when a group holds two sub-sets of one name: the reference group has
the sub-sets `x = {a:1}` and `x = {a:2}`, the new group has none, and the diffs recorded
under `x` are the two entries `Deletion(a,1)` and `Deletion(a,2)`: two deletions for the one
key `a`, which is the list of deletions of neither sub-set. -/
theorem C4_counterexample :
    dupReference.paramSets.map (fun q => (q.name, q.params.entries))
      = [("x", [("a", "1")]), ("x", [("a", "2")])] ∧
    emptyGroup.paramSets.map (fun q => q.name) = [] ∧
    (emptyGroup.Diff dupReference).get "x" = [Diff.Deletion "a" "1", Diff.Deletion "a" "2"] ∧
    ¬ ((emptyGroup.Diff dupReference).get "x").Perm [Diff.Deletion "a" "1"] ∧
    ¬ ((emptyGroup.Diff dupReference).get "x").Perm [Diff.Deletion "a" "2"] ∧
    ¬ (((emptyGroup.Diff dupReference).get "x").map Diff.Key).Nodup := by
  refine ⟨by rfl, by rfl, by rfl, by decide, by decide, by decide⟩

/-- C4, amended: for a sub-set whose name occurs exactly once in the reference group and not
in the new group, the diffs recorded under that name in `new.Diff(reference)` are exactly one
`Deletion(key, value)` per entry of that sub-set; for a sub-set whose name occurs exactly once
in the new group and not in the reference group, they are exactly one `Addition(key, value)`
per entry of that sub-set (a missing map entry counting as the empty list). -/
theorem C4_group_diff_wholesale (new reference : ConfigGroup) (ps : NamedParamSet) :
    (ps ∈ reference.paramSets →
      (reference.paramSets.map (fun q => q.name)).count ps.name = 1 →
      (∀ q ∈ new.paramSets, q.name ≠ ps.name) →
      (new.Diff reference).get ps.name
        = ps.params.entries.map (fun e => Diff.Deletion e.1 e.2)) ∧
    (ps ∈ new.paramSets →
      (new.paramSets.map (fun q => q.name)).count ps.name = 1 →
      (∀ q ∈ reference.paramSets, q.name ≠ ps.name) →
      (new.Diff reference).get ps.name
        = ps.params.entries.map (fun e => Diff.Addition e.1 e.2)) := by
  constructor
  · intro hmem hcount habs
    unfold ConfigGroup.Diff
    simp only
    rw [foldl_groupStepLatest_once new _ _ ps habs hmem hcount,
      foldl_groupStepNew_get_absent reference _ _ _ habs]
    rfl
  · intro hmem hcount habs
    unfold ConfigGroup.Diff
    simp only
    rw [foldl_groupStepLatest_get_absent new _ _ _ habs,
      foldl_groupStepNew_once_absent reference _ _ ps habs hmem hcount]
    rfl

/-- C4, amended, at an example: removing the only sub-set `svc = {a:1, b:2}` of a group
records `Deletion(a,1)` and `Deletion(b,2)` under `svc`, adding it to the empty group records
`Addition(a,1)` and `Addition(b,2)`. -/
theorem C4_group_diff_wholesale_witness :
    (emptyGroup.Diff exampleGroup).get "svc"
        = [Diff.Deletion "a" "1", Diff.Deletion "b" "2"] ∧
    (exampleGroup.Diff emptyGroup).get "svc"
        = [Diff.Addition "a" "1", Diff.Addition "b" "2"] :=
  ⟨(C4_group_diff_wholesale emptyGroup exampleGroup exampleReference).1
      (List.mem_cons_self _ _) (by decide) (by simp [emptyGroup, InitConfigGroup]),
   (C4_group_diff_wholesale exampleGroup emptyGroup exampleReference).2
      (List.mem_cons_self _ _) (by decide) (by simp [emptyGroup, InitConfigGroup])⟩

/-- C5: when the sub-set names of the new group are pairwise distinct, then for every name
that both groups hold the entry under that name in `new.Diff(reference)` is the parameter-set
diff of new's sub-set of that name against reference's sub-set of that name. -/
theorem C5_group_diff_delegates (new reference : ConfigGroup) (name : String)
    (psN psR : NamedParamSet)
    (hdistinct : (new.paramSets.map (fun q => q.name)).Nodup)
    (hN : new.ParamSet name = .ok psN) (hR : reference.ParamSet name = .ok psR) :
    (new.Diff reference).get name = psN.Diff psR := by
  have hfind : new.paramSets.find? (fun ps => ps.name == name) = some psN := by
    unfold ConfigGroup.ParamSet at hN
    cases hf : new.paramSets.find? (fun ps => ps.name == name) with
    | none => rw [hf] at hN; cases hN
    | some q => rw [hf] at hN; cases hN; rfl
  have hname : psN.name = name := by simpa using List.find?_some hfind
  have hmem : psN ∈ new.paramSets := List.mem_of_find?_eq_some hfind
  subst hname
  have hcount : (new.paramSets.map (fun q => q.name)).count psN.name = 1 :=
    List.count_eq_one_of_mem hdistinct (List.mem_map.mpr ⟨psN, hmem, rfl⟩)
  unfold ConfigGroup.Diff
  simp only
  rw [foldl_groupStepLatest_get_present new _ _ _ psN hN,
    foldl_groupStepNew_once_present reference _ _ psN psR hR hmem hcount]

/-- C5 at an example: the group holding `svc = {b:3, c:4}` diffed against the group holding
`svc = {a:1, b:2}` records under `svc` the diff of the two parameter sets. -/
theorem C5_group_diff_delegates_witness :
    ((InitConfigGroup "acme" "prod" "bundle" "v2" 0 [exampleNew]).Diff exampleGroup).get "svc"
      = exampleNew.Diff exampleReference :=
  C5_group_diff_delegates (InitConfigGroup "acme" "prod" "bundle" "v2" 0 [exampleNew])
    exampleGroup "svc" exampleNew exampleReference (by decide) rfl rfl

/-! ## Gossip selection -/

theorem numberOfNodesToSelect_eq_ceil (n : Nat) (p : Int) :
    numberOfNodesToSelect n p = ⌈((n : ℚ) * (p : ℚ)) / 100⌉ := by
  unfold numberOfNodesToSelect
  have h : ((n : ℚ) * (p : ℚ)) / 100 = -(((-((n : Int) * p) : Int) : ℚ) / ((100 : ℕ) : ℚ)) := by
    push_cast
    ring
  rw [h, Int.ceil_neg, Rat.floor_intCast_div_natCast]
  rfl

theorem numberOfNodesToSelect_le (n : Nat) (p : Int) (h0 : 0 < p) (h100 : p ≤ 100) :
    (numberOfNodesToSelect n p).toNat ≤ n := by
  unfold numberOfNodesToSelect
  have h1 : 0 ≤ (n : Int) * p := by positivity
  have h2 : (n : Int) * p ≤ 100 * n := by nlinarith
  generalize (n : Int) * p = x at h1 h2
  omega

theorem selectLoop_length {α : Type} (draws : Nat → Nat) (k i : Nat) (nodes sel : List α)
    (hk : k ≤ nodes.length) :
    ∃ out, selectLoop draws k i nodes sel = some out ∧ out.length = sel.length + k := by
  induction k generalizing i nodes sel with
  | zero => exact ⟨sel, rfl, rfl⟩
  | succ k ih =>
    have hpos : 0 < nodes.length := by omega
    have hidx : draws i % nodes.length < nodes.length := Nat.mod_lt _ hpos
    have hne : nodes.length ≠ 0 := by omega
    have hget : nodes[draws i % nodes.length]? = some (nodes[draws i % nodes.length]) :=
      List.getElem?_eq_getElem hidx
    have hlen : k ≤ (nodes.eraseIdx (draws i % nodes.length)).length := by
      rw [List.length_eraseIdx, if_pos hidx]
      omega
    obtain ⟨out, hout, hl⟩ := ih (i + 1) (nodes.eraseIdx (draws i % nodes.length))
      (sel ++ [nodes[draws i % nodes.length]]) hlen
    refine ⟨out, ?_, ?_⟩
    · simp only [selectLoop, hne, if_false, hget]
      exact hout
    · rw [hl, List.length_append, List.length_singleton]
      omega

/-- C7: for a pool of `n` nodes and a percentage `p` with `0 < p ≤ 100`, `selectRandmNodes`
returns, whatever the random draws are, a list of exactly `⌈n * p / 100⌉` nodes; a pool of 10
nodes with `p = 30` gives 3 nodes, and `p = 100` gives as many nodes as the pool has. -/
theorem C7_gossip_selection_count {α : Type} (draws : Nat → Nat) (nodes : List α) (p : Int)
    (h0 : 0 < p) (h100 : p ≤ 100) :
    ∃ sel, selectRandmNodes draws nodes p = some sel ∧
      (sel.length : Int) = ⌈((nodes.length : ℚ) * (p : ℚ)) / 100⌉ ∧
      (nodes.length = 10 → p = 30 → sel.length = 3) ∧
      (p = 100 → sel.length = nodes.length) := by
  obtain ⟨out, hout, hl⟩ := selectLoop_length draws (numberOfNodesToSelect nodes.length p).toNat
    0 nodes [] (numberOfNodesToSelect_le nodes.length p h0 h100)
  have hnonneg : 0 ≤ numberOfNodesToSelect nodes.length p := by
    unfold numberOfNodesToSelect
    have h1 : 0 ≤ (nodes.length : Int) * p := by positivity
    generalize (nodes.length : Int) * p = x at h1
    omega
  have hlen : (out.length : Int) = numberOfNodesToSelect nodes.length p := by
    rw [hl, List.length_nil, Nat.zero_add, Int.toNat_of_nonneg hnonneg]
  refine ⟨out, hout, ?_, ?_, ?_⟩
  · rw [hlen, numberOfNodesToSelect_eq_ceil]
  · intro h10 h30
    rw [h10, h30] at hlen
    have : numberOfNodesToSelect 10 30 = 3 := by decide
    omega
  · intro hp
    rw [hp] at hlen
    unfold numberOfNodesToSelect at hlen
    omega

/-- C7 at a pool of ten nodes with percentage 30 and the draws `0, 1, 2, ...`: three nodes
are selected. -/
theorem C7_gossip_selection_count_witness :
    ∃ sel, selectRandmNodes (fun i => i) (List.range 10) 30 = some sel ∧
      (sel.length : Int) = ⌈(((List.range 10).length : ℚ) * ((30 : Int) : ℚ)) / 100⌉ ∧
      ((List.range 10).length = 10 → (30 : Int) = 30 → sel.length = 3) ∧
      ((30 : Int) = 100 → sel.length = (List.range 10).length) :=
  C7_gossip_selection_count (fun i => i) (List.range 10) 30 (by decide) (by decide)

theorem eraseIdx_map_comm {α β : Type} (f : α → β) (l : List α) (n : Nat) :
    (l.map f).eraseIdx n = (l.eraseIdx n).map f := by
  induction l generalizing n with
  | nil => rfl
  | cons a l ih =>
    cases n with
    | zero => rfl
    | succ n => simp [List.eraseIdx_cons_succ, ih]

theorem perm_cons_eraseIdx_of_getElem? {α : Type} (l : List α) (n : Nat) (a : α)
    (h : l[n]? = some a) : (a :: l.eraseIdx n).Perm l := by
  induction l generalizing n with
  | nil => simp at h
  | cons b l ih =>
    cases n with
    | zero =>
      simp only [List.getElem?_cons_zero, Option.some.injEq] at h
      subst h
      exact List.Perm.refl _
    | succ n =>
      simp only [List.getElem?_cons_succ] at h
      rw [List.eraseIdx_cons_succ]
      exact (List.Perm.swap b a _).trans ((ih n h).cons b)

theorem selectLoop_perm {α : Type} (draws : Nat → Nat) (k i : Nat) (nodes sel out : List α)
    (h : selectLoop draws k i nodes sel = some out) :
    ∃ rest, (out ++ rest).Perm (sel ++ nodes) := by
  induction k generalizing i nodes sel with
  | zero =>
    simp only [selectLoop, Option.some.injEq] at h
    subst h
    exact ⟨nodes, List.Perm.refl _⟩
  | succ k ih =>
    simp only [selectLoop] at h
    split at h
    · cases h
    · split at h
      · cases h
      · rename_i node hget
        obtain ⟨rest, hrest⟩ := ih _ _ _ h
        refine ⟨rest, hrest.trans ?_⟩
        rw [List.append_assoc]
        exact List.Perm.append_left sel (perm_cons_eraseIdx_of_getElem? nodes _ node hget)

theorem selectLoop_map {α β : Type} (f : α → β) (draws : Nat → Nat) (k i : Nat)
    (nodes sel : List α) :
    selectLoop draws k i (nodes.map f) (sel.map f)
      = (selectLoop draws k i nodes sel).map (List.map f) := by
  induction k generalizing i nodes sel with
  | zero => rfl
  | succ k ih =>
    simp only [selectLoop, List.length_map]
    split
    · rfl
    · rw [List.getElem?_map]
      cases hget : nodes[draws i % nodes.length]? with
      | none => rfl
      | some node =>
        simp only [Option.map_some']
        rw [eraseIdx_map_comm, ← ih]
        simp

theorem map_some_eq_range_map {α : Type} (l : List α) :
    l.map some = (List.range l.length).map (fun i => l[i]?) := by
  apply List.ext_getElem?
  intro n
  rw [List.getElem?_map, List.getElem?_map]
  by_cases hn : n < l.length
  · rw [List.getElem?_range hn, List.getElem?_eq_getElem hn]
    simp [List.getElem?_eq_getElem hn]
  · have h1 : l[n]? = none := List.getElem?_eq_none (by omega)
    have h2 : (List.range l.length)[n]? = none :=
      List.getElem?_eq_none (by rw [List.length_range]; omega)
    rw [h1, h2]
    rfl

/-- C8: for a percentage `p` with `0 < p ≤ 100` and any random draws, the nodes that
`selectRandmNodes` returns are the elements at pairwise distinct positions `idxs` of the
pool; so every returned node is in the pool, and a pool without duplicates yields a
selection without duplicates. -/
theorem C8_gossip_without_replacement {α : Type} (draws : Nat → Nat) (nodes : List α)
    (p : Int) (h0 : 0 < p) (h100 : p ≤ 100) :
    ∃ (sel : List α) (idxs : List Nat), selectRandmNodes draws nodes p = some sel ∧
      idxs.Nodup ∧ (∀ i ∈ idxs, i < nodes.length) ∧
      sel.map some = idxs.map (fun i => nodes[i]?) ∧
      (∀ x ∈ sel, x ∈ nodes) ∧ (nodes.Nodup → sel.Nodup) := by
  have hk := numberOfNodesToSelect_le nodes.length p h0 h100
  obtain ⟨sel, hsel, _⟩ := selectLoop_length draws _ 0 nodes [] hk
  obtain ⟨idxs, hidxs, _⟩ := selectLoop_length draws (numberOfNodesToSelect nodes.length p).toNat
    0 (List.range nodes.length) [] (by rw [List.length_range]; exact hk)
  obtain ⟨rest, hrest⟩ := selectLoop_perm draws _ 0 nodes [] sel hsel
  obtain ⟨restI, hrestI⟩ := selectLoop_perm draws _ 0 (List.range nodes.length) [] idxs hidxs
  rw [List.nil_append] at hrest hrestI
  refine ⟨sel, idxs, hsel, ?_, ?_, ?_, ?_, ?_⟩
  · exact (List.nodup_append.mp (hrestI.nodup_iff.mpr (List.nodup_range _))).1
  · intro i hi
    exact List.mem_range.mp (hrestI.subset (List.mem_append_left _ hi))
  · have h1 := selectLoop_map (fun x => some x) draws
      (numberOfNodesToSelect nodes.length p).toNat 0 nodes []
    have h2 := selectLoop_map (fun i => nodes[i]?) draws
      (numberOfNodesToSelect nodes.length p).toNat 0 (List.range nodes.length) []
    rw [hsel] at h1
    rw [hidxs, ← map_some_eq_range_map] at h2
    simp only [List.map_nil, Option.map_some'] at h1 h2
    rw [h1] at h2
    exact Option.some.inj h2
  · intro x hx
    exact hrest.subset (List.mem_append_left _ hx)
  · intro hnd
    exact (List.nodup_append.mp (hrest.nodup_iff.mpr hnd)).1

/-- C8 at a pool of ten distinct nodes with percentage 30 and the draws `0, 1, 2, ...`. -/
theorem C8_gossip_without_replacement_witness :
    ∃ (sel : List Nat) (idxs : List Nat),
      selectRandmNodes (fun i => i) (List.range 10) 30 = some sel ∧
      idxs.Nodup ∧ (∀ i ∈ idxs, i < (List.range 10).length) ∧
      sel.map some = idxs.map (fun i => (List.range 10)[i]?) ∧
      (∀ x ∈ sel, x ∈ List.range 10) ∧ ((List.range 10).Nodup → sel.Nodup) :=
  C8_gossip_without_replacement (fun i => i) (List.range 10) 30 (by decide) (by decide)

/-! ## Placement -/

theorem PlacementEtcdStore.Place_error_eq_none_iff (env : PlaceEnv) (config : Config) (kv : Etcd)
    (x : Nat × NodeStringified) :
    (PlacementEtcdStore.Place env.json (env.putErr x.1) kv config (env.taskFor x)).1 = none
      ↔ env.writeOk config x = true := by
  cases hm : env.json.Marshal (PlacementTaskDAO.ofTask config (env.taskFor x)) with
  | error e => simp [PlacementEtcdStore.Place, PlaceEnv.writeOk, hm]
  | ok v =>
    cases hp : env.putErr x.1 with
    | none => simp [PlacementEtcdStore.Place, PlaceEnv.writeOk, hm, hp, Etcd.Put]
    | some e => simp [PlacementEtcdStore.Place, PlaceEnv.writeOk, hm, hp, Etcd.Put]

theorem placeStep_tasks (env : PlaceEnv) (config : Config) (cmd : String → Except Error String)
    (webhookPath : String) (st : PlaceState) (x : Nat × NodeStringified) :
    (PlacementService.placeStep env config cmd webhookPath st x).tasks
      = st.tasks ++ if env.writeOk config x then [env.taskFor x] else [] := by
  have hiff := PlacementEtcdStore.Place_error_eq_none_iff env config st.kv x
  simp only [PlaceEnv.taskFor] at hiff
  unfold PlacementService.placeStep
  simp only
  split
  · rename_i e kv1 heq
    rw [heq] at hiff
    have hw : env.writeOk config x = false := by
      cases h : env.writeOk config x with
      | false => rfl
      | true => exact absurd (hiff.mpr h) (by simp)
    simp [hw]
  · rename_i kv1 heq
    rw [heq] at hiff
    have hw : env.writeOk config x = true := hiff.mp rfl
    simp only [hw, if_true]
    split <;> rfl

theorem foldl_placeStep_tasks (env : PlaceEnv) (config : Config)
    (cmd : String → Except Error String) (webhookPath : String)
    (l : List (Nat × NodeStringified)) (st : PlaceState) :
    (l.foldl (PlacementService.placeStep env config cmd webhookPath) st).tasks
      = st.tasks ++ (l.filter (env.writeOk config)).map env.taskFor := by
  induction l generalizing st with
  | nil => simp
  | cons x l ih =>
    rw [List.foldl_cons, ih, placeStep_tasks, List.filter_cons]
    cases env.writeOk config x <;> simp

theorem Place_tasks_and_store (env : PlaceEnv) (kv : Etcd) (config : Config)
    (strategy : PlaceReq_Strategy) (cmd : String → Except Error String) (webhookPath : String)
    (nodes : List NodeStringified)
    (hA1 : env.authorizer.Authorize env.authorizer.PermConfigGet env.authorizer.OortResConfig
      (env.authorizer.OortConfigId config.Type config.Org config.Namespace config.Name
        config.Version) = true)
    (hA2 : env.authorizer.Authorize env.authorizer.PermNsPut env.authorizer.OortResNamespace
      (config.Org ++ "/" ++ config.Namespace) = true)
    (hsel : PlacementService.selectNodes env config strategy = .ok nodes) :
    (PlacementService.Place env kv config strategy cmd webhookPath).1
      = .ok ((nodes.enum.filter (env.writeOk config)).map env.taskFor) ∧
    (PlacementService.Place env kv config strategy cmd webhookPath).2.1
      = (nodes.enum.foldl (PlacementService.placeStep env config cmd webhookPath)
          { tasks := [], kv := kv, sent := [] }).kv := by
  unfold PlacementService.Place
  simp only [hA1, hA2, hsel, Bool.not_true, Bool.false_eq_true, if_false]
  rw [foldl_placeStep_tasks]
  simp

/-- C9: fan-out isolation. With both permissions granted and the strategy resolving to the
node list `nodes`, `Place` returns no error and returns, in node order, exactly the task of
each node whose store write succeeded and no task for a node whose store write failed,
whatever the pattern of store-write failures is; the store write of a node succeeds exactly
when `writeOk` holds for it. -/
theorem C9_fan_out_isolation (env : PlaceEnv) (kv : Etcd) (config : Config)
    (strategy : PlaceReq_Strategy) (cmd : String → Except Error String) (webhookPath : String)
    (nodes : List NodeStringified)
    (hA1 : env.authorizer.Authorize env.authorizer.PermConfigGet env.authorizer.OortResConfig
      (env.authorizer.OortConfigId config.Type config.Org config.Namespace config.Name
        config.Version) = true)
    (hA2 : env.authorizer.Authorize env.authorizer.PermNsPut env.authorizer.OortResNamespace
      (config.Org ++ "/" ++ config.Namespace) = true)
    (hsel : PlacementService.selectNodes env config strategy = .ok nodes) :
    (PlacementService.Place env kv config strategy cmd webhookPath).1
      = .ok ((nodes.enum.filter (env.writeOk config)).map env.taskFor) ∧
    (∀ (kv1 : Etcd) (x : Nat × NodeStringified),
      (PlacementEtcdStore.Place env.json (env.putErr x.1) kv1 config (env.taskFor x)).1 = none
        ↔ env.writeOk config x = true) := by
  refine ⟨?_, fun kv1 x => PlacementEtcdStore.Place_error_eq_none_iff env config kv1 x⟩
  unfold PlacementService.Place
  simp only [hA1, hA2, hsel, Bool.not_true, Bool.false_eq_true, if_false]
  rw [foldl_placeStep_tasks]
  rfl

/-- C9 at the example: three selected nodes, the store write of the second one failing;
`Place` returns the tasks of the first and the third node. -/
theorem C9_fan_out_isolation_witness :
    (PlacementService.Place exampleEnv exampleEtcd (.standalone exampleDaoV1.toConfig)
        exampleStrategy (fun taskId => .ok taskId) "/standalone").1
      = .ok [NewPlacementTask "t1" "n1" PlacementTaskStatusAccepted 1700000000 1700000000,
             NewPlacementTask "t3" "n3" PlacementTaskStatusAccepted 1700000002 1700000002] :=
  (C9_fan_out_isolation exampleEnv exampleEtcd (.standalone exampleDaoV1.toConfig)
    exampleStrategy (fun taskId => .ok taskId) "/standalone" [⟨"n1"⟩, ⟨"n2"⟩, ⟨"n3"⟩]
    rfl rfl rfl).1

/-! ## Round trip through the configuration store -/

theorem foldl_append_singleton_map {α β : Type} (f : α → β) (l : List α) (init : List β) :
    l.foldl (fun acc a => acc ++ [f a]) init = init ++ l.map f := by
  induction l generalizing init with
  | nil => simp
  | cons a l ih => rw [List.foldl_cons, ih]; simp

theorem StandaloneConfigDAO.toConfig_ofConfig (c : StandaloneConfig) :
    (StandaloneConfigDAO.ofConfig c).toConfig = c := rfl

theorem ConfigGroupDAO.group_toConfig_ofConfig (c : ConfigGroup) :
    (ConfigGroupDAO.ofConfig c).toConfig = c := by
  unfold ConfigGroupDAO.toConfig ConfigGroupDAO.ofConfig InitConfigGroup
  simp only
  rw [foldl_append_singleton_map (fun ps : NamedParamSet => (⟨ps.name, ps.params⟩ : ParamSetDAO)),
    foldl_append_singleton_map (fun psDao : ParamSetDAO => NewParamSet psDao.Name psDao.ParamSet)]
  simp only [List.nil_append, List.map_map]
  have h : ((fun psDao : ParamSetDAO => NewParamSet psDao.Name psDao.ParamSet)
      ∘ fun ps : NamedParamSet => (⟨ps.name, ps.params⟩ : ParamSetDAO)) = id := by
    funext ps
    rfl
  rw [h, List.map_id]

theorem StandaloneConfigEtcdStore.Put_ok (json : JsonCodec StandaloneConfigDAO)
    (ioErr : Option String) (kv kv1 : Etcd) (c : StandaloneConfig)
    (h : StandaloneConfigEtcdStore.Put json ioErr kv c = (.ok (), kv1)) :
    ∃ value, json.Marshal (StandaloneConfigDAO.ofConfig c) = .ok value ∧ ioErr = none ∧
      kv.get (StandaloneConfigDAO.ofConfig c).Key = none ∧
      kv1 = kv.put (StandaloneConfigDAO.ofConfig c).Key value := by
  unfold StandaloneConfigEtcdStore.Put at h
  simp only at h
  cases hm : json.Marshal (StandaloneConfigDAO.ofConfig c) with
  | error e => rw [hm] at h; simp at h
  | ok value =>
    rw [hm] at h
    cases ioErr with
    | some e => simp [Etcd.TxnCreate] at h
    | none =>
      cases hg : kv.get (StandaloneConfigDAO.ofConfig c).Key with
      | some old => simp [Etcd.TxnCreate, hg] at h
      | none =>
        simp [Etcd.TxnCreate, hg] at h
        exact ⟨value, rfl, rfl, rfl, h.symm⟩

theorem ConfigGroupEtcdStore.group_Put_ok (json : JsonCodec ConfigGroupDAO)
    (ioErr : Option String) (kv kv1 : Etcd) (c : ConfigGroup)
    (h : ConfigGroupEtcdStore.Put json ioErr kv c = (.ok (), kv1)) :
    ∃ value, json.Marshal (ConfigGroupDAO.ofConfig c) = .ok value ∧ ioErr = none ∧
      kv.get (ConfigGroupDAO.ofConfig c).Key = none ∧
      kv1 = kv.put (ConfigGroupDAO.ofConfig c).Key value := by
  unfold ConfigGroupEtcdStore.Put at h
  simp only at h
  cases hm : json.Marshal (ConfigGroupDAO.ofConfig c) with
  | error e => rw [hm] at h; simp at h
  | ok value =>
    rw [hm] at h
    cases ioErr with
    | some e => simp [Etcd.TxnCreate] at h
    | none =>
      cases hg : kv.get (ConfigGroupDAO.ofConfig c).Key with
      | some old => simp [Etcd.TxnCreate, hg] at h
      | none =>
        simp [Etcd.TxnCreate, hg] at h
        exact ⟨value, rfl, rfl, rfl, h.symm⟩

/-- C11: Put/Get round trip, for both artifact kinds. When the codec reads back what it
wrote, then after a successful store `Put` of an artifact `c` the store `Get` of
`(c.org, c.namespace, c.name, c.version)` returns `c` itself: the same org, namespace, name,
version, creation timestamp and parameters, and for a group the same sub-sets in the same
order. -/
theorem C11_put_get_round_trip
    (jsonS : JsonCodec StandaloneConfigDAO) (jsonG : JsonCodec ConfigGroupDAO)
    (ioErr : Option String) (kv kv1 : Etcd) :
    (∀ c : StandaloneConfig,
      (∀ value, jsonS.Marshal (StandaloneConfigDAO.ofConfig c) = .ok value →
        jsonS.Unmarshal value = .ok (StandaloneConfigDAO.ofConfig c)) →
      StandaloneConfigEtcdStore.Put jsonS ioErr kv c = (.ok (), kv1) →
      StandaloneConfigEtcdStore.Get jsonS none kv1 c.base.org c.base.namespace_ c.Name
        c.base.version = .ok c) ∧
    (∀ g : ConfigGroup,
      (∀ value, jsonG.Marshal (ConfigGroupDAO.ofConfig g) = .ok value →
        jsonG.Unmarshal value = .ok (ConfigGroupDAO.ofConfig g)) →
      ConfigGroupEtcdStore.Put jsonG ioErr kv g = (.ok (), kv1) →
      ConfigGroupEtcdStore.Get jsonG none kv1 g.base.org g.base.namespace_ g.name
        g.base.version = .ok g) := by
  constructor
  · intro c hrt hput
    obtain ⟨value, hm, _, _, hkv⟩ := StandaloneConfigEtcdStore.Put_ok jsonS ioErr kv kv1 c hput
    have hget : kv1.get (standaloneKey c.base.org c.base.namespace_ c.Name c.base.version)
        = some value := by
      rw [hkv]
      exact Etcd.get_put_self kv _ value
    simp only [StandaloneConfigEtcdStore.Get, Etcd.Get, hget, Option.toList, hrt value hm]
    rw [StandaloneConfigDAO.toConfig_ofConfig]
  · intro g hrt hput
    obtain ⟨value, hm, _, _, hkv⟩ := ConfigGroupEtcdStore.group_Put_ok jsonG ioErr kv kv1 g hput
    have hget : kv1.get (groupKey g.base.org g.base.namespace_ g.name g.base.version)
        = some value := by
      rw [hkv]
      exact Etcd.get_put_self kv _ value
    simp only [ConfigGroupEtcdStore.Get, Etcd.Get, hget, Option.toList, hrt value hm]
    rw [ConfigGroupDAO.group_toConfig_ofConfig]

/-- C11 at the examples: after the standalone configuration `acme/prod/svc` at `v1` and the
group `acme/prod/bundle` at `v1` are put into the empty store, `Get` returns them. -/
theorem C11_put_get_round_trip_witness :
    StandaloneConfigEtcdStore.Get exampleJson none
        ⟨[("standalone/acme/prod/svc/v1", "v1")]⟩ "acme" "prod" "svc" "v1"
      = .ok exampleDaoV1.toConfig ∧
    ConfigGroupEtcdStore.Get exampleGroupJsonBack none
        ⟨[("groups/acme/prod/bundle/v1", "v1")]⟩ "acme" "prod" "bundle" "v1"
      = .ok exampleGroup :=
  ⟨(C11_put_get_round_trip exampleJson exampleGroupJsonBack none ⟨[]⟩
      ⟨[("standalone/acme/prod/svc/v1", "v1")]⟩).1 exampleDaoV1.toConfig
      (fun value h => by cases h; rfl) rfl,
   (C11_put_get_round_trip exampleJson exampleGroupJsonBack none ⟨[]⟩
      ⟨[("groups/acme/prod/bundle/v1", "v1")]⟩).2 exampleGroup
      (fun value h => by cases h; rfl) rfl⟩

/-! ## Status updates of placement tasks -/

theorem PlacementEtcdStore.UpdateStatus_found (json : JsonCodec PlacementTaskDAO)
    (now : Int) (kv : Etcd) (org namespace_ name version configType taskId : String)
    (status : PlacementTaskStatus) (stored value : String) (dao : PlacementTaskDAO)
    (hget : kv.get (placementKey configType org namespace_ name version taskId) = some stored)
    (hun : json.Unmarshal stored = .ok dao)
    (hm : json.Marshal (dao.resolve status now) = .ok value) :
    PlacementEtcdStore.UpdateStatus json none none now kv org namespace_ name version
        configType taskId status
      = (none, kv.put (placementKey configType org namespace_ name version taskId) value) := by
  simp [PlacementEtcdStore.UpdateStatus, Etcd.Get, hget, hun, hm, Etcd.Put]

/-- C13 as stated fails: the task `t1` is stored with status Placed (resolved at 160); a
further `UpdateStatus` call with status Failed at time 200 succeeds and the stored task is
then Failed. -/
theorem C13_counterexample :
    PlacementEtcdStore.ListByConfig exampleTaskJson none examplePlacedEtcd
        "acme" "prod" "svc" "v1" "standalone"
      = .ok [NewPlacementTask "t1" "n1" PlacementTaskStatusPlaced 100 160] ∧
    (PlacementEtcdStore.UpdateStatus exampleTaskJson none none 200 examplePlacedEtcd
        "acme" "prod" "svc" "v1" "standalone" "t1" PlacementTaskStatusFailed).1 = none ∧
    PlacementEtcdStore.ListByConfig exampleTaskJson none
        (PlacementEtcdStore.UpdateStatus exampleTaskJson none none 200 examplePlacedEtcd
          "acme" "prod" "svc" "v1" "standalone" "t1" PlacementTaskStatusFailed).2
        "acme" "prod" "svc" "v1" "standalone"
      = .ok [NewPlacementTask "t1" "n1" PlacementTaskStatusFailed 100 200] := by
  refine ⟨by rfl, by rfl, by rfl⟩

/-- C13, amended: `UpdateStatus` has no guard on the current status. For every stored task,
whatever its status, a call that finds and rewrites the record stores the record with the
status of the call; the status of a task already Placed or Failed is therefore unchanged
only when the call carries the status the task already has. -/
theorem C13_update_status_overwrites (json : JsonCodec PlacementTaskDAO)
    (now : Int) (kv : Etcd) (org namespace_ name version configType taskId : String)
    (status : PlacementTaskStatus) (stored value : String) (dao : PlacementTaskDAO)
    (hget : kv.get (placementKey configType org namespace_ name version taskId) = some stored)
    (hun : json.Unmarshal stored = .ok dao)
    (hm : json.Marshal (dao.resolve status now) = .ok value) :
    (PlacementEtcdStore.UpdateStatus json none none now kv org namespace_ name version
        configType taskId status).1 = none ∧
    (PlacementEtcdStore.UpdateStatus json none none now kv org namespace_ name version
        configType taskId status).2.get
        (placementKey configType org namespace_ name version taskId) = some value ∧
    (dao.resolve status now).Status = status ∧
    ((dao.resolve status now).Status = dao.Status ↔ status = dao.Status) := by
  rw [PlacementEtcdStore.UpdateStatus_found json now kv org namespace_ name version configType
    taskId status stored value dao hget hun hm]
  exact ⟨rfl, Etcd.get_put_self kv _ value, rfl, Iff.rfl⟩

/-- C13, amended, at the example: the task `t1`, stored as Placed, is rewritten as Failed by
a call with status Failed. -/
theorem C13_update_status_overwrites_witness :
    (PlacementEtcdStore.UpdateStatus exampleTaskJson none none 200 examplePlacedEtcd
        "acme" "prod" "svc" "v1" "standalone" "t1" PlacementTaskStatusFailed).1 = none ∧
    (PlacementEtcdStore.UpdateStatus exampleTaskJson none none 200 examplePlacedEtcd
        "acme" "prod" "svc" "v1" "standalone" "t1" PlacementTaskStatusFailed).2.get
        (placementKey "standalone" "acme" "prod" "svc" "v1" "t1") = some "t1:F:200" ∧
    ((exampleTaskDao "t1" "n1" 1 100 160).resolve PlacementTaskStatusFailed 200).Status
      = PlacementTaskStatusFailed ∧
    (((exampleTaskDao "t1" "n1" 1 100 160).resolve PlacementTaskStatusFailed 200).Status
        = (exampleTaskDao "t1" "n1" 1 100 160).Status
      ↔ PlacementTaskStatusFailed = (exampleTaskDao "t1" "n1" 1 100 160).Status) :=
  C13_update_status_overwrites exampleTaskJson 200 examplePlacedEtcd "acme" "prod" "svc" "v1"
    "standalone" "t1" PlacementTaskStatusFailed "t1:P:160" "t1:F:200"
    (exampleTaskDao "t1" "n1" 1 100 160) rfl rfl rfl

/-- C15 as stated fails: the task `t1` is accepted at time 100 and the Placed reply is
handled at time 100, which is not earlier than the creation; the stored task is then Placed
with `resolvedAt = acceptedAt = 100`, not strictly greater. -/
theorem C15_counterexample :
    PlacementEtcdStore.ListByConfig exampleTaskJson none
        (PlacementEtcdStore.UpdateStatus exampleTaskJson none none 100 exampleTaskEtcd
          "acme" "prod" "svc" "v1" "standalone" "t1" PlacementTaskStatusPlaced).2
        "acme" "prod" "svc" "v1" "standalone"
      = .ok [NewPlacementTask "t1" "n1" PlacementTaskStatusPlaced 100 100,
             NewPlacementTask "t2" "n2" PlacementTaskStatusAccepted 100 100] ∧
    ¬ ((NewPlacementTask "t1" "n1" PlacementTaskStatusPlaced 100 100).resolvedAt
        > (NewPlacementTask "t1" "n1" PlacementTaskStatusPlaced 100 100).acceptedAt) := by
  refine ⟨by rfl, by decide⟩

/-- C15, amended: after a Placed reply for a task in state Accepted, the stored task has
status Placed, the `acceptedAt` it had and `resolvedAt` equal to the reply time in Unix
seconds; so `resolvedAt ≥ acceptedAt` for every reply time not earlier than the creation,
and `resolvedAt > acceptedAt` exactly when the reply time is a later second. -/
theorem C15_placed_reply_resolves (json : JsonCodec PlacementTaskDAO)
    (now : Int) (kv : Etcd) (org namespace_ name version configType taskId : String)
    (stored value : String) (dao : PlacementTaskDAO)
    (hget : kv.get (placementKey configType org namespace_ name version taskId) = some stored)
    (hun : json.Unmarshal stored = .ok dao)
    (_haccepted : dao.Status = PlacementTaskStatusAccepted)
    (hm : json.Marshal (dao.resolve PlacementTaskStatusPlaced now) = .ok value) :
    (PlacementEtcdStore.UpdateStatus json none none now kv org namespace_ name version
        configType taskId PlacementTaskStatusPlaced).1 = none ∧
    (PlacementEtcdStore.UpdateStatus json none none now kv org namespace_ name version
        configType taskId PlacementTaskStatusPlaced).2.get
        (placementKey configType org namespace_ name version taskId) = some value ∧
    (dao.resolve PlacementTaskStatusPlaced now).Status = PlacementTaskStatusPlaced ∧
    (dao.resolve PlacementTaskStatusPlaced now).AcceptedAt = dao.AcceptedAt ∧
    (dao.resolve PlacementTaskStatusPlaced now).ResolvedAt = now ∧
    (dao.AcceptedAt ≤ now →
      (dao.resolve PlacementTaskStatusPlaced now).AcceptedAt
        ≤ (dao.resolve PlacementTaskStatusPlaced now).ResolvedAt) ∧
    ((dao.resolve PlacementTaskStatusPlaced now).ResolvedAt
        > (dao.resolve PlacementTaskStatusPlaced now).AcceptedAt ↔ now > dao.AcceptedAt) := by
  rw [PlacementEtcdStore.UpdateStatus_found json now kv org namespace_ name version configType
    taskId PlacementTaskStatusPlaced stored value dao hget hun hm]
  exact ⟨rfl, Etcd.get_put_self kv _ value, rfl, rfl, rfl, fun h => h, Iff.rfl⟩

/-- C15, amended, at the example: the task `t1`, accepted at 100, gets a Placed reply at
160; the stored record is then `t1:P:160`, with `resolvedAt = 160 > 100 = acceptedAt`. -/
theorem C15_placed_reply_resolves_witness :
    (PlacementEtcdStore.UpdateStatus exampleTaskJson none none 160 exampleTaskEtcd
        "acme" "prod" "svc" "v1" "standalone" "t1" PlacementTaskStatusPlaced).2.get
        (placementKey "standalone" "acme" "prod" "svc" "v1" "t1") = some "t1:P:160" ∧
    ((exampleTaskDao "t1" "n1" 0 100 100).resolve PlacementTaskStatusPlaced 160).ResolvedAt
      > ((exampleTaskDao "t1" "n1" 0 100 100).resolve PlacementTaskStatusPlaced 160).AcceptedAt :=
  ⟨(C15_placed_reply_resolves exampleTaskJson 160 exampleTaskEtcd "acme" "prod" "svc" "v1"
      "standalone" "t1" "t1:A:100" "t1:P:160" (exampleTaskDao "t1" "n1" 0 100 100)
      rfl rfl rfl rfl).2.1,
   (C15_placed_reply_resolves exampleTaskJson 160 exampleTaskEtcd "acme" "prod" "svc" "v1"
      "standalone" "t1" "t1:A:100" "t1:P:160" (exampleTaskDao "t1" "n1" 0 100 100)
      rfl rfl rfl rfl).2.2.2.2.2.2.mpr (by decide)⟩

theorem PlacementEtcdStore.UpdateStatus_frame (json : JsonCodec PlacementTaskDAO)
    (ioErrGet ioErrPut : Option String) (now : Int) (kv : Etcd)
    (org namespace_ name version configType taskId : String) (status : PlacementTaskStatus)
    (k : String) (hk : k ≠ placementKey configType org namespace_ name version taskId) :
    (PlacementEtcdStore.UpdateStatus json ioErrGet ioErrPut now kv org namespace_ name version
        configType taskId status).2.get k = kv.get k := by
  unfold PlacementEtcdStore.UpdateStatus
  simp only
  cases ioErrGet with
  | some e => rfl
  | none =>
    cases hg : kv.get (placementKey configType org namespace_ name version taskId) with
    | none => simp [Etcd.Get, hg]
    | some stored =>
      simp only [Etcd.Get, hg, Option.toList]
      cases json.Unmarshal stored with
      | error e => rfl
      | ok dao =>
        simp only
        cases json.Marshal (dao.resolve status now) with
        | error e => rfl
        | ok value =>
          cases ioErrPut with
          | some e => rfl
          | none => exact Etcd.get_put_other kv _ value k hk

/-- C16: `UpdateStatus` changes only the status and `resolvedAt` of the addressed task. The
record it writes back keeps the id, node, `acceptedAt` and identifying tuple of the stored
one and is written under the same key, and every other key of the store keeps its content,
whatever the outcome of the call; with the two Accepted tasks `t1` and `t2` stored, a Placed
update of `t1` leaves `t2` Accepted in the list of the configuration's tasks. -/
theorem C16_update_status_frame (json : JsonCodec PlacementTaskDAO)
    (now : Int) (kv : Etcd) (org namespace_ name version configType taskId : String)
    (status : PlacementTaskStatus) (stored value : String) (dao : PlacementTaskDAO)
    (hget : kv.get (placementKey configType org namespace_ name version taskId) = some stored)
    (hun : json.Unmarshal stored = .ok dao)
    (hm : json.Marshal (dao.resolve status now) = .ok value) :
    PlacementEtcdStore.UpdateStatus json none none now kv org namespace_ name version
        configType taskId status
      = (none, kv.put (placementKey configType org namespace_ name version taskId) value) ∧
    ((dao.resolve status now).Id = dao.Id ∧ (dao.resolve status now).Node = dao.Node ∧
      (dao.resolve status now).AcceptedAt = dao.AcceptedAt ∧
      (dao.resolve status now).Org = dao.Org ∧
      (dao.resolve status now).Namespace = dao.Namespace ∧
      (dao.resolve status now).Name = dao.Name ∧
      (dao.resolve status now).Version = dao.Version) ∧
    (∀ (ioErrGet ioErrPut : Option String) (k : String),
      k ≠ placementKey configType org namespace_ name version taskId →
      (PlacementEtcdStore.UpdateStatus json ioErrGet ioErrPut now kv org namespace_ name version
        configType taskId status).2.get k = kv.get k) ∧
    PlacementEtcdStore.ListByConfig exampleTaskJson none
        (PlacementEtcdStore.UpdateStatus exampleTaskJson none none 160 exampleTaskEtcd
          "acme" "prod" "svc" "v1" "standalone" "t1" PlacementTaskStatusPlaced).2
        "acme" "prod" "svc" "v1" "standalone"
      = .ok [NewPlacementTask "t1" "n1" PlacementTaskStatusPlaced 100 160,
             NewPlacementTask "t2" "n2" PlacementTaskStatusAccepted 100 100] := by
  refine ⟨PlacementEtcdStore.UpdateStatus_found json now kv org namespace_ name version
    configType taskId status stored value dao hget hun hm,
    ⟨rfl, rfl, rfl, rfl, rfl, rfl, rfl⟩, ?_, by rfl⟩
  intro ioErrGet ioErrPut k hk
  exact PlacementEtcdStore.UpdateStatus_frame json ioErrGet ioErrPut now kv org namespace_ name
    version configType taskId status k hk

/-- C16 at the example: the Placed update of `t1` at time 160 rewrites the record of `t1`
and leaves the record of `t2` as it was. -/
theorem C16_update_status_frame_witness :
    PlacementEtcdStore.UpdateStatus exampleTaskJson none none 160 exampleTaskEtcd
        "acme" "prod" "svc" "v1" "standalone" "t1" PlacementTaskStatusPlaced
      = (none, exampleTaskEtcd.put (placementKey "standalone" "acme" "prod" "svc" "v1" "t1")
          "t1:P:160") ∧
    (PlacementEtcdStore.UpdateStatus exampleTaskJson none none 160 exampleTaskEtcd
        "acme" "prod" "svc" "v1" "standalone" "t1" PlacementTaskStatusPlaced).2.get
        "placements/standalone/acme/prod/svc/v1/t2"
      = exampleTaskEtcd.get "placements/standalone/acme/prod/svc/v1/t2" :=
  ⟨(C16_update_status_frame exampleTaskJson 160 exampleTaskEtcd "acme" "prod" "svc" "v1"
      "standalone" "t1" PlacementTaskStatusPlaced "t1:A:100" "t1:P:160"
      (exampleTaskDao "t1" "n1" 0 100 100) rfl rfl rfl).1,
   (C16_update_status_frame exampleTaskJson 160 exampleTaskEtcd "acme" "prod" "svc" "v1"
      "standalone" "t1" PlacementTaskStatusPlaced "t1:A:100" "t1:P:160"
      (exampleTaskDao "t1" "n1" 0 100 100) rfl rfl rfl).2.2.1 none none
      "placements/standalone/acme/prod/svc/v1/t2" (by decide)⟩

/-- C17: with the backing store answering the lookup, `UpdateStatus` fails with a NotFound
error exactly when no task record exists under the key of
(kind, org, namespace, name, version, task id); in that case the store is left as it was,
so no record is created for the unknown task id. The service method is the store method. -/
theorem C17_update_status_not_found (json : JsonCodec PlacementTaskDAO)
    (ioErrPut : Option String) (now : Int) (kv : Etcd)
    (org namespace_ name version configType taskId : String) (status : PlacementTaskStatus) :
    ((∃ msg, (PlacementEtcdStore.UpdateStatus json none ioErrPut now kv org namespace_ name
          version configType taskId status).1 = some (NewError .ErrTypeNotFound msg))
      ↔ kv.get (placementKey configType org namespace_ name version taskId) = none) ∧
    (kv.get (placementKey configType org namespace_ name version taskId) = none →
      PlacementEtcdStore.UpdateStatus json none ioErrPut now kv org namespace_ name version
          configType taskId status
        = (some (NewError .ErrTypeNotFound ("task (id=" ++ taskId ++ ") not found")), kv)) ∧
    PlacementService.UpdateStatus json none ioErrPut now kv org namespace_ name version
        configType taskId status
      = PlacementEtcdStore.UpdateStatus json none ioErrPut now kv org namespace_ name version
        configType taskId status := by
  have hnone : kv.get (placementKey configType org namespace_ name version taskId) = none →
      PlacementEtcdStore.UpdateStatus json none ioErrPut now kv org namespace_ name version
          configType taskId status
        = (some (NewError .ErrTypeNotFound ("task (id=" ++ taskId ++ ") not found")), kv) := by
    intro hg
    simp [PlacementEtcdStore.UpdateStatus, Etcd.Get, hg]
  refine ⟨⟨?_, fun hg => ⟨_, by rw [hnone hg]⟩⟩, hnone, rfl⟩
  rintro ⟨msg, hmsg⟩
  cases hg : kv.get (placementKey configType org namespace_ name version taskId) with
  | none => rfl
  | some stored =>
    exfalso
    unfold PlacementEtcdStore.UpdateStatus at hmsg
    simp only [Etcd.Get, hg, Option.toList] at hmsg
    cases hu : json.Unmarshal stored with
    | error e => simp [hu, NewError] at hmsg
    | ok dao =>
      simp only [hu] at hmsg
      cases hmar : json.Marshal (dao.resolve status now) with
      | error e => simp [hmar, NewError] at hmsg
      | ok value =>
        simp only [hmar] at hmsg
        cases ioErrPut with
        | some e => simp [Etcd.Put, NewError] at hmsg
        | none => simp [Etcd.Put] at hmsg

/-! ## The tasks that `Place` creates -/

theorem string_append_left_cancel (p a b : String) (h : p ++ a = p ++ b) : a = b := by
  apply String.ext
  have h2 := congrArg String.data h
  rw [String.data_append, String.data_append] at h2
  exact List.append_cancel_left h2

theorem PlaceEnv.keyFor_inj (env : PlaceEnv) (config : Config) (x y : Nat × NodeStringified)
    (h : env.keyFor config x = env.keyFor config y) : env.uuidNew x.1 = env.uuidNew y.1 :=
  string_append_left_cancel _ _ _ h

theorem placeStep_kv (env : PlaceEnv) (config : Config) (cmd : String → Except Error String)
    (webhookPath : String) (st : PlaceState) (x : Nat × NodeStringified) :
    (env.writeOk config x = false ∧
      (PlacementService.placeStep env config cmd webhookPath st x).kv = st.kv) ∨
    (env.writeOk config x = true ∧
      ∃ value, env.json.Marshal (PlacementTaskDAO.ofTask config (env.taskFor x)) = .ok value ∧
        (PlacementService.placeStep env config cmd webhookPath st x).kv
          = st.kv.put (env.keyFor config x) value) := by
  unfold PlacementService.placeStep PlaceEnv.writeOk PlaceEnv.keyFor
  simp only
  have htask : NewPlacementTask (env.uuidNew x.1) x.2.Id PlacementTaskStatusAccepted
      (env.now x.1) (env.now x.1) = env.taskFor x := rfl
  rw [htask]
  unfold PlacementEtcdStore.Place
  simp only
  cases hm : env.json.Marshal (PlacementTaskDAO.ofTask config (env.taskFor x)) with
  | error e => exact Or.inl ⟨rfl, rfl⟩
  | ok value =>
    cases hp : env.putErr x.1 with
    | some e => exact Or.inl ⟨rfl, rfl⟩
    | none =>
      refine Or.inr ⟨rfl, value, rfl, ?_⟩
      simp only [Etcd.Put]
      split <;> rfl

theorem foldl_placeStep_kv_other (env : PlaceEnv) (config : Config)
    (cmd : String → Except Error String) (webhookPath : String)
    (l : List (Nat × NodeStringified)) (st : PlaceState) (k : String)
    (h : ∀ x ∈ l, env.keyFor config x ≠ k) :
    (l.foldl (PlacementService.placeStep env config cmd webhookPath) st).kv.get k
      = st.kv.get k := by
  induction l generalizing st with
  | nil => rfl
  | cons y l ih =>
    rw [List.foldl_cons, ih _ (fun x hx => h x (List.mem_cons_of_mem _ hx))]
    rcases placeStep_kv env config cmd webhookPath st y with ⟨_, hkv⟩ | ⟨_, value, _, hkv⟩
    · rw [hkv]
    · rw [hkv]
      exact Etcd.get_put_other st.kv _ value k (fun e => h y (List.mem_cons_self _ _) e.symm)

theorem foldl_placeStep_kv_written (env : PlaceEnv) (config : Config)
    (cmd : String → Except Error String) (webhookPath : String)
    (l : List (Nat × NodeStringified)) (st : PlaceState) (x : Nat × NodeStringified)
    (value : String)
    (hpair : l.Pairwise (fun a b => env.keyFor config a ≠ env.keyFor config b))
    (hx : x ∈ l) (hw : env.writeOk config x = true)
    (hm : env.json.Marshal (PlacementTaskDAO.ofTask config (env.taskFor x)) = .ok value) :
    (l.foldl (PlacementService.placeStep env config cmd webhookPath) st).kv.get
      (env.keyFor config x) = some value := by
  induction l generalizing st with
  | nil => cases hx
  | cons y l ih =>
    rw [List.pairwise_cons] at hpair
    rw [List.foldl_cons]
    rcases List.mem_cons.mp hx with rfl | hmem
    · rw [foldl_placeStep_kv_other env config cmd webhookPath l _ _
        (fun z hz e => hpair.1 z hz e.symm)]
      rcases placeStep_kv env config cmd webhookPath st x with ⟨hf, _⟩ | ⟨_, v, hv, hkv⟩
      · rw [hw] at hf
        cases hf
      · rw [hm] at hv
        cases hv
        rw [hkv]
        exact Etcd.get_put_self st.kv _ value
    · exact ih _ hpair.2 hmem

theorem enum_keys_pairwise (env : PlaceEnv) (config : Config) (nodes : List NodeStringified)
    (huuid : ∀ i, i < nodes.length → ∀ j, j < nodes.length →
      env.uuidNew i = env.uuidNew j → i = j) :
    nodes.enum.Pairwise (fun a b => env.keyFor config a ≠ env.keyFor config b) := by
  have hnd : (nodes.enum.map Prod.fst).Nodup := by
    rw [List.enum_map_fst]
    exact List.nodup_range _
  have hnd2 : nodes.enum.Nodup := hnd.of_map _
  refine hnd2.pairwise_of_forall_ne ?_
  intro a ha b hb hab hkey
  have hidx := huuid a.1 (List.fst_lt_of_mem_enum ha) b.1 (List.fst_lt_of_mem_enum hb)
    (PlaceEnv.keyFor_inj env config a b hkey)
  have ha2 := List.mem_enum_iff_getElem?.mp ha
  have hb2 := List.mem_enum_iff_getElem?.mp hb
  rw [hidx, hb2] at ha2
  exact hab (Prod.ext hidx (Option.some.inj ha2).symm)

/-- C14: with both permissions granted and the strategy resolving to the node list `nodes`,
every task that `Place` returns is in state Accepted with `acceptedAt = resolvedAt`, carries
the id of the node at its position of `nodes`, and, the task ids of the call being pairwise
distinct, its serialized record is what the Placement Store holds under the task's key when
`Place` returns. -/
theorem C14_placed_tasks_fresh (env : PlaceEnv) (kv : Etcd) (config : Config)
    (strategy : PlaceReq_Strategy) (cmd : String → Except Error String) (webhookPath : String)
    (nodes : List NodeStringified)
    (hA1 : env.authorizer.Authorize env.authorizer.PermConfigGet env.authorizer.OortResConfig
      (env.authorizer.OortConfigId config.Type config.Org config.Namespace config.Name
        config.Version) = true)
    (hA2 : env.authorizer.Authorize env.authorizer.PermNsPut env.authorizer.OortResNamespace
      (config.Org ++ "/" ++ config.Namespace) = true)
    (hsel : PlacementService.selectNodes env config strategy = .ok nodes)
    (huuid : ∀ i, i < nodes.length → ∀ j, j < nodes.length →
      env.uuidNew i = env.uuidNew j → i = j) :
    ∃ tasks, (PlacementService.Place env kv config strategy cmd webhookPath).1 = .ok tasks ∧
      ∀ t ∈ tasks,
        t.status = PlacementTaskStatusAccepted ∧ t.acceptedAt = t.resolvedAt ∧
        (∃ i node, nodes[i]? = some node ∧ t.node = node.Id ∧ t.id = env.uuidNew i) ∧
        ∃ value, env.json.Marshal (PlacementTaskDAO.ofTask config t) = .ok value ∧
          (PlacementService.Place env kv config strategy cmd webhookPath).2.1.get
            ((PlacementTaskDAO.ofTask config t).Key config.Type) = some value := by
  obtain ⟨htasks, _⟩ := Place_tasks_and_store env kv config strategy cmd webhookPath nodes
    hA1 hA2 hsel
  refine ⟨_, htasks, ?_⟩
  intro t ht
  obtain ⟨x, hx, rfl⟩ := List.mem_map.mp ht
  obtain ⟨hxmem, hw⟩ := List.mem_filter.mp hx
  refine ⟨rfl, rfl, ⟨x.1, x.2, List.mem_enum_iff_getElem?.mp hxmem, rfl, rfl⟩, ?_⟩
  have hmar : ∃ value,
      env.json.Marshal (PlacementTaskDAO.ofTask config (env.taskFor x)) = .ok value := by
    unfold PlaceEnv.writeOk at hw
    cases hm : env.json.Marshal (PlacementTaskDAO.ofTask config (env.taskFor x)) with
    | error e => rw [hm] at hw; cases hw
    | ok value => exact ⟨value, rfl⟩
  obtain ⟨value, hm⟩ := hmar
  refine ⟨value, hm, ?_⟩
  have hkv : (PlacementService.Place env kv config strategy cmd webhookPath).2.1
      = (nodes.enum.foldl (PlacementService.placeStep env config cmd webhookPath)
          { tasks := [], kv := kv, sent := [] }).kv := by
    unfold PlacementService.Place
    simp only [hA1, hA2, hsel, Bool.not_true, Bool.false_eq_true, if_false]
  rw [hkv]
  exact foldl_placeStep_kv_written env config cmd webhookPath nodes.enum _ x value
    (enum_keys_pairwise env config nodes huuid) hxmem hw hm

/-- C14 at the example: the tasks that `Place` returns for the three example nodes are
Accepted, with equal timestamps, on their nodes, and stored under their keys. -/
theorem C14_placed_tasks_fresh_witness :
    ∃ tasks, (PlacementService.Place exampleEnv exampleEtcd (.standalone exampleDaoV1.toConfig)
        exampleStrategy (fun taskId => .ok taskId) "/standalone").1 = .ok tasks ∧
      ∀ t ∈ tasks,
        t.status = PlacementTaskStatusAccepted ∧ t.acceptedAt = t.resolvedAt ∧
        (∃ i node, ([⟨"n1"⟩, ⟨"n2"⟩, ⟨"n3"⟩] : List NodeStringified)[i]? = some node ∧
          t.node = node.Id ∧ t.id = exampleEnv.uuidNew i) ∧
        ∃ value, exampleEnv.json.Marshal
            (PlacementTaskDAO.ofTask (.standalone exampleDaoV1.toConfig) t) = .ok value ∧
          (PlacementService.Place exampleEnv exampleEtcd (.standalone exampleDaoV1.toConfig)
            exampleStrategy (fun taskId => .ok taskId) "/standalone").2.1.get
            ((PlacementTaskDAO.ofTask (.standalone exampleDaoV1.toConfig) t).Key
              (Config.Type (.standalone exampleDaoV1.toConfig))) = some value :=
  C14_placed_tasks_fresh exampleEnv exampleEtcd (.standalone exampleDaoV1.toConfig)
    exampleStrategy (fun taskId => .ok taskId) "/standalone" [⟨"n1"⟩, ⟨"n2"⟩, ⟨"n3"⟩]
    rfl rfl rfl (by decide)

/-! ## Validation of the strategy -/

/-- C18: what the code does for a gossip percentage outside `(0, 100]`, every permission
granted and the registry answering with three nodes: for percentage 150 the number of nodes
to select is 5, the loop of `selectRandmNodes` draws from the pool once it is empty and
`Place` faults; for percentage -5 the number is 0 and `Place` returns no error and the empty
task list. In neither case a validation error is returned. -/
theorem C18_gossip_percentage_out_of_range :
    numberOfNodesToSelect 3 150 = 5 ∧
    PlacementService.Place exampleEnv exampleEtcd (.standalone exampleDaoV1.toConfig)
        (exampleGossip 150) (fun taskId => .ok taskId) "/standalone"
      = (.fault, exampleEtcd, []) ∧
    numberOfNodesToSelect 3 (-5) = 0 ∧
    PlacementService.Place exampleEnv exampleEtcd (.standalone exampleDaoV1.toConfig)
        (exampleGossip (-5)) (fun taskId => .ok taskId) "/standalone"
      = (.ok [], exampleEtcd, []) := by
  refine ⟨by decide, by rfl, by decide, by rfl⟩

theorem copySelectors (nodeQuery : List Selector) :
    nodeQuery.foldl (fun query selector =>
      query ++ [({ LabelKey := selector.LabelKey, ShouldBe := selector.ShouldBe,
                   Value := selector.Value } : Selector)]) [] = nodeQuery := by
  have h : ∀ (init : List Selector), nodeQuery.foldl (fun query selector =>
      query ++ [({ LabelKey := selector.LabelKey, ShouldBe := selector.ShouldBe,
                   Value := selector.Value } : Selector)]) init = init ++ nodeQuery := by
    induction nodeQuery with
    | nil => intro init; simp
    | cons x xs ih => intro init; simp [List.foldl_cons, ih]
  simpa using h []

/-- The recorded `placeByQuery` returns what `placeByQuery` returns. -/
theorem placeByQueryRecorded_result (env : PlaceEnv) (magnetar : MagnetarClient)
    (config : Config) (nodeQuery : List Selector) :
    (PlacementService.placeByQueryRecorded env magnetar config nodeQuery).1
      = PlacementService.placeByQuery env config nodeQuery := by
  unfold PlacementService.placeByQueryRecorded PlacementService.placeByQuery
    MagnetarClient.QueryOrgOwnedNodes
  simp only
  split <;> split <;> simp_all

/-- The recorded `placeByQuery` sends exactly one request, the query of the organisation
with the selectors it was given. -/
theorem placeByQueryRecorded_calls (env : PlaceEnv) (magnetar : MagnetarClient)
    (config : Config) (nodeQuery : List Selector) :
    (PlacementService.placeByQueryRecorded env magnetar config nodeQuery).2.calls
      = magnetar.calls ++ [.QueryOrgOwnedNodes config.Org nodeQuery] := by
  unfold PlacementService.placeByQueryRecorded MagnetarClient.QueryOrgOwnedNodes
  rw [copySelectors]
  cases h : env.QueryOrgOwnedNodes config.Org nodeQuery <;> simp [h]

/-- The recorded `placeByGossip` returns what `placeByGossip` returns. -/
theorem placeByGossipRecorded_result (env : PlaceEnv) (magnetar : MagnetarClient)
    (config : Config) (percentage : Int) :
    (PlacementService.placeByGossipRecorded env magnetar config percentage).1
      = PlacementService.placeByGossip env config percentage := by
  unfold PlacementService.placeByGossipRecorded PlacementService.placeByGossip
    MagnetarClient.ListOrgOwnedNodes
  cases env.ListOrgOwnedNodes config.Org with
  | error err => rfl
  | ok nodes => cases h : selectRandmNodes env.draws nodes percentage <;> simp [h]

/-- The recorded `placeByGossip` sends exactly one request, the listing of the
organisation. -/
theorem placeByGossipRecorded_calls (env : PlaceEnv) (magnetar : MagnetarClient)
    (config : Config) (percentage : Int) :
    (PlacementService.placeByGossipRecorded env magnetar config percentage).2.calls
      = magnetar.calls ++ [.ListOrgOwnedNodes config.Org] := by
  unfold PlacementService.placeByGossipRecorded MagnetarClient.ListOrgOwnedNodes
  cases env.ListOrgOwnedNodes config.Org with
  | error err => rfl
  | ok nodes => cases h : selectRandmNodes env.draws nodes percentage <;> simp [h]

/-- The recorded strategy dispatch returns what the strategy dispatch returns. -/
theorem selectNodesRecorded_result (env : PlaceEnv) (magnetar : MagnetarClient)
    (config : Config) (strategy : PlaceReq_Strategy) :
    (PlacementService.selectNodesRecorded env magnetar config strategy).1
      = PlacementService.selectNodes env config strategy := by
  unfold PlacementService.selectNodesRecorded PlacementService.selectNodes
  by_cases hd : strategy.Name = "default"
  · simp only [hd, if_true]
    cases hq : strategy.Query with
    | none => rfl
    | some query =>
      simp only
      rw [← placeByQueryRecorded_result env magnetar config query]
  · simp only [hd, if_false]
    by_cases hg : strategy.Name = "gossip"
    · simp only [hg, if_true]
      by_cases hp : strategy.Percentage = 0
      · simp only [hp, if_true]
      · simp only [hp, if_false]
        rw [← placeByGossipRecorded_result env magnetar config strategy.Percentage]
        rcases PlacementService.placeByGossipRecorded env magnetar config
          strategy.Percentage with ⟨_ | ⟨nodes, err⟩, magnetar1⟩ <;> rfl
    · simp only [hg, if_false]

/-- The recorded `Place` returns what `Place` returns. -/
theorem PlaceRecorded_result (env : PlaceEnv) (magnetar : MagnetarClient) (kv : Etcd)
    (config : Config) (strategy : PlaceReq_Strategy) (cmd : String → Except Error String)
    (webhookPath : String) :
    (PlacementService.PlaceRecorded env magnetar kv config strategy cmd webhookPath).1
      = PlacementService.Place env kv config strategy cmd webhookPath := by
  unfold PlacementService.PlaceRecorded PlacementService.Place
  split
  · rfl
  · split
    · rfl
    · rw [← selectNodesRecorded_result env magnetar config strategy]
      rcases PlacementService.selectNodesRecorded env magnetar config strategy with
        ⟨_ | _ | _, magnetar1⟩ <;> rfl

/-- With both permissions granted, the recorded `Place` sends the registry exactly one
request when the strategy dispatch reaches `placeByQuery` or `placeByGossip`: the query
of the organisation with the given selectors, or the listing of the organisation. -/
theorem PlaceRecorded_calls (env : PlaceEnv) (magnetar : MagnetarClient) (kv : Etcd)
    (config : Config) (strategy : PlaceReq_Strategy) (cmd : String → Except Error String)
    (webhookPath : String)
    (hA1 : env.authorizer.Authorize env.authorizer.PermConfigGet env.authorizer.OortResConfig
      (env.authorizer.OortConfigId config.Type config.Org config.Namespace config.Name
        config.Version) = true)
    (hA2 : env.authorizer.Authorize env.authorizer.PermNsPut env.authorizer.OortResNamespace
      (config.Org ++ "/" ++ config.Namespace) = true) :
    (∀ query, strategy.Name = "default" → strategy.Query = some query →
      (PlacementService.PlaceRecorded env magnetar kv config strategy cmd webhookPath).2.calls
        = magnetar.calls ++ [.QueryOrgOwnedNodes config.Org query]) ∧
    (strategy.Name = "gossip" → strategy.Percentage ≠ 0 →
      (PlacementService.PlaceRecorded env magnetar kv config strategy cmd webhookPath).2.calls
        = magnetar.calls ++ [.ListOrgOwnedNodes config.Org]) := by
  constructor
  · intro query hname hq
    have h := placeByQueryRecorded_calls env magnetar config query
    unfold PlacementService.PlaceRecorded PlacementService.selectNodesRecorded
    simp only [hA1, hA2, hname, hq, Bool.not_true, Bool.false_eq_true, if_false, if_true]
    revert h
    rcases PlacementService.placeByQueryRecorded env magnetar config query with
      ⟨⟨nodes, err⟩, magnetar1⟩
    exact fun h => h
  · intro hname hp
    have hne : ¬ ("gossip" = "default") := by decide
    have h := placeByGossipRecorded_calls env magnetar config strategy.Percentage
    unfold PlacementService.PlaceRecorded PlacementService.selectNodesRecorded
    simp only [hA1, hA2, hname, hp, hne, Bool.not_true, Bool.false_eq_true, if_false, if_true]
    revert h
    rcases PlacementService.placeByGossipRecorded env magnetar config strategy.Percentage with
      ⟨_ | ⟨nodes, err⟩, magnetar1⟩ <;> exact fun h => h

/-- C19: with both permissions granted, `Place` with the gossip strategy and percentage 0
returns a SchemaInvalid error, the key space is as before and nothing is handed to the
queue, so no task is created; and the registry client is left as it was, whatever requests
it had sent before: `Place` sends no request to the node registry. -/
theorem C19_gossip_zero_rejected (env : PlaceEnv) (magnetar : MagnetarClient) (kv : Etcd)
    (config : Config) (strategy : PlaceReq_Strategy) (cmd : String → Except Error String)
    (webhookPath : String)
    (hA1 : env.authorizer.Authorize env.authorizer.PermConfigGet env.authorizer.OortResConfig
      (env.authorizer.OortConfigId config.Type config.Org config.Namespace config.Name
        config.Version) = true)
    (hA2 : env.authorizer.Authorize env.authorizer.PermNsPut env.authorizer.OortResNamespace
      (config.Org ++ "/" ++ config.Namespace) = true)
    (hname : strategy.Name = "gossip") (hp : strategy.Percentage = 0) :
    PlacementService.PlaceRecorded env magnetar kv config strategy cmd webhookPath
      = ((.error (NewError .ErrTypeSchemaInvalid "Percentage can't be 0 for gossip strategy"),
          kv, []), magnetar) ∧
    PlacementService.Place env kv config strategy cmd webhookPath
      = (.error (NewError .ErrTypeSchemaInvalid "Percentage can't be 0 for gossip strategy"),
          kv, []) := by
  constructor
  · simp [PlacementService.PlaceRecorded, hA1, hA2, PlacementService.selectNodesRecorded,
      hname, hp]
  · simp [PlacementService.Place, hA1, hA2, PlacementService.selectNodes, hname, hp]

/-- C19 at the example environment, with a registry client that has sent no request. -/
theorem C19_gossip_zero_rejected_witness :
    PlacementService.PlaceRecorded exampleEnv ⟨[]⟩ exampleEtcd
        (.standalone exampleDaoV1.toConfig) (exampleGossip 0) (fun taskId => .ok taskId)
        "/standalone"
      = ((.error (NewError .ErrTypeSchemaInvalid "Percentage can't be 0 for gossip strategy"),
          exampleEtcd, []), ⟨[]⟩) ∧
    PlacementService.Place exampleEnv exampleEtcd (.standalone exampleDaoV1.toConfig)
        (exampleGossip 0) (fun taskId => .ok taskId) "/standalone"
      = (.error (NewError .ErrTypeSchemaInvalid "Percentage can't be 0 for gossip strategy"),
          exampleEtcd, []) :=
  C19_gossip_zero_rejected exampleEnv ⟨[]⟩ exampleEtcd (.standalone exampleDaoV1.toConfig)
    (exampleGossip 0) (fun taskId => .ok taskId) "/standalone" rfl rfl rfl rfl

/-- C20 as stated fails for a selector list that is present with zero elements: the check
`strategy.Query == nil` lets it pass, `placeByQuery` sends the registry one request, the
query of the organisation with no selector, and `Place` returns no error but the tasks of
the nodes the registry answers with, the first of them stored under its key. -/
theorem C20_counterexample :
    (PlacementService.PlaceRecorded exampleEnv ⟨[]⟩ exampleEtcd
        (.standalone exampleDaoV1.toConfig) exampleEmptyQuery (fun taskId => .ok taskId)
        "/standalone").1.1
      = .ok [NewPlacementTask "t1" "n1" PlacementTaskStatusAccepted 1700000000 1700000000,
             NewPlacementTask "t3" "n3" PlacementTaskStatusAccepted 1700000002 1700000002] ∧
    (PlacementService.PlaceRecorded exampleEnv ⟨[]⟩ exampleEtcd
        (.standalone exampleDaoV1.toConfig) exampleEmptyQuery (fun taskId => .ok taskId)
        "/standalone").2.calls.length = 1 ∧
    (PlacementService.PlaceRecorded exampleEnv ⟨[]⟩ exampleEtcd
        (.standalone exampleDaoV1.toConfig) exampleEmptyQuery (fun taskId => .ok taskId)
        "/standalone").2
      = ⟨[.QueryOrgOwnedNodes "acme" []]⟩ ∧
    (PlacementService.PlaceRecorded exampleEnv ⟨[]⟩ exampleEtcd
        (.standalone exampleDaoV1.toConfig) exampleEmptyQuery (fun taskId => .ok taskId)
        "/standalone").1.2.1.get "placements/standalone/acme/prod/svc/v1/t1" = some "t1" ∧
    exampleEtcd.get "placements/standalone/acme/prod/svc/v1/t1" = none ∧
    (PlacementService.Place exampleEnv exampleEtcd (.standalone exampleDaoV1.toConfig)
        exampleEmptyQuery (fun taskId => .ok taskId) "/standalone").1
      = .ok [NewPlacementTask "t1" "n1" PlacementTaskStatusAccepted 1700000000 1700000000,
             NewPlacementTask "t3" "n3" PlacementTaskStatusAccepted 1700000002 1700000002] := by
  refine ⟨by rfl, by rfl, by rfl, by rfl, by rfl, by rfl⟩

/-- C20, amended: with both permissions granted, `Place` with the query strategy and an
absent (nil) selector list returns a SchemaInvalid error, the key space is as before and
nothing is handed to the queue, so no task is created; and the registry client is left as it
was, whatever requests it had sent before: `Place` sends no request to the node registry. -/
theorem C20_query_nil_rejected (env : PlaceEnv) (magnetar : MagnetarClient) (kv : Etcd)
    (config : Config) (strategy : PlaceReq_Strategy) (cmd : String → Except Error String)
    (webhookPath : String)
    (hA1 : env.authorizer.Authorize env.authorizer.PermConfigGet env.authorizer.OortResConfig
      (env.authorizer.OortConfigId config.Type config.Org config.Namespace config.Name
        config.Version) = true)
    (hA2 : env.authorizer.Authorize env.authorizer.PermNsPut env.authorizer.OortResNamespace
      (config.Org ++ "/" ++ config.Namespace) = true)
    (hname : strategy.Name = "default") (hq : strategy.Query = none) :
    PlacementService.PlaceRecorded env magnetar kv config strategy cmd webhookPath
      = ((.error (NewError .ErrTypeSchemaInvalid "Query is required for default strategy"),
          kv, []), magnetar) ∧
    PlacementService.Place env kv config strategy cmd webhookPath
      = (.error (NewError .ErrTypeSchemaInvalid "Query is required for default strategy"),
          kv, []) := by
  constructor
  · simp [PlacementService.PlaceRecorded, hA1, hA2, PlacementService.selectNodesRecorded,
      hname, hq]
  · simp [PlacementService.Place, hA1, hA2, PlacementService.selectNodes, hname, hq]

/-- C20, amended, at the example environment, with a registry client that has sent no
request. -/
theorem C20_query_nil_rejected_witness :
    PlacementService.PlaceRecorded exampleEnv ⟨[]⟩ exampleEtcd
        (.standalone exampleDaoV1.toConfig)
        { Name := "default", Query := none, Percentage := 0 } (fun taskId => .ok taskId)
        "/standalone"
      = ((.error (NewError .ErrTypeSchemaInvalid "Query is required for default strategy"),
          exampleEtcd, []), ⟨[]⟩) ∧
    PlacementService.Place exampleEnv exampleEtcd (.standalone exampleDaoV1.toConfig)
        { Name := "default", Query := none, Percentage := 0 } (fun taskId => .ok taskId)
        "/standalone"
      = (.error (NewError .ErrTypeSchemaInvalid "Query is required for default strategy"),
          exampleEtcd, []) :=
  C20_query_nil_rejected exampleEnv ⟨[]⟩ exampleEtcd (.standalone exampleDaoV1.toConfig)
    { Name := "default", Query := none, Percentage := 0 } (fun taskId => .ok taskId)
    "/standalone" rfl rfl rfl rfl

/-! ## Routing of replies -/

theorem mapStatus_recognised (ts : ApiTaskStatus) (wire : Int)
    (h : wire = ts.TaskStatus_Placed ∨ wire = ts.TaskStatus_Failed) :
    (mapStatus ts wire).2 = true ∧
    (wire = ts.TaskStatus_Placed → (mapStatus ts wire).1 = PlacementTaskStatusPlaced) ∧
    (wire = ts.TaskStatus_Failed → (mapStatus ts wire).1 = PlacementTaskStatusFailed) := by
  rcases h with rfl | rfl
  · have hne : ¬ ts.TaskStatus_Placed = ts.TaskStatus_Failed := ts.distinct
    simp [mapStatus, hne]
  · have hne : ¬ ts.TaskStatus_Failed = ts.TaskStatus_Placed := fun e => ts.distinct e.symm
    simp [mapStatus, hne]

/-- Reply routing when the namespace of the snapshot is the one of the stored configuration:
for a standalone configuration this asks that the argument `namespace` of `Place` equals the
namespace the configuration was stored with, for a group it holds for every argument. Let a
reply, with wire status Placed or Failed, embed the command that the command closure of
`Place` builds for the task id `taskId` (the protobuf codec reading the configuration
snapshot back). Then the handler of that kind calls `UpdateStatus` with the org, namespace,
name and version of the configuration, the kind and `taskId`, with the mapped status; and
the key of that tuple is the key under which the Placement Store persists a task with that
id for that configuration. -/
theorem reply_routing_same_namespace (proto : ProtoEnv) (json : JsonCodec PlacementTaskDAO)
    (ioErrGet ioErrPut : Option String) (now : Int) (kv : Etcd)
    (taskId body : String) (strategy : PlaceReq_Strategy) (wire : Int)
    (hwire : wire = proto.taskStatus.TaskStatus_Placed ∨
      wire = proto.taskStatus.TaskStatus_Failed) :
    (∀ (c : StandaloneConfig) (namespace_ cfgBytes : String),
      namespace_ = c.base.namespace_ →
      proto.standalone.Marshal (StandaloneConfigService.apiConfig proto c namespace_)
        = .ok cfgBytes →
      proto.standalone.Unmarshal cfgBytes
        = .ok (StandaloneConfigService.apiConfig proto c namespace_) →
      proto.reply.Unmarshal body
        = .ok ⟨some ⟨taskId, namespace_, cfgBytes, "standalone", strategy.Name⟩, wire⟩ →
      (∀ cmdBytes, proto.command.Marshal
            ⟨taskId, namespace_, cfgBytes, "standalone", strategy.Name⟩ = .ok cmdBytes →
          StandaloneConfigService.placeCmd proto c namespace_ strategy taskId = .ok cmdBytes) ∧
      TaskWebhooks.UpdateStandaloneConfigTaskStatus proto json ioErrGet ioErrPut now kv
          (.ok body)
        = (.updated (PlacementService.UpdateStatus json ioErrGet ioErrPut now kv c.base.org
              c.base.namespace_ c.Name c.base.version ConfTypeStandalone taskId
              (mapStatus proto.taskStatus wire).1).1,
            (PlacementService.UpdateStatus json ioErrGet ioErrPut now kv c.base.org
              c.base.namespace_ c.Name c.base.version ConfTypeStandalone taskId
              (mapStatus proto.taskStatus wire).1).2) ∧
      ∀ t : PlacementTask, t.id = taskId →
        placementKey ConfTypeStandalone c.base.org c.base.namespace_ c.Name c.base.version
            taskId
          = (PlacementTaskDAO.ofTask (.standalone c) t).Key (Config.Type (.standalone c))) ∧
    (∀ (g : ConfigGroup) (namespace_ cfgBytes : String),
      proto.group.Marshal (ConfigGroupService.apiConfig proto g) = .ok cfgBytes →
      proto.group.Unmarshal cfgBytes = .ok (ConfigGroupService.apiConfig proto g) →
      proto.reply.Unmarshal body
        = .ok ⟨some ⟨taskId, namespace_, cfgBytes, "group", strategy.Name⟩, wire⟩ →
      (∀ cmdBytes, proto.command.Marshal
            ⟨taskId, namespace_, cfgBytes, "group", strategy.Name⟩ = .ok cmdBytes →
          ConfigGroupService.placeCmd proto g namespace_ strategy taskId = .ok cmdBytes) ∧
      TaskWebhooks.UpdateConfigGroupTaskStatus proto json ioErrGet ioErrPut now kv (.ok body)
        = (.updated (PlacementService.UpdateStatus json ioErrGet ioErrPut now kv g.base.org
              g.base.namespace_ g.name g.base.version ConfTypeGroup taskId
              (mapStatus proto.taskStatus wire).1).1,
            (PlacementService.UpdateStatus json ioErrGet ioErrPut now kv g.base.org
              g.base.namespace_ g.name g.base.version ConfTypeGroup taskId
              (mapStatus proto.taskStatus wire).1).2) ∧
      ∀ t : PlacementTask, t.id = taskId →
        placementKey ConfTypeGroup g.base.org g.base.namespace_ g.name g.base.version taskId
          = (PlacementTaskDAO.ofTask (.group g) t).Key (Config.Type (.group g))) ∧
    (∀ (env : PlaceEnv) (jsonS : JsonCodec StandaloneConfigDAO) (ioErr : Option String)
      (org namespace_ name version : String) (c : StandaloneConfig),
      StandaloneConfigEtcdStore.Get jsonS ioErr kv org namespace_ name version = .ok c →
      StandaloneConfigService.Place env proto jsonS ioErr kv org namespace_ name version
          strategy
        = PlacementService.Place env kv (.standalone c) strategy
            (StandaloneConfigService.placeCmd proto c namespace_ strategy) "/standalone") ∧
    (∀ (env : PlaceEnv) (jsonG : JsonCodec ConfigGroupDAO) (ioErr : Option String)
      (org namespace_ name version : String) (g : ConfigGroup),
      ConfigGroupEtcdStore.Get jsonG ioErr kv org namespace_ name version = .ok g →
      ConfigGroupService.Place env proto jsonG ioErr kv org namespace_ name version strategy
        = PlacementService.Place env kv (.group g) strategy
            (ConfigGroupService.placeCmd proto g namespace_ strategy) "/groups") ∧
    (mapStatus proto.taskStatus wire).2 = true ∧
    (wire = proto.taskStatus.TaskStatus_Placed →
      (mapStatus proto.taskStatus wire).1 = PlacementTaskStatusPlaced) ∧
    (wire = proto.taskStatus.TaskStatus_Failed →
      (mapStatus proto.taskStatus wire).1 = PlacementTaskStatusFailed) := by
  have hmap := mapStatus_recognised proto.taskStatus wire hwire
  refine ⟨?_, ?_, ?_, ?_, hmap⟩
  rotate_left 2
  · intro env jsonS ioErr org namespace_ name version c hGet
    simp [StandaloneConfigService.Place, hGet]
  · intro env jsonG ioErr org namespace_ name version g hGet
    simp [ConfigGroupService.Place, hGet]
  · intro c namespace_ cfgBytes hns hM hU hR
    refine ⟨?_, ?_, ?_⟩
    · intro cmdBytes hC
      simp [StandaloneConfigService.placeCmd, hM, hC]
    · subst hns
      simp [TaskWebhooks.UpdateStandaloneConfigTaskStatus, hR, hU, hmap.1,
        StandaloneConfigService.apiConfig]
    · intro t ht
      subst ht
      rfl
  · intro g namespace_ cfgBytes hM hU hR
    refine ⟨?_, ?_, ?_⟩
    · intro cmdBytes hC
      simp [ConfigGroupService.placeCmd, hM, hC]
    · simp [TaskWebhooks.UpdateConfigGroupTaskStatus, hR, hU, hmap.1,
        ConfigGroupService.apiConfig]
    · intro t ht
      subst ht
      rfl

/-- Reply routing at the examples: the Placed reply for the task `t1` of the configuration
`acme/prod/svc` at `v1`, delivered to the standalone handler with the two example tasks
stored, makes the handler update the record of `t1` of that configuration. -/
theorem reply_routing_same_namespace_example :
    TaskWebhooks.UpdateStandaloneConfigTaskStatus exampleProto exampleTaskJson none none 160
        exampleTaskEtcd (.ok "reply-standalone")
      = (.updated (PlacementService.UpdateStatus exampleTaskJson none none 160 exampleTaskEtcd
            "acme" "prod" "svc" "v1" ConfTypeStandalone "t1"
            (mapStatus exampleProto.taskStatus 1).1).1,
          (PlacementService.UpdateStatus exampleTaskJson none none 160 exampleTaskEtcd
            "acme" "prod" "svc" "v1" ConfTypeStandalone "t1"
            (mapStatus exampleProto.taskStatus 1).1).2) ∧
    TaskWebhooks.UpdateConfigGroupTaskStatus exampleProto exampleTaskJson none none 160
        exampleTaskEtcd (.ok "reply-group")
      = (.updated (PlacementService.UpdateStatus exampleTaskJson none none 160 exampleTaskEtcd
            "acme" "prod" "bundle" "v1" ConfTypeGroup "t1"
            (mapStatus exampleProto.taskStatus 1).1).1,
          (PlacementService.UpdateStatus exampleTaskJson none none 160 exampleTaskEtcd
            "acme" "prod" "bundle" "v1" ConfTypeGroup "t1"
            (mapStatus exampleProto.taskStatus 1).1).2) :=
  ⟨((reply_routing_same_namespace exampleProto exampleTaskJson none none 160 exampleTaskEtcd "t1"
      "reply-standalone" exampleStrategy 1 (Or.inl rfl)).1 exampleDaoV1.toConfig "prod" "svc"
      rfl rfl rfl rfl).2.1,
   ((reply_routing_same_namespace exampleProto exampleTaskJson none none 160 exampleTaskEtcd "t1"
      "reply-group" exampleStrategy 1 (Or.inl rfl)).2.1 exampleGroup "prod" "bundle"
      rfl rfl rfl).2.1⟩

/-- C12: what the code does for a standalone configuration whose key can be read with another
namespace. The store holds the configuration (acme, prod/eu, svc, v1) under
`standalone/acme/prod/eu/svc/v1`; `Place` is called with org `acme`, namespace `prod`, name
`eu/svc`, version `v1`, which is the same key. `Place` finds that configuration and stores
the task `t1` under the configuration's own namespace `prod/eu`, while the snapshot in the
command carries the argument `prod`. The reply that embeds this command makes the handler
call `UpdateStatus` with namespace `prod`: the key it looks up does not exist, it gets
NotFound and the record of `t1` stays as `Place` wrote it. -/
theorem C12_standalone_reply_misrouted :
    StandaloneConfigEtcdStore.Get exampleJsonSlash none exampleSlashEtcd "acme" "prod" "eu/svc"
        "v1" = .ok exampleDaoSlash.toConfig ∧
    (StandaloneConfigService.Place exampleEnv exampleProto exampleJsonSlash none
        exampleSlashEtcd "acme" "prod" "eu/svc" "v1" exampleStrategy).1
      = .ok [NewPlacementTask "t1" "n1" PlacementTaskStatusAccepted 1700000000 1700000000,
             NewPlacementTask "t3" "n3" PlacementTaskStatusAccepted 1700000002 1700000002] ∧
    (StandaloneConfigService.Place exampleEnv exampleProto exampleJsonSlash none
        exampleSlashEtcd "acme" "prod" "eu/svc" "v1" exampleStrategy).2.1
      = ⟨[("placements/standalone/acme/prod/eu/svc/v1/t3", "t3"),
          ("placements/standalone/acme/prod/eu/svc/v1/t1", "t1"),
          ("standalone/acme/prod/eu/svc/v1", "v1")]⟩ ∧
    (StandaloneConfigService.Place exampleEnv exampleProto exampleJsonSlash none
        exampleSlashEtcd "acme" "prod" "eu/svc" "v1" exampleStrategy).2.2
      = [(⟨"n1", "t1", "http://kuiper:8080/standalone"⟩, none),
         (⟨"n3", "t3", "http://kuiper:8080/standalone"⟩, none)] ∧
    (PlacementTaskDAO.ofTask (.standalone exampleDaoSlash.toConfig)
        (NewPlacementTask "t1" "n1" PlacementTaskStatusAccepted 1700000000 1700000000)).Key
        ConfTypeStandalone
      = "placements/standalone/acme/prod/eu/svc/v1/t1" ∧
    StandaloneConfigService.apiConfig exampleProto exampleDaoSlash.toConfig "prod"
      = exampleApiConfig ∧
    exampleApiConfig.Namespace = "prod" ∧
    exampleDaoSlash.toConfig.base.namespace_ = "prod/eu" ∧
    exampleProto.standalone.Marshal
        (StandaloneConfigService.apiConfig exampleProto exampleDaoSlash.toConfig "prod")
      = .ok "svc" ∧
    exampleProto.standalone.Unmarshal "svc"
      = .ok (StandaloneConfigService.apiConfig exampleProto exampleDaoSlash.toConfig "prod") ∧
    exampleProto.command.Marshal ⟨"t1", "prod", "svc", "standalone", "default"⟩ = .ok "t1" ∧
    StandaloneConfigService.placeCmd exampleProto exampleDaoSlash.toConfig "prod"
        exampleStrategy "t1" = .ok "t1" ∧
    exampleProto.reply.Unmarshal "reply-standalone"
      = .ok ⟨some ⟨"t1", "prod", "svc", "standalone", "default"⟩,
          exampleProto.taskStatus.TaskStatus_Placed⟩ ∧
    placementKey ConfTypeStandalone "acme" "prod" "svc" "v1" "t1"
      = "placements/standalone/acme/prod/svc/v1/t1" ∧
    TaskWebhooks.UpdateStandaloneConfigTaskStatus exampleProto exampleEnv.json none none
        1700000100
        (StandaloneConfigService.Place exampleEnv exampleProto exampleJsonSlash none
          exampleSlashEtcd "acme" "prod" "eu/svc" "v1" exampleStrategy).2.1
        (.ok "reply-standalone")
      = (.updated (some (NewError .ErrTypeNotFound "task (id=t1) not found")),
          (StandaloneConfigService.Place exampleEnv exampleProto exampleJsonSlash none
            exampleSlashEtcd "acme" "prod" "eu/svc" "v1" exampleStrategy).2.1) ∧
    PlacementService.UpdateStatus exampleEnv.json none none 1700000100
        (StandaloneConfigService.Place exampleEnv exampleProto exampleJsonSlash none
          exampleSlashEtcd "acme" "prod" "eu/svc" "v1" exampleStrategy).2.1
        "acme" "prod" "svc" "v1" ConfTypeStandalone "t1" PlacementTaskStatusPlaced
      = (some (NewError .ErrTypeNotFound "task (id=t1) not found"),
          (StandaloneConfigService.Place exampleEnv exampleProto exampleJsonSlash none
            exampleSlashEtcd "acme" "prod" "eu/svc" "v1" exampleStrategy).2.1) := by
  refine ⟨by rfl, by rfl, by rfl, by rfl, by rfl, by rfl, by rfl, by rfl, by rfl, by rfl,
    by rfl, by rfl, by rfl, by rfl, by rfl, by rfl⟩

/-! ## Dispatch failures and registry failures -/

theorem placeStep_kv_eq (env : PlaceEnv) (config : Config) (cmd : String → Except Error String)
    (webhookPath : String) (st : PlaceState) (x : Nat × NodeStringified) :
    (PlacementService.placeStep env config cmd webhookPath st x).kv
      = (PlacementEtcdStore.Place env.json (env.putErr x.1) st.kv config (env.taskFor x)).2 := by
  unfold PlacementService.placeStep
  simp only
  have htask : NewPlacementTask (env.uuidNew x.1) x.2.Id PlacementTaskStatusAccepted
      (env.now x.1) (env.now x.1) = env.taskFor x := rfl
  rw [htask]
  split
  · rename_i e kv1 heq
    rw [heq]
  · rename_i kv1 heq
    rw [heq]
    split <;> rfl

theorem foldl_placeStep_kv_eq (env : PlaceEnv) (config : Config)
    (cmd : String → Except Error String) (webhookPath : String)
    (l : List (Nat × NodeStringified)) (st : PlaceState) :
    (l.foldl (PlacementService.placeStep env config cmd webhookPath) st).kv
      = l.foldl (fun kv x =>
          (PlacementEtcdStore.Place env.json (env.putErr x.1) kv config (env.taskFor x)).2)
          st.kv := by
  induction l generalizing st with
  | nil => rfl
  | cons x l ih => rw [List.foldl_cons, List.foldl_cons, ih, placeStep_kv_eq]

/-- C21: a dispatch failure does not undo the task. With both permissions granted, the
strategy resolving to `nodes` and the task ids of the call pairwise distinct: for every
selected node whose store write succeeded, whatever the command closure and the queue
answer (also for every later node), `Place` returns that node's task, in state Accepted, and
the store holds its serialized record under its key; and the returned tasks and the final
store are the same for every command closure and every behaviour of the queue, so the
remaining nodes are processed as in a run without failures. -/
theorem C21_dispatch_failure_keeps_task (env : PlaceEnv) (kv : Etcd) (config : Config)
    (strategy : PlaceReq_Strategy) (cmd : String → Except Error String) (webhookPath : String)
    (nodes : List NodeStringified)
    (hA1 : env.authorizer.Authorize env.authorizer.PermConfigGet env.authorizer.OortResConfig
      (env.authorizer.OortConfigId config.Type config.Org config.Namespace config.Name
        config.Version) = true)
    (hA2 : env.authorizer.Authorize env.authorizer.PermNsPut env.authorizer.OortResNamespace
      (config.Org ++ "/" ++ config.Namespace) = true)
    (hsel : PlacementService.selectNodes env config strategy = .ok nodes)
    (huuid : ∀ i, i < nodes.length → ∀ j, j < nodes.length →
      env.uuidNew i = env.uuidNew j → i = j) :
    (∀ x ∈ nodes.enum, env.writeOk config x = true →
      ∃ tasks, (PlacementService.Place env kv config strategy cmd webhookPath).1 = .ok tasks ∧
        env.taskFor x ∈ tasks ∧ (env.taskFor x).status = PlacementTaskStatusAccepted ∧
        ∃ value, env.json.Marshal (PlacementTaskDAO.ofTask config (env.taskFor x)) = .ok value ∧
          (PlacementTaskDAO.ofTask config (env.taskFor x)).Status
            = PlacementTaskStatusAccepted ∧
          (PlacementService.Place env kv config strategy cmd webhookPath).2.1.get
            (env.keyFor config x) = some value) ∧
    (∀ (cmd2 : String → Except Error String)
      (queue2 : Nat → DeseminateConfigRequest → Option String),
      (PlacementService.Place { env with DeseminateConfig := queue2 } kv config strategy cmd2
          webhookPath).1
        = (PlacementService.Place env kv config strategy cmd webhookPath).1 ∧
      (PlacementService.Place { env with DeseminateConfig := queue2 } kv config strategy cmd2
          webhookPath).2.1
        = (PlacementService.Place env kv config strategy cmd webhookPath).2.1) := by
  obtain ⟨htasks, hkv⟩ := Place_tasks_and_store env kv config strategy cmd webhookPath nodes
    hA1 hA2 hsel
  constructor
  · intro x hx hw
    refine ⟨_, htasks, List.mem_map.mpr ⟨x, List.mem_filter.mpr ⟨hx, hw⟩, rfl⟩, rfl, ?_⟩
    have hmar : ∃ value,
        env.json.Marshal (PlacementTaskDAO.ofTask config (env.taskFor x)) = .ok value := by
      unfold PlaceEnv.writeOk at hw
      cases hm : env.json.Marshal (PlacementTaskDAO.ofTask config (env.taskFor x)) with
      | error e => rw [hm] at hw; cases hw
      | ok value => exact ⟨value, rfl⟩
    obtain ⟨value, hm⟩ := hmar
    refine ⟨value, hm, rfl, ?_⟩
    rw [hkv]
    exact foldl_placeStep_kv_written env config cmd webhookPath nodes.enum _ x value
      (enum_keys_pairwise env config nodes huuid) hx hw hm
  · intro cmd2 queue2
    obtain ⟨htasks2, hkv2⟩ := Place_tasks_and_store { env with DeseminateConfig := queue2 } kv
      config strategy cmd2 webhookPath nodes hA1 hA2 hsel
    refine ⟨?_, ?_⟩
    · rw [htasks2, htasks]
      rfl
    · rw [hkv2, hkv, foldl_placeStep_kv_eq, foldl_placeStep_kv_eq]
      rfl

/-- C21 at the example: with a command closure that fails for every task and the three
example nodes, the tasks of the first and the third node are returned, as in C9, and the
record of the first one is stored. -/
theorem C21_dispatch_failure_keeps_task_witness :
    (PlacementService.Place exampleEnv exampleEtcd (.standalone exampleDaoV1.toConfig)
        exampleStrategy (fun _ => .error (NewError .ErrTypeMarshalSS "proto: marshal")) 
        "/standalone").1
      = .ok [NewPlacementTask "t1" "n1" PlacementTaskStatusAccepted 1700000000 1700000000,
             NewPlacementTask "t3" "n3" PlacementTaskStatusAccepted 1700000002 1700000002] ∧
    (PlacementService.Place exampleEnv exampleEtcd (.standalone exampleDaoV1.toConfig)
        exampleStrategy (fun _ => .error (NewError .ErrTypeMarshalSS "proto: marshal"))
        "/standalone").2.1.get "placements/standalone/acme/prod/svc/v1/t1" = some "t1" := by
  have h := C21_dispatch_failure_keeps_task exampleEnv exampleEtcd
    (.standalone exampleDaoV1.toConfig) exampleStrategy
    (fun _ => .error (NewError .ErrTypeMarshalSS "proto: marshal")) "/standalone"
    [⟨"n1"⟩, ⟨"n2"⟩, ⟨"n3"⟩] rfl rfl rfl (by decide)
  obtain ⟨tasks, ht, _, _, value, hm, _, hget⟩ := h.1 (0, ⟨"n1"⟩) (by decide) rfl
  have hv : value = "t1" := by
    have : (Except.ok "t1" : Except String String) = .ok value := hm
    cases this
    rfl
  subst hv
  exact ⟨rfl, hget⟩

/-- C22: what the code does when the conditional transaction fails with an I/O error, for
both artifact kinds: the response pointer is nil and `resp.Succeeded` is read before the
error is looked at, so `Put` faults; it returns neither a Db error nor any other. -/
theorem C22_put_faults_on_io_error :
    StandaloneConfigEtcdStore.Put exampleJson (some "context deadline exceeded") ⟨[]⟩
        exampleDaoV1.toConfig = (.fault, ⟨[]⟩) ∧
    ConfigGroupEtcdStore.Put exampleGroupJson (some "context deadline exceeded") ⟨[]⟩
        exampleGroup = (.fault, ⟨[]⟩) ∧
    (Etcd.TxnCreate (some "context deadline exceeded") ⟨[]⟩ "standalone/acme/prod/svc/v1"
        "v1").1 = (none, some "context deadline exceeded") := by
  refine ⟨by rfl, by rfl, by rfl⟩

/-- C29: with both permissions granted, when the registry call that `Place` makes fails, the
query of the organisation with the selector list of the query strategy or the listing of the
organisation for the gossip strategy with a non-zero percentage, `Place` drops the registry
error: it returns the empty task list and no error, the key space is as before
and nothing is handed to the queue. -/
theorem C29_registry_error_discarded (env : PlaceEnv) (kv : Etcd) (config : Config)
    (strategy : PlaceReq_Strategy) (cmd : String → Except Error String) (webhookPath : String)
    (hA1 : env.authorizer.Authorize env.authorizer.PermConfigGet env.authorizer.OortResConfig
      (env.authorizer.OortConfigId config.Type config.Org config.Namespace config.Name
        config.Version) = true)
    (hA2 : env.authorizer.Authorize env.authorizer.PermNsPut env.authorizer.OortResNamespace
      (config.Org ++ "/" ++ config.Namespace) = true) :
    (∀ query err, strategy.Name = "default" → strategy.Query = some query →
      env.QueryOrgOwnedNodes config.Org query = .error err →
      PlacementService.Place env kv config strategy cmd webhookPath = (.ok [], kv, []) ∧
      (PlacementService.placeByQuery env config query).2
        = some (NewError .ErrTypeInternal err)) ∧
    (∀ err, strategy.Name = "gossip" → strategy.Percentage ≠ 0 →
      env.ListOrgOwnedNodes config.Org = .error err →
      PlacementService.Place env kv config strategy cmd webhookPath = (.ok [], kv, []) ∧
      PlacementService.placeByGossip env config strategy.Percentage
        = some ([], some (NewError .ErrTypeInternal err))) := by
  constructor
  · intro query err hname hq hreg
    constructor
    · simp [PlacementService.Place, hA1, hA2, PlacementService.selectNodes, hname, hq,
        PlacementService.placeByQuery, copySelectors, hreg, List.enum]
    · simp [PlacementService.placeByQuery, copySelectors, hreg]
  · intro err hname hp hreg
    have hne : ¬ ("gossip" = "default") := by decide
    constructor
    · simp [PlacementService.Place, hA1, hA2, PlacementService.selectNodes, hname, hp, hne,
        PlacementService.placeByGossip, hreg, List.enum]
    · simp [PlacementService.placeByGossip, hreg]

/-- C29 at the example environment with a failing registry: the query strategy and the
gossip strategy with percentage 30 both return the empty task list and no error. -/
theorem C29_registry_error_discarded_witness :
    PlacementService.Place exampleEnvDown exampleEtcd (.standalone exampleDaoV1.toConfig)
        exampleStrategy (fun taskId => .ok taskId) "/standalone" = (.ok [], exampleEtcd, []) ∧
    PlacementService.Place exampleEnvDown exampleEtcd (.standalone exampleDaoV1.toConfig)
        (exampleGossip 30) (fun taskId => .ok taskId) "/standalone"
      = (.ok [], exampleEtcd, []) :=
  ⟨((C29_registry_error_discarded exampleEnvDown exampleEtcd
      (.standalone exampleDaoV1.toConfig) exampleStrategy (fun taskId => .ok taskId)
      "/standalone" rfl rfl).1 [⟨"zone", 0, "eu"⟩] "rpc error: code = Unavailable" rfl rfl
      rfl).1,
   ((C29_registry_error_discarded exampleEnvDown exampleEtcd
      (.standalone exampleDaoV1.toConfig) (exampleGossip 30) (fun taskId => .ok taskId)
      "/standalone" rfl rfl).2 "rpc error: code = Unavailable" rfl (by decide) rfl).1⟩

/-! ## Status mapping and error mapping -/

/-- C25: `mapStatus` maps the wire status Placed to the domain status Placed and Failed to
Failed, both as recognised; every other wire status is reported as unrecognised, and for a
reply with such a status either handler returns without calling `UpdateStatus` and leaves
the store, and so the task's stored status, as it was. -/
theorem C25_status_mapping (proto : ProtoEnv) (json : JsonCodec PlacementTaskDAO)
    (ioErrGet ioErrPut : Option String) (now : Int) (kv : Etcd) (wire : Int) :
    mapStatus proto.taskStatus proto.taskStatus.TaskStatus_Placed
      = (PlacementTaskStatusPlaced, true) ∧
    mapStatus proto.taskStatus proto.taskStatus.TaskStatus_Failed
      = (PlacementTaskStatusFailed, true) ∧
    (wire ≠ proto.taskStatus.TaskStatus_Placed → wire ≠ proto.taskStatus.TaskStatus_Failed →
      (mapStatus proto.taskStatus wire).2 = false ∧
      ∀ body reply, proto.reply.Unmarshal body = .ok reply → reply.Status = wire →
        (TaskWebhooks.UpdateStandaloneConfigTaskStatus proto json ioErrGet ioErrPut now kv
            (.ok body)).2 = kv ∧
        (∀ err, (TaskWebhooks.UpdateStandaloneConfigTaskStatus proto json ioErrGet ioErrPut
            now kv (.ok body)).1 ≠ .updated err) ∧
        (TaskWebhooks.UpdateConfigGroupTaskStatus proto json ioErrGet ioErrPut now kv
            (.ok body)).2 = kv ∧
        (∀ err, (TaskWebhooks.UpdateConfigGroupTaskStatus proto json ioErrGet ioErrPut
            now kv (.ok body)).1 ≠ .updated err)) := by
  have hne : ¬ proto.taskStatus.TaskStatus_Failed = proto.taskStatus.TaskStatus_Placed :=
    fun e => proto.taskStatus.distinct e.symm
  refine ⟨by simp [mapStatus], by simp [mapStatus, hne], ?_⟩
  intro h1 h2
  have hmap : (mapStatus proto.taskStatus wire).2 = false := by simp [mapStatus, h1, h2]
  refine ⟨hmap, ?_⟩
  intro body reply hR hS
  subst hS
  unfold TaskWebhooks.UpdateStandaloneConfigTaskStatus TaskWebhooks.UpdateConfigGroupTaskStatus
  simp only [hR]
  cases reply.Cmd with
  | none =>
    refine ⟨rfl, ?_, rfl, ?_⟩
    · intro err h
      cases h
    · intro err h
      cases h
  | some cmd =>
    simp only
    refine ⟨?_, ?_, ?_, ?_⟩
    · cases proto.standalone.Unmarshal cmd.Config with
      | error e => rfl
      | ok config => simp [hmap]
    · intro err
      cases proto.standalone.Unmarshal cmd.Config with
      | error e => intro h; cases h
      | ok config => simp [hmap]
    · cases proto.group.Unmarshal cmd.Config with
      | error e => rfl
      | ok config => simp [hmap]
    · intro err
      cases proto.group.Unmarshal cmd.Config with
      | error e => intro h; cases h
      | ok config => simp [hmap]

/-- C26: `mapError` returns no error for a nil domain error, and maps NotFound to the code
not-found, VersionExists to already-exists, Unauthorized to permission-denied, SchemaInvalid
to invalid-argument, and Db, Marshal and Internal to internal, keeping the message of the
error in every case; a kind that is none of these maps to unknown. -/
theorem C26_error_mapping (message : String) :
    mapError none = none ∧
    mapError (some (NewError .ErrTypeNotFound message)) = some ⟨.NotFound, message⟩ ∧
    mapError (some (NewError .ErrTypeVersionExists message)) = some ⟨.AlreadyExists, message⟩ ∧
    mapError (some (NewError .ErrTypeUnauthorized message))
      = some ⟨.PermissionDenied, message⟩ ∧
    mapError (some (NewError .ErrTypeSchemaInvalid message))
      = some ⟨.InvalidArgument, message⟩ ∧
    mapError (some (NewError .ErrTypeDb message)) = some ⟨.Internal, message⟩ ∧
    mapError (some (NewError .ErrTypeMarshalSS message)) = some ⟨.Internal, message⟩ ∧
    mapError (some (NewError .ErrTypeInternal message)) = some ⟨.Internal, message⟩ ∧
    mapErrorKind none message = ⟨.Unknown, message⟩ ∧
    (∀ err : Error, ∃ code, mapError (some err) = some ⟨code, err.message⟩) := by
  refine ⟨rfl, rfl, rfl, rfl, rfl, rfl, rfl, rfl, rfl, ?_⟩
  intro err
  obtain ⟨kind, msg⟩ := err
  cases kind <;> exact ⟨_, rfl⟩

/-! ## Store-level delete -/

theorem Etcd.delete_absent (kv : Etcd) (key : String) (h : kv.get key = none) :
    kv.delete key = kv := by
  have hk := (lookup_eq_none_iff_keys kv.kvs key).mp h
  cases kv with
  | mk kvs =>
    simp only [Etcd.delete, Etcd.mk.injEq]
    apply List.filter_eq_self.mpr
    intro e he
    have : e.1 ≠ key := fun heq => hk (List.mem_map.mpr ⟨e, he, heq⟩)
    simpa using this

/-- C24: store-level `Delete`, for both artifact kinds, the backing store answering. If a
record exists under the key of (org, namespace, name, version) and decodes, `Delete` returns
the artifact stored there (the one `Get` returned before), and afterwards `Get` of the tuple
returns NotFound while every other key keeps its content; if no record exists, `Delete`
returns NotFound and the store is as it was. -/
theorem C24_store_delete (jsonS : JsonCodec StandaloneConfigDAO)
    (jsonG : JsonCodec ConfigGroupDAO) (kv : Etcd) (org namespace_ name version : String) :
    (∀ value dao, kv.get (standaloneKey org namespace_ name version) = some value →
      jsonS.Unmarshal value = .ok dao →
      StandaloneConfigEtcdStore.Get jsonS none kv org namespace_ name version
        = .ok dao.toConfig ∧
      ∃ kv1, StandaloneConfigEtcdStore.Delete jsonS none kv org namespace_ name version
          = (.ok dao.toConfig, kv1) ∧
        (∃ msg, StandaloneConfigEtcdStore.Get jsonS none kv1 org namespace_ name version
          = .error (NewError .ErrTypeNotFound msg)) ∧
        ∀ k, k ≠ standaloneKey org namespace_ name version → kv1.get k = kv.get k) ∧
    (kv.get (standaloneKey org namespace_ name version) = none →
      ∃ msg, StandaloneConfigEtcdStore.Delete jsonS none kv org namespace_ name version
        = (.error (NewError .ErrTypeNotFound msg), kv)) ∧
    (∀ value dao, kv.get (groupKey org namespace_ name version) = some value →
      jsonG.Unmarshal value = .ok dao →
      ConfigGroupEtcdStore.Get jsonG none kv org namespace_ name version = .ok dao.toConfig ∧
      ∃ kv1, ConfigGroupEtcdStore.Delete jsonG none kv org namespace_ name version
          = (.ok dao.toConfig, kv1) ∧
        (∃ msg, ConfigGroupEtcdStore.Get jsonG none kv1 org namespace_ name version
          = .error (NewError .ErrTypeNotFound msg)) ∧
        ∀ k, k ≠ groupKey org namespace_ name version → kv1.get k = kv.get k) ∧
    (kv.get (groupKey org namespace_ name version) = none →
      ∃ msg, ConfigGroupEtcdStore.Delete jsonG none kv org namespace_ name version
        = (.error (NewError .ErrTypeNotFound msg), kv)) := by
  refine ⟨?_, ?_, ?_, ?_⟩
  · intro value dao hget hun
    refine ⟨by simp [StandaloneConfigEtcdStore.Get, Etcd.Get, hget, hun],
      kv.delete (standaloneKey org namespace_ name version),
      by simp [StandaloneConfigEtcdStore.Delete, Etcd.Delete, hget, hun], ?_, ?_⟩
    · refine ⟨"standalone config (Org: " ++ org ++ ", name: " ++ name ++ ", version: "
        ++ version ++ ") not found", ?_⟩
      simp [StandaloneConfigEtcdStore.Get, Etcd.Get, Etcd.get_delete_self]
    · intro k hk
      exact Etcd.get_delete_other kv _ k hk
  · intro hnone
    refine ⟨"standalone config (Org: " ++ org ++ ", name: " ++ name ++ ", version: "
      ++ version ++ ") not found", ?_⟩
    simp [StandaloneConfigEtcdStore.Delete, Etcd.Delete, hnone, Etcd.delete_absent kv _ hnone]
  · intro value dao hget hun
    refine ⟨by simp [ConfigGroupEtcdStore.Get, Etcd.Get, hget, hun],
      kv.delete (groupKey org namespace_ name version),
      by simp [ConfigGroupEtcdStore.Delete, Etcd.Delete, hget, hun], ?_, ?_⟩
    · refine ⟨"config group (Org: " ++ org ++ ", name: " ++ name ++ ", version: "
        ++ version ++ ") not found", ?_⟩
      simp [ConfigGroupEtcdStore.Get, Etcd.Get, Etcd.get_delete_self]
    · intro k hk
      exact Etcd.get_delete_other kv _ k hk
  · intro hnone
    refine ⟨"config group (Org: " ++ org ++ ", name: " ++ name ++ ", version: "
      ++ version ++ ") not found", ?_⟩
    simp [ConfigGroupEtcdStore.Delete, Etcd.Delete, hnone, Etcd.delete_absent kv _ hnone]

/-- C24 at the example store: the record of `acme/prod/svc` at `v1` is what `Get` returns
and what `Delete` returns. -/
theorem C24_store_delete_witness :
    StandaloneConfigEtcdStore.Get exampleJson none exampleEtcd "acme" "prod" "svc" "v1"
      = .ok exampleDaoV1.toConfig ∧
    ∃ kv1, StandaloneConfigEtcdStore.Delete exampleJson none exampleEtcd "acme" "prod" "svc"
        "v1" = (.ok exampleDaoV1.toConfig, kv1) ∧
      (∃ msg, StandaloneConfigEtcdStore.Get exampleJson none kv1 "acme" "prod" "svc" "v1"
        = .error (NewError .ErrTypeNotFound msg)) ∧
      ∀ k, k ≠ standaloneKey "acme" "prod" "svc" "v1" → kv1.get k = exampleEtcd.get k :=
  (C24_store_delete exampleJson exampleGroupJson exampleEtcd "acme" "prod" "svc" "v1").1
    "v1" exampleDaoV1 rfl rfl

/-! ## The self-diff of a group -/

theorem NamedParamSet.Diff_self (ps : NamedParamSet) : ps.Diff ps = [] := by
  apply List.eq_nil_iff_forall_not_mem.mpr
  intro d hd
  rcases (mem_Diff_iff ps ps d).mp hd with
    ⟨k, v, _, h1, h2⟩ | ⟨k, o, n, _, h1, h2, hne⟩ | ⟨k, v, _, h1, h2⟩
  · rw [h1] at h2; cases h2
  · rw [h1] at h2; cases h2; exact hne rfl
  · rw [h1] at h2; cases h2

theorem DiffMap.contains_set (m : DiffMap) (name k : String) (value : List Diff) :
    (m.set name value).contains k = true ↔ k = name ∨ m.contains k = true := by
  by_cases h : k = name
  · subst h
    simp [DiffMap.set, DiffMap.contains, List.lookup]
  · have hk : (k == name) = false := by simpa using h
    simp only [DiffMap.set, DiffMap.contains, List.lookup, hk, h, false_or]
    rw [lookup_filter_ne m.entries name k h]

theorem ConfigGroup.ParamSet_of_mem (g : ConfigGroup)
    (hd : (g.paramSets.map (fun q => q.name)).Nodup) (q : NamedParamSet)
    (hq : q ∈ g.paramSets) : g.ParamSet q.name = .ok q := by
  unfold ConfigGroup.ParamSet
  cases hf : g.paramSets.find? (fun ps => ps.name == q.name) with
  | none =>
    have := List.find?_eq_none.mp hf q hq
    simp at this
  | some p =>
    have hp : p ∈ g.paramSets := List.mem_of_find?_eq_some hf
    have hname : p.name = q.name := by simpa using List.find?_some hf
    have : p = q := List.inj_on_of_nodup_map hd hp hq hname
    rw [this]

theorem foldl_groupStepLatest_all_present (N : ConfigGroup) (l : List NamedParamSet)
    (m : DiffMap) (h : ∀ q ∈ l, ∃ p, N.ParamSet q.name = .ok p) :
    l.foldl (groupStepLatest N) m = m := by
  induction l generalizing m with
  | nil => rfl
  | cons q l ih =>
    obtain ⟨p, hp⟩ := h q (List.mem_cons_self _ _)
    rw [List.foldl_cons, ih _ (fun x hx => h x (List.mem_cons_of_mem _ hx))]
    simp [groupStepLatest, hp]

theorem foldl_groupStepNew_self (L : ConfigGroup) (l : List NamedParamSet) (m : DiffMap)
    (h : ∀ q ∈ l, L.ParamSet q.name = .ok q) :
    (∀ n, (l.foldl (groupStepNew L) m).contains n = true
      ↔ n ∈ l.map (fun q => q.name) ∨ m.contains n = true) ∧
    ((∀ n, m.get n = []) → ∀ n, (l.foldl (groupStepNew L) m).get n = []) := by
  induction l generalizing m with
  | nil => simp
  | cons q l ih =>
    have hq := h q (List.mem_cons_self _ _)
    have hstep : groupStepNew L m q = m.set q.name [] := by
      simp [groupStepNew, hq, NamedParamSet.Diff_self]
    obtain ⟨ih1, ih2⟩ := ih (m.set q.name []) (fun x hx => h x (List.mem_cons_of_mem _ hx))
    rw [List.foldl_cons, hstep]
    constructor
    · intro n
      rw [ih1 n, DiffMap.contains_set, List.map_cons, List.mem_cons]
      tauto
    · intro hm n
      apply ih2
      intro k
      by_cases hk : k = q.name
      · subst hk
        exact DiffMap.get_set_self m _ _
      · rw [DiffMap.get_set_other m _ _ _ hk]
        exact hm k

/-- C28: for a group `g` whose sub-set names are pairwise distinct, `g.Diff(g)` has an entry
for exactly the sub-set names of `g` and every entry is the empty list; so the self-diff is
the empty map exactly when the group has no sub-set. -/
theorem C28_group_self_diff (g : ConfigGroup)
    (hd : (g.paramSets.map (fun q => q.name)).Nodup) :
    (∀ n, (g.Diff g).contains n = true ↔ n ∈ g.paramSets.map (fun q => q.name)) ∧
    (∀ n, (g.Diff g).get n = []) ∧
    ((g.Diff g).entries = [] ↔ g.paramSets = []) := by
  have hself : ∀ q ∈ g.paramSets, g.ParamSet q.name = .ok q :=
    fun q hq => ConfigGroup.ParamSet_of_mem g hd q hq
  have hdiff : g.Diff g = g.paramSets.foldl (groupStepNew g) ⟨[]⟩ := by
    unfold ConfigGroup.Diff
    simp only
    exact foldl_groupStepLatest_all_present g g.paramSets _ (fun q hq => ⟨q, hself q hq⟩)
  obtain ⟨h1, h2⟩ := foldl_groupStepNew_self g g.paramSets ⟨[]⟩ hself
  have hcontains : ∀ n, (g.Diff g).contains n = true ↔ n ∈ g.paramSets.map (fun q => q.name) := by
    intro n
    rw [hdiff, h1 n]
    simp [DiffMap.contains]
  refine ⟨hcontains, ?_, ?_⟩
  · intro n
    rw [hdiff]
    exact h2 (fun k => rfl) n
  · constructor
    · intro hempty
      cases hps : g.paramSets with
      | nil => rfl
      | cons q l =>
        exfalso
        have hc := (hcontains q.name).mpr (by rw [hps]; simp)
        simp [DiffMap.contains, hempty] at hc
    · intro hps
      rw [hdiff, hps]
      rfl

/-- C28 at the example group with the one sub-set `svc`: its self-diff has the one entry
`svc`, which is empty. -/
theorem C28_group_self_diff_witness :
    (∀ n, (exampleGroup.Diff exampleGroup).contains n = true
      ↔ n ∈ exampleGroup.paramSets.map (fun q => q.name)) ∧
    (∀ n, (exampleGroup.Diff exampleGroup).get n = []) ∧
    ((exampleGroup.Diff exampleGroup).entries = [] ↔ exampleGroup.paramSets = []) :=
  C28_group_self_diff exampleGroup (by decide)

/-! ## The diff as a patch -/

theorem applyDiffs_other (l : List Diff) (m : String → Option String) (k : String)
    (h : ∀ d ∈ l, d.Key ≠ k) : applyDiffs l m k = m k := by
  induction l generalizing m with
  | nil => rfl
  | cons d l ih =>
    have hd : ¬ k = d.Key := fun e => h d (List.mem_cons_self _ _) e.symm
    unfold applyDiffs at ih ⊢
    rw [List.foldl_cons, ih _ (fun x hx => h x (List.mem_cons_of_mem _ hx))]
    simp [applyDiff, hd]

theorem applyDiffs_of_mem (l : List Diff) (m : String → Option String) (d : Diff)
    (hnd : (l.map Diff.Key).Nodup) (hd : d ∈ l) : applyDiffs l m d.Key = d.result := by
  obtain ⟨l1, l2, rfl⟩ := List.append_of_mem hd
  have hl2 : ∀ e ∈ l2, e.Key ≠ d.Key := by
    intro e he heq
    rw [List.map_append, List.map_cons] at hnd
    have h2 := (List.nodup_append.mp hnd).2.1
    exact (List.nodup_cons.mp h2).1 (List.mem_map.mpr ⟨e, he, heq⟩)
  have happ : applyDiffs (l1 ++ d :: l2) m = applyDiffs l2 (applyDiff (applyDiffs l1 m) d) := by
    unfold applyDiffs
    rw [List.foldl_append, List.foldl_cons]
  rw [happ, applyDiffs_other l2 _ _ hl2]
  simp [applyDiff]

/-- C27: the diff is a complete patch. Applying the entries of `new.Diff(reference)` to the
mapping of `reference` yields the mapping of `new`, key by key; so the diff is empty exactly
when the two mappings are equal; and the diff does not depend on the names of the two
sets. -/
theorem C27_diff_is_patch (new reference : NamedParamSet) :
    (∀ k, applyDiffs (new.Diff reference) reference.params.get k = new.params.get k) ∧
    (new.Diff reference = [] ↔ ∀ k, new.params.get k = reference.params.get k) ∧
    (∀ name1 name2 : String,
      (NewParamSet name1 new.params).Diff (NewParamSet name2 reference.params)
        = new.Diff reference) := by
  have hnd := Diff_keys_nodup new reference
  have hpatch : ∀ k, applyDiffs (new.Diff reference) reference.params.get k
      = new.params.get k := by
    intro k
    cases hN : new.params.get k with
    | none =>
      cases hL : reference.params.get k with
      | none =>
        rw [applyDiffs_other _ _ k, hL]
        intro d hd hk
        rcases (mem_Diff_iff new reference d).mp hd with
          ⟨k2, v, rfl, h1, _⟩ | ⟨k2, o, n, rfl, h1, _, _⟩ | ⟨k2, v, rfl, h1, _⟩
        · simp only [Diff.Key] at hk; subst hk; rw [hN] at h1; cases h1
        · simp only [Diff.Key] at hk; subst hk; rw [hN] at h1; cases h1
        · simp only [Diff.Key] at hk; subst hk; rw [hL] at h1; cases h1
      | some v =>
        have hmem : Diff.Deletion k v ∈ new.Diff reference :=
          (mem_Diff_iff new reference _).mpr (Or.inr (Or.inr ⟨k, v, rfl, hL, hN⟩))
        exact applyDiffs_of_mem _ _ _ hnd hmem
    | some n =>
      cases hL : reference.params.get k with
      | none =>
        have hmem : Diff.Addition k n ∈ new.Diff reference :=
          (mem_Diff_iff new reference _).mpr (Or.inl ⟨k, n, rfl, hN, hL⟩)
        exact applyDiffs_of_mem _ _ _ hnd hmem
      | some o =>
        by_cases hne : n = o
        · subst hne
          rw [applyDiffs_other _ _ k, hL]
          intro d hd hk
          rcases (mem_Diff_iff new reference d).mp hd with
            ⟨k2, v, rfl, _, h2⟩ | ⟨k2, o2, n2, rfl, h1, h2, hne2⟩ | ⟨k2, v, rfl, _, h2⟩
          · simp only [Diff.Key] at hk; subst hk; rw [hL] at h2; cases h2
          · simp only [Diff.Key] at hk
            subst hk
            rw [hN] at h1
            rw [hL] at h2
            cases h1
            cases h2
            exact hne2 rfl
          · simp only [Diff.Key] at hk; subst hk; rw [hN] at h2; cases h2
        · have hmem : Diff.Replace k n o ∈ new.Diff reference :=
            (mem_Diff_iff new reference _).mpr (Or.inr (Or.inl ⟨k, o, n, rfl, hN, hL, hne⟩))
          exact applyDiffs_of_mem _ _ _ hnd hmem
  refine ⟨hpatch, ⟨?_, ?_⟩, fun _ _ => rfl⟩
  · intro hnil k
    have h := hpatch k
    rw [hnil] at h
    exact h.symm
  · intro heq
    apply List.eq_nil_iff_forall_not_mem.mpr
    intro d hd
    rcases (mem_Diff_iff new reference d).mp hd with
      ⟨k, v, _, h1, h2⟩ | ⟨k, o, n, _, h1, h2, hne⟩ | ⟨k, v, _, h1, h2⟩
    · rw [heq k, h2] at h1; cases h1
    · rw [heq k, h2] at h1; cases h1; exact hne rfl
    · rw [← heq k, h2] at h1; cases h1

/-! ## Storage keys -/

theorem chars_split_unique (a b r s : List Char) (ha : '/' ∉ a) (hb : '/' ∉ b)
    (h : a ++ '/' :: r = b ++ '/' :: s) : a = b ∧ r = s := by
  induction a generalizing b with
  | nil =>
    cases b with
    | nil => simpa using h
    | cons y b =>
      simp only [List.nil_append, List.cons_append, List.cons.injEq] at h
      exact absurd (h.1 ▸ List.mem_cons_self _ _) hb
  | cons x a ih =>
    cases b with
    | nil =>
      simp only [List.nil_append, List.cons_append, List.cons.injEq] at h
      exact absurd (h.1 ▸ List.mem_cons_self _ _) ha
    | cons y b =>
      simp only [List.cons_append, List.cons.injEq] at h
      obtain ⟨hab, hrs⟩ := ih b (fun hm => ha (List.mem_cons_of_mem _ hm))
        (fun hm => hb (List.mem_cons_of_mem _ hm)) h.2
      exact ⟨by rw [h.1, hab], hrs⟩

theorem chars_split_prefix (a b r s : List Char) (ha : '/' ∉ a) (hb : '/' ∉ b)
    (h : a ++ '/' :: r <+: b ++ '/' :: s) : a = b ∧ r <+: s := by
  obtain ⟨t, ht⟩ := h
  have h2 : a ++ '/' :: (r ++ t) = b ++ '/' :: s := by
    rw [← ht]
    simp
  obtain ⟨hab, hrs⟩ := chars_split_unique a b (r ++ t) s ha hb h2
  exact ⟨hab, ⟨t, hrs⟩⟩

theorem standaloneKey_data (org namespace_ name version : String) :
    (standaloneKey org namespace_ name version).data
      = "standalone/".data ++ (org.data ++ '/' :: (namespace_.data ++ '/' ::
          (name.data ++ '/' :: version.data))) := by
  simp only [standaloneKey, StandaloneConfigDAO.Key, String.data_append]
  simp [List.append_assoc]

theorem groupKey_data (org namespace_ name version : String) :
    (groupKey org namespace_ name version).data
      = "groups/".data ++ (org.data ++ '/' :: (namespace_.data ++ '/' ::
          (name.data ++ '/' :: version.data))) := by
  simp only [groupKey, ConfigGroupDAO.Key, String.data_append]
  simp [List.append_assoc]

theorem placementKey_data (configType org namespace_ name version taskId : String) :
    (placementKey configType org namespace_ name version taskId).data
      = "placements/".data ++ (configType.data ++ '/' :: (org.data ++ '/' ::
          (namespace_.data ++ '/' :: (name.data ++ '/' :: (version.data ++ '/' ::
            taskId.data))))) := by
  simp only [placementKey, PlacementTaskDAO.Key, String.data_append]
  simp [List.append_assoc]

theorem standalonePrefix_data (org namespace_ : String) :
    (StandaloneConfigDAO.KeyPrefixAll
        ⟨org, namespace_, "", "", 0, ParamMap.empty⟩).data
      = "standalone/".data ++ (org.data ++ '/' :: (namespace_.data ++ ['/'])) := by
  simp only [StandaloneConfigDAO.KeyPrefixAll, String.data_append]
  simp [List.append_assoc]

theorem groupPrefix_data (org namespace_ : String) :
    (ConfigGroupDAO.KeyPrefixAll ⟨org, namespace_, "", "", 0, []⟩).data
      = "groups/".data ++ (org.data ++ '/' :: (namespace_.data ++ ['/'])) := by
  simp only [ConfigGroupDAO.KeyPrefixAll, String.data_append]
  simp [List.append_assoc]

theorem placementPrefix_data (configType org namespace_ name version : String) :
    (PlacementTaskDAO.KeyPrefixByConfig ⟨"", org, namespace_, name, version, "", 0, 0, 0⟩
        configType).data
      = "placements/".data ++ (configType.data ++ '/' :: (org.data ++ '/' ::
          (namespace_.data ++ '/' :: (name.data ++ '/' :: (version.data ++ ['/']))))) := by
  simp only [PlacementTaskDAO.KeyPrefixByConfig, String.data_append]
  simp [List.append_assoc]

theorem family_key_inj (pre : List Char) (o1 n1 m1 v1 o2 n2 m2 v2 : String)
    (ho1 : SlashFree o1) (hn1 : SlashFree n1) (hm1 : SlashFree m1)
    (ho2 : SlashFree o2) (hn2 : SlashFree n2) (hm2 : SlashFree m2)
    (h : pre ++ (o1.data ++ '/' :: (n1.data ++ '/' :: (m1.data ++ '/' :: v1.data)))
      = pre ++ (o2.data ++ '/' :: (n2.data ++ '/' :: (m2.data ++ '/' :: v2.data)))) :
    o1 = o2 ∧ n1 = n2 ∧ m1 = m2 ∧ v1 = v2 := by
  have h0 := List.append_cancel_left h
  obtain ⟨e1, h1⟩ := chars_split_unique _ _ _ _ ho1 ho2 h0
  obtain ⟨e2, h2⟩ := chars_split_unique _ _ _ _ hn1 hn2 h1
  obtain ⟨e3, h3⟩ := chars_split_unique _ _ _ _ hm1 hm2 h2
  exact ⟨String.ext e1, String.ext e2, String.ext e3, String.ext h3⟩

theorem standalone_head (x : List Char) : ("standalone/".data ++ x).head? = some 's' := rfl

theorem groups_head (x : List Char) : ("groups/".data ++ x).head? = some 'g' := rfl

theorem placements_head (x : List Char) : ("placements/".data ++ x).head? = some 'p' := rfl

theorem placement_key_inj (k1 o1 n1 m1 v1 t1 k2 o2 n2 m2 v2 t2 : String)
    (hk1 : SlashFree k1) (ho1 : SlashFree o1) (hn1 : SlashFree n1) (hm1 : SlashFree m1)
    (hv1 : SlashFree v1)
    (hk2 : SlashFree k2) (ho2 : SlashFree o2) (hn2 : SlashFree n2) (hm2 : SlashFree m2)
    (hv2 : SlashFree v2)
    (h : placementKey k1 o1 n1 m1 v1 t1 = placementKey k2 o2 n2 m2 v2 t2) :
    k1 = k2 ∧ o1 = o2 ∧ n1 = n2 ∧ m1 = m2 ∧ v1 = v2 ∧ t1 = t2 := by
  have hd := congrArg String.data h
  rw [placementKey_data, placementKey_data] at hd
  have h0 := List.append_cancel_left hd
  obtain ⟨e0, h1⟩ := chars_split_unique _ _ _ _ hk1 hk2 h0
  obtain ⟨e1, h2⟩ := chars_split_unique _ _ _ _ ho1 ho2 h1
  obtain ⟨e2, h3⟩ := chars_split_unique _ _ _ _ hn1 hn2 h2
  obtain ⟨e3, h4⟩ := chars_split_unique _ _ _ _ hm1 hm2 h3
  obtain ⟨e4, h5⟩ := chars_split_unique _ _ _ _ hv1 hv2 h4
  exact ⟨String.ext e0, String.ext e1, String.ext e2, String.ext e3, String.ext e4,
    String.ext h5⟩

/-- C30: for identifiers that contain no `/`, the storage keys are injective and the three
key families are disjoint: equal standalone keys, equal groups keys and equal placements
keys come from equal tuples; every point key starts with the scan prefix of its own
(org, namespace), respectively of its own configuration; and a key of one family is never a
key of another. -/
theorem C30_keys_injective (k1 o1 n1 m1 v1 t1 k2 o2 n2 m2 v2 t2 : String)
    (hk1 : SlashFree k1) (ho1 : SlashFree o1) (hn1 : SlashFree n1) (hm1 : SlashFree m1)
    (hv1 : SlashFree v1)
    (hk2 : SlashFree k2) (ho2 : SlashFree o2) (hn2 : SlashFree n2) (hm2 : SlashFree m2)
    (hv2 : SlashFree v2) :
    (standaloneKey o1 n1 m1 v1 = standaloneKey o2 n2 m2 v2 →
      o1 = o2 ∧ n1 = n2 ∧ m1 = m2 ∧ v1 = v2) ∧
    (groupKey o1 n1 m1 v1 = groupKey o2 n2 m2 v2 →
      o1 = o2 ∧ n1 = n2 ∧ m1 = m2 ∧ v1 = v2) ∧
    (placementKey k1 o1 n1 m1 v1 t1 = placementKey k2 o2 n2 m2 v2 t2 →
      k1 = k2 ∧ o1 = o2 ∧ n1 = n2 ∧ m1 = m2 ∧ v1 = v2 ∧ t1 = t2) ∧
    StartsWith (standaloneKey o1 n1 m1 v1)
      (StandaloneConfigDAO.KeyPrefixAll ⟨o1, n1, "", "", 0, ParamMap.empty⟩) ∧
    StartsWith (groupKey o1 n1 m1 v1) (ConfigGroupDAO.KeyPrefixAll ⟨o1, n1, "", "", 0, []⟩) ∧
    StartsWith (placementKey k1 o1 n1 m1 v1 t1)
      (PlacementTaskDAO.KeyPrefixByConfig ⟨"", o1, n1, m1, v1, "", 0, 0, 0⟩ k1) ∧
    standaloneKey o1 n1 m1 v1 ≠ groupKey o2 n2 m2 v2 ∧
    standaloneKey o1 n1 m1 v1 ≠ placementKey k2 o2 n2 m2 v2 t2 ∧
    groupKey o1 n1 m1 v1 ≠ placementKey k2 o2 n2 m2 v2 t2 := by
  refine ⟨?_, ?_, ?_, ?_, ?_, ?_, ?_, ?_, ?_⟩
  · intro h
    have hd := congrArg String.data h
    rw [standaloneKey_data, standaloneKey_data] at hd
    exact family_key_inj _ o1 n1 m1 v1 o2 n2 m2 v2 ho1 hn1 hm1 ho2 hn2 hm2 hd
  · intro h
    have hd := congrArg String.data h
    rw [groupKey_data, groupKey_data] at hd
    exact family_key_inj _ o1 n1 m1 v1 o2 n2 m2 v2 ho1 hn1 hm1 ho2 hn2 hm2 hd
  · exact placement_key_inj k1 o1 n1 m1 v1 t1 k2 o2 n2 m2 v2 t2 hk1 ho1 hn1 hm1 hv1 hk2 ho2
      hn2 hm2 hv2
  · show _ <+: _
    rw [standaloneKey_data, standalonePrefix_data]
    exact ⟨m1.data ++ '/' :: v1.data, by simp⟩
  · show _ <+: _
    rw [groupKey_data, groupPrefix_data]
    exact ⟨m1.data ++ '/' :: v1.data, by simp⟩
  · show _ <+: _
    rw [placementKey_data, placementPrefix_data]
    exact ⟨t1.data, by simp⟩
  · intro h
    have hd := congrArg (fun s => s.data.head?) h
    simp only at hd
    rw [standaloneKey_data, groupKey_data, standalone_head, groups_head] at hd
    exact absurd hd (by decide)
  · intro h
    have hd := congrArg (fun s => s.data.head?) h
    simp only at hd
    rw [standaloneKey_data, placementKey_data, standalone_head, placements_head] at hd
    exact absurd hd (by decide)
  · intro h
    have hd := congrArg (fun s => s.data.head?) h
    simp only at hd
    rw [groupKey_data, placementKey_data, groups_head, placements_head] at hd
    exact absurd hd (by decide)

/-- C30 at the identifiers of the examples. -/
theorem C30_keys_injective_witness :
    (standaloneKey "acme" "prod" "svc" "v1" = standaloneKey "acme" "prod" "svc" "v1" →
      "acme" = "acme" ∧ "prod" = "prod" ∧ "svc" = "svc" ∧ "v1" = "v1") ∧
    StartsWith (standaloneKey "acme" "prod" "svc" "v1")
      (StandaloneConfigDAO.KeyPrefixAll ⟨"acme", "prod", "", "", 0, ParamMap.empty⟩) ∧
    standaloneKey "acme" "prod" "svc" "v1" ≠ groupKey "acme" "prod" "svc" "v1" :=
  ⟨(C30_keys_injective "standalone" "acme" "prod" "svc" "v1" "t1" "standalone" "acme" "prod"
      "svc" "v1" "t1" (by decide) (by decide) (by decide) (by decide) (by decide) (by decide)
      (by decide) (by decide) (by decide) (by decide)).1,
   (C30_keys_injective "standalone" "acme" "prod" "svc" "v1" "t1" "standalone" "acme" "prod"
      "svc" "v1" "t1" (by decide) (by decide) (by decide) (by decide) (by decide) (by decide)
      (by decide) (by decide) (by decide) (by decide)).2.2.2.1,
   (C30_keys_injective "standalone" "acme" "prod" "svc" "v1" "t1" "standalone" "acme" "prod"
      "svc" "v1" "t1" (by decide) (by decide) (by decide) (by decide) (by decide) (by decide)
      (by decide) (by decide) (by decide) (by decide)).2.2.2.2.2.2.1⟩

/-! ## Listing configurations -/

/-- C23 as stated fails when an identifier contains a `/`: the configuration with org `acme`
and namespace `prod/eu` is put into the empty store; `List("acme", "prod")` scans the prefix
`standalone/acme/prod/`, which its key `standalone/acme/prod/eu/svc/v1` starts with, and
returns it although its namespace is not `prod`. -/
theorem C23_counterexample :
    StandaloneConfigEtcdStore.Put exampleJsonSlash none ⟨[]⟩ exampleDaoSlash.toConfig
      = (.ok (), ⟨[("standalone/acme/prod/eu/svc/v1", "v1")]⟩) ∧
    StandaloneConfigEtcdStore.List exampleJsonSlash none
        ⟨[("standalone/acme/prod/eu/svc/v1", "v1")]⟩ "acme" "prod"
      = .ok [exampleDaoSlash.toConfig] ∧
    exampleDaoSlash.toConfig.base.org = "acme" ∧
    exampleDaoSlash.toConfig.base.namespace_ ≠ "prod" := by
  refine ⟨by rfl, by rfl, by rfl, by decide⟩

theorem Etcd.mem_visible_iff (kv : Etcd) (k v : String) :
    (k, v) ∈ kv.visible ↔ kv.get k = some v := by
  cases kv with
  | mk kvs =>
    simp only [Etcd.visible, Etcd.get]
    induction kvs with
    | nil => simp
    | cons e es ih =>
      obtain ⟨a, b⟩ := e
      rw [List.foldr_cons, List.mem_cons, List.mem_filter, ih]
      by_cases hka : k = a
      · subst hka
        simp only [List.lookup, beq_self_eq_true, Option.some.injEq, Prod.mk.injEq, true_and,
          ne_eq, not_true_eq_false, decide_False, Bool.false_eq_true, and_false, or_false]
        exact eq_comm
      · have hk : (k == a) = false := by simpa using hka
        simp [List.lookup, hk, hka]

theorem Etcd.visible_keys_nodup (kv : Etcd) : (kv.visible.map Prod.fst).Nodup := by
  cases kv with
  | mk kvs =>
    simp only [Etcd.visible]
    induction kvs with
    | nil => simp
    | cons e es ih =>
      rw [List.foldr_cons, List.map_cons, List.nodup_cons]
      constructor
      · intro hmem
        obtain ⟨x, hx, hxe⟩ := List.mem_map.mp hmem
        have := (List.mem_filter.mp hx).2
        simp [hxe] at this
      · exact ((List.filter_sublist _).map Prod.fst).nodup ih

theorem scan_foldl_eq_filterMap {α β : Type} (un : String → Except String α) (f : α → β)
    (kvs : List (String × String)) (init : List β) :
    kvs.foldl (fun configs e =>
        match un e.2 with
        | .error _ => configs
        | .ok dao => configs ++ [f dao]) init
      = init ++ kvs.filterMap (fun e =>
        match un e.2 with
        | .error _ => none
        | .ok dao => some (f dao)) := by
  induction kvs generalizing init with
  | nil => simp
  | cons e es ih =>
    rw [List.foldl_cons, ih, List.filterMap_cons]
    cases un e.2 <;> simp

theorem scan_filterMap_keys {α β : Type} (un : String → Except String α) (f : α → β)
    (keyOf : β → String) (l : List (String × String))
    (h : ∀ e ∈ l, ∃ dao, un e.2 = .ok dao ∧ keyOf (f dao) = e.1) :
    (l.filterMap (fun e =>
        match un e.2 with
        | .error _ => none
        | .ok dao => some (f dao))).map keyOf = l.map Prod.fst := by
  induction l with
  | nil => rfl
  | cons e es ih =>
    obtain ⟨dao, hun, hk⟩ := h e (List.mem_cons_self _ _)
    rw [List.filterMap_cons]
    simp only [hun, List.map_cons, hk]
    rw [ih (fun x hx => h x (List.mem_cons_of_mem _ hx))]

theorem scan_prefix_inj (pre : List Char) (org ns o n : String) (rest : List Char)
    (horg : SlashFree org) (hns : SlashFree ns) (ho : SlashFree o) (hn : SlashFree n)
    (h : pre ++ (org.data ++ '/' :: (ns.data ++ ['/']))
      <+: pre ++ (o.data ++ '/' :: (n.data ++ '/' :: rest))) : org = o ∧ ns = n := by
  have h0 := (List.prefix_append_right_inj pre).mp h
  obtain ⟨e1, h1⟩ := chars_split_prefix _ _ _ _ horg ho h0
  obtain ⟨e2, _⟩ := chars_split_prefix _ _ _ _ hns hn h1
  exact ⟨String.ext e1, String.ext e2⟩

theorem scan_result {α β : Type} (un : String → Except String α) (f : α → β)
    (keyOf : β → String) (kv : Etcd) (pfx : String)
    (hst : ∀ k v, kv.get k = some v → pfx.data <+: k.data →
      ∃ dao, un v = .ok dao ∧ keyOf (f dao) = k) :
    ∃ kvs, kv.GetPrefix none pfx = .ok kvs ∧
      (scanDecode un f kvs).Nodup ∧
      ∀ c, c ∈ scanDecode un f kvs
        ↔ ∃ k v dao, kv.get k = some v ∧ pfx.data <+: k.data ∧ un v = .ok dao ∧ f dao = c := by
  refine ⟨_, rfl, ?_, ?_⟩
  · unfold scanDecode
    rw [scan_foldl_eq_filterMap, List.nil_append]
    apply List.Nodup.of_map keyOf
    have hperm := List.perm_insertionSort (fun a b : String × String => a.1.data ≤ b.1.data)
      (kv.visible.filter (fun e => pfx.data.isPrefixOf e.1.data))
    rw [scan_filterMap_keys un f keyOf]
    · exact (hperm.map Prod.fst).nodup_iff.mpr
        (((List.filter_sublist _).map Prod.fst).nodup (Etcd.visible_keys_nodup kv))
    · intro e he
      have he2 := List.mem_filter.mp (hperm.subset he)
      have hget := (Etcd.mem_visible_iff kv e.1 e.2).mp he2.1
      exact hst e.1 e.2 hget (List.isPrefixOf_iff_prefix.mp he2.2)
  · intro c
    unfold scanDecode
    rw [scan_foldl_eq_filterMap, List.nil_append, List.mem_filterMap]
    have hperm := List.perm_insertionSort (fun a b : String × String => a.1.data ≤ b.1.data)
      (kv.visible.filter (fun e => pfx.data.isPrefixOf e.1.data))
    constructor
    · rintro ⟨e, he, hg⟩
      have he2 := List.mem_filter.mp (hperm.subset he)
      have hget := (Etcd.mem_visible_iff kv e.1 e.2).mp he2.1
      cases hun : un e.2 with
      | error err => rw [hun] at hg; cases hg
      | ok dao =>
        rw [hun] at hg
        exact ⟨e.1, e.2, dao, hget, List.isPrefixOf_iff_prefix.mp he2.2, hun,
          Option.some.inj hg⟩
    · rintro ⟨k, v, dao, hget, hpre, hun, hf⟩
      refine ⟨(k, v), hperm.symm.subset (List.mem_filter.mpr
        ⟨(Etcd.mem_visible_iff kv k v).mpr hget, List.isPrefixOf_iff_prefix.mpr hpre⟩), ?_⟩
      simp only [hun, hf]

/-- C23, amended: for identifiers that contain no `/`, `List` is scoped to one namespace.
Let every record of the kind's key family decode, be stored under its own key and have an
org and a namespace without `/`, and let the arguments contain no `/`. Then `List(org,
namespace)` of either kind returns, each once, exactly the stored artifacts of that kind
whose org and namespace are the arguments. -/
theorem C23_list_scoped (jsonS : JsonCodec StandaloneConfigDAO)
    (jsonG : JsonCodec ConfigGroupDAO) (kv : Etcd) (org namespace_ : String)
    (horg : SlashFree org) (hns : SlashFree namespace_)
    (hstoreS : ∀ k v, kv.get k = some v → StartsWith k "standalone/" →
      ∃ dao, jsonS.Unmarshal v = .ok dao ∧ k = dao.Key ∧ SlashFree dao.Org ∧
        SlashFree dao.Namespace)
    (hstoreG : ∀ k v, kv.get k = some v → StartsWith k "groups/" →
      ∃ dao, jsonG.Unmarshal v = .ok dao ∧ k = dao.Key ∧ SlashFree dao.Org ∧
        SlashFree dao.Namespace) :
    (∃ configs, StandaloneConfigEtcdStore.List jsonS none kv org namespace_ = .ok configs ∧
      configs.Nodup ∧
      ∀ c, c ∈ configs ↔
        (∃ v dao, kv.get dao.Key = some v ∧ jsonS.Unmarshal v = .ok dao ∧ dao.toConfig = c) ∧
        c.base.org = org ∧ c.base.namespace_ = namespace_) ∧
    (∃ groups, ConfigGroupEtcdStore.List jsonG none kv org namespace_ = .ok groups ∧
      groups.Nodup ∧
      ∀ g, g ∈ groups ↔
        (∃ v dao, kv.get dao.Key = some v ∧ jsonG.Unmarshal v = .ok dao ∧ dao.toConfig = g) ∧
        g.base.org = org ∧ g.base.namespace_ = namespace_) := by
  constructor
  · have hfam : ∀ k : String,
        (StandaloneConfigDAO.KeyPrefixAll ⟨org, namespace_, "", "", 0, ParamMap.empty⟩).data
          <+: k.data → StartsWith k "standalone/" := by
      intro k hk
      rw [standalonePrefix_data] at hk
      exact (List.prefix_append _ _).trans hk
    obtain ⟨kvs, hscan, hnd, hmem⟩ := scan_result jsonS.Unmarshal StandaloneConfigDAO.toConfig
      (fun c => standaloneKey c.base.org c.base.namespace_ c.Name c.base.version) kv
      (StandaloneConfigDAO.KeyPrefixAll ⟨org, namespace_, "", "", 0, ParamMap.empty⟩)
      (by
        intro k v hget hpre
        obtain ⟨dao, hun, hk, _, _⟩ := hstoreS k v hget (hfam k hpre)
        exact ⟨dao, hun, hk.symm⟩)
    refine ⟨_, by simp only [StandaloneConfigEtcdStore.List, hscan], hnd, ?_⟩
    intro c
    rw [hmem c]
    constructor
    · rintro ⟨k, v, dao, hget, hpre, hun, hf⟩
      obtain ⟨dao2, hun2, hk, ho, hn⟩ := hstoreS k v hget (hfam k hpre)
      rw [hun] at hun2
      cases hun2
      subst hk
      have hpre2 := hpre
      rw [standalonePrefix_data] at hpre2
      have hkey : (StandaloneConfigDAO.Key dao).data
          = (standaloneKey dao.Org dao.Namespace dao.Name dao.Version).data := rfl
      rw [hkey, standaloneKey_data] at hpre2
      obtain ⟨e1, e2⟩ := scan_prefix_inj _ org namespace_ dao.Org dao.Namespace _ horg hns ho hn
        hpre2
      subst hf
      exact ⟨⟨v, dao, hget, hun, rfl⟩, e1.symm, e2.symm⟩
    · rintro ⟨⟨v, dao, hget, hun, hf⟩, ho, hn⟩
      subst hf
      refine ⟨dao.Key, v, dao, hget, ?_, hun, rfl⟩
      have ho2 : dao.Org = org := ho
      have hn2 : dao.Namespace = namespace_ := hn
      have hkey : (StandaloneConfigDAO.Key dao).data
          = (standaloneKey dao.Org dao.Namespace dao.Name dao.Version).data := rfl
      rw [hkey, standaloneKey_data, standalonePrefix_data, ho2, hn2]
      exact ⟨dao.Name.data ++ '/' :: dao.Version.data, by simp⟩
  · have hfam : ∀ k : String,
        (ConfigGroupDAO.KeyPrefixAll ⟨org, namespace_, "", "", 0, []⟩).data
          <+: k.data → StartsWith k "groups/" := by
      intro k hk
      rw [groupPrefix_data] at hk
      exact (List.prefix_append _ _).trans hk
    obtain ⟨kvs, hscan, hnd, hmem⟩ := scan_result jsonG.Unmarshal ConfigGroupDAO.toConfig
      (fun g => groupKey g.base.org g.base.namespace_ g.name g.base.version) kv
      (ConfigGroupDAO.KeyPrefixAll ⟨org, namespace_, "", "", 0, []⟩)
      (by
        intro k v hget hpre
        obtain ⟨dao, hun, hk, _, _⟩ := hstoreG k v hget (hfam k hpre)
        exact ⟨dao, hun, hk.symm⟩)
    refine ⟨_, by simp only [ConfigGroupEtcdStore.List, hscan], hnd, ?_⟩
    intro g
    rw [hmem g]
    constructor
    · rintro ⟨k, v, dao, hget, hpre, hun, hf⟩
      obtain ⟨dao2, hun2, hk, ho, hn⟩ := hstoreG k v hget (hfam k hpre)
      rw [hun] at hun2
      cases hun2
      subst hk
      have hpre2 := hpre
      rw [groupPrefix_data] at hpre2
      have hkey : (ConfigGroupDAO.Key dao).data
          = (groupKey dao.Org dao.Namespace dao.Name dao.Version).data := rfl
      rw [hkey, groupKey_data] at hpre2
      obtain ⟨e1, e2⟩ := scan_prefix_inj _ org namespace_ dao.Org dao.Namespace _ horg hns ho hn
        hpre2
      subst hf
      exact ⟨⟨v, dao, hget, hun, rfl⟩, e1.symm, e2.symm⟩
    · rintro ⟨⟨v, dao, hget, hun, hf⟩, ho, hn⟩
      subst hf
      refine ⟨dao.Key, v, dao, hget, ?_, hun, rfl⟩
      have ho2 : dao.Org = org := ho
      have hn2 : dao.Namespace = namespace_ := hn
      have hkey : (ConfigGroupDAO.Key dao).data
          = (groupKey dao.Org dao.Namespace dao.Name dao.Version).data := rfl
      rw [hkey, groupKey_data, groupPrefix_data, ho2, hn2]
      exact ⟨dao.Name.data ++ '/' :: dao.Version.data, by simp⟩

theorem exampleEtcd_get (k v : String) (h : exampleEtcd.get k = some v) :
    (k = "standalone/acme/prod/svc/v1" ∧ v = "v1") ∨
    (k = "standalone/acme/prod/svc/v2" ∧ v = "v2") := by
  have hm := (Etcd.mem_visible_iff exampleEtcd k v).mpr h
  simp [Etcd.visible, exampleEtcd] at hm
  exact hm

/-- C23, amended, at the example store with the two versions of `acme/prod/svc`: the list of
the standalone configurations of `acme/prod` has no duplicate and holds exactly the stored
configurations of that org and namespace. -/
theorem C23_list_scoped_witness :
    ∃ configs, StandaloneConfigEtcdStore.List exampleJson none exampleEtcd "acme" "prod"
        = .ok configs ∧
      configs.Nodup ∧
      ∀ c, c ∈ configs ↔
        (∃ v dao, exampleEtcd.get dao.Key = some v ∧ exampleJson.Unmarshal v = .ok dao ∧
          dao.toConfig = c) ∧
        c.base.org = "acme" ∧ c.base.namespace_ = "prod" :=
  (C23_list_scoped exampleJson exampleGroupJson exampleEtcd "acme" "prod" (by decide)
    (by decide)
    (by
      intro k v h _
      rcases exampleEtcd_get k v h with ⟨rfl, rfl⟩ | ⟨rfl, rfl⟩
      · exact ⟨exampleDaoV1, rfl, rfl, by decide, by decide⟩
      · exact ⟨exampleDaoV2, rfl, rfl, by decide, by decide⟩)
    (by
      intro k v h hg
      rcases exampleEtcd_get k v h with ⟨rfl, rfl⟩ | ⟨rfl, rfl⟩
      · exact absurd hg (by decide)
      · exact absurd hg (by decide))).1

end Kuiper
